import Mathlib

/-!
# Aurora GFF reader (`src/aurora/gfffile.cpp`): shallow embedding and properties

The embedding follows `gfffile.cpp` function by function.

* unsigned 32/64-bit machine integers are `Nat` with explicit `% 2 ^ w`,
  signed ones are `Int`;
* a C++ `throw Common::Exception(..)` is `Fault.exception`, a failed `assert`
  is `Fault.assertion`, and an access the C++ standard leaves undefined
  (reading outside a buffer, `operator[]` outside a vector) is `Fault.undefined`;
* a `const GFFStruct *` into `GFFFile::_structs` is the index of the struct it
  points to;
* `float` and `double` values are carried as their IEEE-754 bit patterns.
-/

namespace Aurora

/-! ## Errors -/

/-- The messages with which `gfffile.cpp` throws a `Common::Exception`. -/
inductive ErrorKind where
  | unsupportedVersion (version : Nat)
  | seekError
  | readError
  | listIndicesBroken
  | fieldIndexOutOfRange (index count : Nat)
  | fieldIndicesIndexOutOfRange (index count : Nat)
  | fieldDataOffsetOutOfRange (offset count : Nat)
  | notChar
  | notInt
  | notDouble
  | notStringable
  | notLocString
  | notData
  | notVector
  | notOrientation
  | noSuchField
  | notStruct
  | notList
  deriving DecidableEq, Repr

/-- A `Common::Exception`: the message it was thrown with and the context
lines added to it by `Exception::add` on the way up (innermost first). -/
structure Exception where
  kind : ErrorKind
  stack : List String
  deriving DecidableEq, Repr

/-- The ways in which a call does not return normally. -/
inductive Fault where
  | exception (e : Exception)
  | assertion
  | undefined
  deriving DecidableEq, Repr

/-- The statement `throw Common::Exception(..)`. -/
def throwException {α : Type} (k : ErrorKind) : Except Fault α :=
  .error (.exception ⟨k, []⟩)

/-- The method `Common::Exception::add`. -/
def Exception.add (e : Exception) (s : String) : Exception :=
  { e with stack := e.stack ++ [s] }

/-! ## Machine integer conversions -/

/-- The cast `(int8) x` of an unsigned value. -/
def castInt8 (x : Nat) : Int :=
  if x % 2 ^ 8 < 2 ^ 7 then ((x % 2 ^ 8 : Nat) : Int) else ((x % 2 ^ 8 : Nat) : Int) - 2 ^ 8

/-- The cast `(int16) x` of an unsigned value. -/
def castInt16 (x : Nat) : Int :=
  if x % 2 ^ 16 < 2 ^ 15 then ((x % 2 ^ 16 : Nat) : Int) else ((x % 2 ^ 16 : Nat) : Int) - 2 ^ 16

/-- The cast `(int32) x` of an unsigned value. -/
def castInt32 (x : Nat) : Int :=
  if x % 2 ^ 32 < 2 ^ 31 then ((x % 2 ^ 32 : Nat) : Int) else ((x % 2 ^ 32 : Nat) : Int) - 2 ^ 32

/-- The cast `(int64) x` of an unsigned value. -/
def castInt64 (x : Nat) : Int :=
  if x % 2 ^ 64 < 2 ^ 63 then ((x % 2 ^ 64 : Nat) : Int) else ((x % 2 ^ 64 : Nat) : Int) - 2 ^ 64

/-- The cast `(uint64) i` of a signed value. -/
def castUint64 (i : Int) : Nat :=
  (i % 2 ^ 64).toNat

/-- The value of a byte sequence read as a little-endian unsigned integer. -/
def leValue : List Nat → Nat
  | [] => 0
  | b :: bs => b % 256 + 256 * leValue bs

/-- The value of a byte sequence read as a big-endian unsigned integer. -/
def beValue (bs : List Nat) : Nat :=
  leValue bs.reverse

/-! ## Strings -/

/-- A `Common::UString` holding ASCII text: the list of its character codes. -/
abbrev UString := List Nat

/-- Modelled from the spec: `Common::UString::readASCII` (common/ustring.cpp is not
among the sources) applied to the bytes it has read: the text is what stands
before the first NUL, the rest of the fixed-width field is padding. -/
def asciiOfBytes (bs : List Nat) : UString :=
  bs.takeWhile (fun b => b != 0)

/-! ## The byte stream -/

/-- Modelled from the spec: `Common::SeekableReadStream` (common/stream.h is not
among the sources), the interface of section 6: absolute `seek`, `pos`,
`readUint32LE`, bulk `read` and the error flag `err`. An operation that the
bytes of the stream cannot serve raises the error flag: a read that finds fewer
bytes than asked for returns the bytes there are, a seek beyond the end does
not move. -/
structure SeekableReadStream where
  data : List Nat
  position : Nat
  error : Bool
  deriving DecidableEq, Repr

namespace SeekableReadStream

/-- Modelled from the spec: `seek(absoluteOffset) -> bool`. A seek to an offset
of the stream, its end included, moves the position there. A seek beyond the
end is the "requested absolute seek impossible" of the spec: it returns false,
the position stays and the error flag is raised. The spec counts "stream error
flag set" among the read errors and lets every offset outside the stream make
the load fail; a caller that does not look at the result of the seek meets the
failure at `errorFlag()`. -/
def seek (gff : SeekableReadStream) (offset : Nat) : Bool × SeekableReadStream :=
  if offset ≤ gff.data.length then (true, { gff with position := offset })
  else (false, { gff with error := true })

/-- Modelled from the spec: `position() -> offset`. -/
def pos (gff : SeekableReadStream) : Nat :=
  gff.position

/-- Modelled from the spec: `errorFlag() -> bool`. -/
def err (gff : SeekableReadStream) : Bool :=
  gff.error

/-- The bytes a read of `n` bytes at offset `p` finds. -/
def bytesAt (data : List Nat) (p n : Nat) : List Nat :=
  ((data.drop p).take n).map (fun b => b % 256)

/-- Modelled from the spec: `read(buffer, n) -> bytesRead`. -/
def read (gff : SeekableReadStream) (n : Nat) : List Nat × SeekableReadStream :=
  let bs := bytesAt gff.data gff.position n
  (bs, { gff with position := gff.position + bs.length,
                  error := gff.error || decide (bs.length < n) })

/-- Modelled from the spec: `readUint32LE() -> uint32`; bytes a short read did
not deliver count as zero. -/
def readUint32LE (gff : SeekableReadStream) : Nat × SeekableReadStream :=
  let r := gff.read 4
  (leValue r.1, r.2)

/-- Modelled from the spec: the big-endian counterpart of `readUint32LE`, used
for the four-character tags. -/
def readUint32BE (gff : SeekableReadStream) : Nat × SeekableReadStream :=
  let r := gff.read 4
  (beValue (r.1 ++ List.replicate (4 - r.1.length) 0), r.2)

/-- Modelled from the spec: `Common::UString::readASCII(stream, length)`. -/
def readASCII (gff : SeekableReadStream) (length : Nat) : UString × SeekableReadStream :=
  let r := gff.read length
  (asciiOfBytes r.1, r.2)

end SeekableReadStream

/-! ## Pointers into the field data -/

/-- A `const byte *`: the buffer it points into and the offset in it. -/
structure BytePtr where
  mem : List Nat
  off : Nat
  deriving DecidableEq, Repr

/-- Pointer arithmetic `data + k`. -/
def BytePtr.add (p : BytePtr) (k : Nat) : BytePtr :=
  { p with off := p.off + k }

/-- The `n` bytes at `p`; reading outside the buffer is undefined. -/
def BytePtr.bytes (p : BytePtr) (n : Nat) : Except Fault (List Nat) :=
  if p.off + n ≤ p.mem.length then .ok (SeekableReadStream.bytesAt p.mem p.off n)
  else .error .undefined

/-- The dereference `*data`. -/
def BytePtr.deref (p : BytePtr) : Except Fault Nat :=
  (p.bytes 1).map leValue

/-- Modelled from the spec: the macro `READ_LE_UINT32` of common/endianness.h
(not among the sources): four little-endian bytes at the pointer. -/
def READ_LE_UINT32 (p : BytePtr) : Except Fault Nat :=
  (p.bytes 4).map leValue

/-- Modelled from the spec: the macro `READ_LE_UINT64` of common/endianness.h
(not among the sources): eight little-endian bytes at the pointer. -/
def READ_LE_UINT64 (p : BytePtr) : Except Fault Nat :=
  (p.bytes 8).map leValue

/-! ## Field types -/

/-- A `FieldType` value; `(FieldType) type` casts any 32-bit word read from the
field table to it. -/
abbrev FieldType := Nat

/-- Modelled from the spec: the enumerators of `FieldType` (aurora/gfffile.h is
not among the sources), numbered as in the GFF field table. -/
abbrev kFieldTypeNone : FieldType := 0xFFFFFFFF
/-- Modelled from the spec: enumerator of `FieldType`, a single byte. -/
abbrev kFieldTypeByte : FieldType := 0
/-- Modelled from the spec: enumerator of `FieldType`, a single character. -/
abbrev kFieldTypeChar : FieldType := 1
/-- Modelled from the spec: enumerator of `FieldType`, unsigned 16 bit. -/
abbrev kFieldTypeUint16 : FieldType := 2
/-- Modelled from the spec: enumerator of `FieldType`, signed 16 bit. -/
abbrev kFieldTypeSint16 : FieldType := 3
/-- Modelled from the spec: enumerator of `FieldType`, unsigned 32 bit. -/
abbrev kFieldTypeUint32 : FieldType := 4
/-- Modelled from the spec: enumerator of `FieldType`, signed 32 bit. -/
abbrev kFieldTypeSint32 : FieldType := 5
/-- Modelled from the spec: enumerator of `FieldType`, unsigned 64 bit. -/
abbrev kFieldTypeUint64 : FieldType := 6
/-- Modelled from the spec: enumerator of `FieldType`, signed 64 bit. -/
abbrev kFieldTypeSint64 : FieldType := 7
/-- Modelled from the spec: enumerator of `FieldType`, IEEE single. -/
abbrev kFieldTypeFloat : FieldType := 8
/-- Modelled from the spec: enumerator of `FieldType`, IEEE double. -/
abbrev kFieldTypeDouble : FieldType := 9
/-- Modelled from the spec: enumerator of `FieldType`, a string. -/
abbrev kFieldTypeExoString : FieldType := 10
/-- Modelled from the spec: enumerator of `FieldType`, a resource reference. -/
abbrev kFieldTypeResRef : FieldType := 11
/-- Modelled from the spec: enumerator of `FieldType`, a localized string. -/
abbrev kFieldTypeLocString : FieldType := 12
/-- Modelled from the spec: enumerator of `FieldType`, binary data. -/
abbrev kFieldTypeVoid : FieldType := 13
/-- Modelled from the spec: enumerator of `FieldType`, a nested struct. -/
abbrev kFieldTypeStruct : FieldType := 14
/-- Modelled from the spec: enumerator of `FieldType`, a list of structs. -/
abbrev kFieldTypeList : FieldType := 15
/-- Modelled from the spec: enumerator of `FieldType`, four floats. -/
abbrev kFieldTypeOrientation : FieldType := 16
/-- Modelled from the spec: enumerator of `FieldType`, three floats. -/
abbrev kFieldTypeVector : FieldType := 17

/-- The struct `GFFStruct::Field`. -/
structure Field where
  type : FieldType
  data : Nat
  extended : Bool
  deriving DecidableEq, Repr

/-- The constructor `GFFStruct::Field::Field()`. -/
def Field.default : Field :=
  { type := kFieldTypeNone, data := 0, extended := false }

/-- The constructor `GFFStruct::Field::Field(FieldType t, uint32 d)`. -/
def Field.new (t : FieldType) (d : Nat) : Field :=
  { type := t
    data := d
    extended := decide (t = kFieldTypeUint64) ||
                decide (t = kFieldTypeSint64) ||
                decide (t = kFieldTypeDouble) ||
                decide (t = kFieldTypeExoString) ||
                decide (t = kFieldTypeResRef) ||
                decide (t = kFieldTypeLocString) ||
                decide (t = kFieldTypeVoid) ||
                decide (t = kFieldTypeOrientation) ||
                decide (t = kFieldTypeVector) }

/-! ## The field map of a struct -/

/-- The type `GFFStruct::FieldMap`, a `std::map<Common::UString, Field>`: an
association list that holds every key once. -/
abbrev FieldMap := List (UString × Field)

/-- The lookup `_fields.find(name)`; `none` is `_fields.end()`. -/
def FieldMap.find : FieldMap → UString → Option Field
  | [], _ => none
  | (k, v) :: m, name => if k = name then some v else FieldMap.find m name

/-- The assignment `_fields[name] = field`: overwrites the entry of a key that
is there, adds one otherwise. -/
def FieldMap.assign : FieldMap → UString → Field → FieldMap
  | [], name, field => [(name, field)]
  | (k, v) :: m, name, field =>
    if k = name then (k, field) :: m else (k, v) :: FieldMap.assign m name field

/-- The count `_fields.size()`. -/
def FieldMap.size (m : FieldMap) : Nat :=
  m.length

/-! ## Header, struct and file -/

/-- The struct `GFFFile::Header`. -/
structure Header where
  structOffset : Nat
  structCount : Nat
  fieldOffset : Nat
  fieldCount : Nat
  labelOffset : Nat
  labelCount : Nat
  fieldDataOffset : Nat
  fieldDataCount : Nat
  fieldIndicesOffset : Nat
  fieldIndicesCount : Nat
  listIndicesOffset : Nat
  listIndicesCount : Nat
  deriving DecidableEq, Repr

/-- The method `GFFFile::Header::clear` (and with it the constructor). -/
def Header.clear : Header :=
  { structOffset := 0, structCount := 0, fieldOffset := 0, fieldCount := 0,
    labelOffset := 0, labelCount := 0, fieldDataOffset := 0, fieldDataCount := 0,
    fieldIndicesOffset := 0, fieldIndicesCount := 0,
    listIndicesOffset := 0, listIndicesCount := 0 }

/-- The method `GFFFile::Header::read`. -/
def Header.read (gff : SeekableReadStream) : Header × SeekableReadStream :=
  let r0 := gff.readUint32LE
  let r1 := r0.2.readUint32LE
  let r2 := r1.2.readUint32LE
  let r3 := r2.2.readUint32LE
  let r4 := r3.2.readUint32LE
  let r5 := r4.2.readUint32LE
  let r6 := r5.2.readUint32LE
  let r7 := r6.2.readUint32LE
  let r8 := r7.2.readUint32LE
  let r9 := r8.2.readUint32LE
  let r10 := r9.2.readUint32LE
  let r11 := r10.2.readUint32LE
  ({ structOffset := r0.1, structCount := r1.1, fieldOffset := r2.1, fieldCount := r3.1,
     labelOffset := r4.1, labelCount := r5.1, fieldDataOffset := r6.1, fieldDataCount := r7.1,
     fieldIndicesOffset := r8.1, fieldIndicesCount := r9.1,
     listIndicesOffset := r10.1, listIndicesCount := r11.1 }, r11.2)

/-- The class `GFFStruct`; its `_parent` is passed to the methods that use it. -/
structure GFFStruct where
  _id : Nat
  _fields : FieldMap
  deriving DecidableEq, Repr

/-- The type `GFFList`, a `std::list<const GFFStruct *>`; each pointer is the
index in `GFFFile::_structs` of the struct it points to. -/
abbrev GFFList := List Nat

/-- The class `GFFFile`; `_fieldData` is `none` for the null pointer. -/
structure GFFFile where
  _version : Nat
  _header : Header
  _structs : List GFFStruct
  _lists : List GFFList
  _listSizes : List Nat
  _listOffsetToIndex : List Nat
  _fieldData : Option (List Nat)
  deriving DecidableEq, Repr

/-- The constructor `GFFFile::GFFFile`. -/
def GFFFile.new : GFFFile :=
  { _version := 0, _header := Header.clear, _structs := [], _lists := [],
    _listSizes := [], _listOffsetToIndex := [], _fieldData := none }

/-- The method `GFFFile::clear`; it leaves `_listSizes` as it is. -/
def GFFFile.clear (f : GFFFile) : GFFFile :=
  { f with _header := Header.clear, _structs := [], _lists := [],
           _listOffsetToIndex := [], _fieldData := none }

/-- The method `GFFFile::getStruct`. -/
def GFFFile.getStruct (f : GFFFile) (i : Nat) : Except Fault GFFStruct :=
  match f._structs.get? i with
  | some s => .ok s
  | none => .error .assertion

/-- The method `GFFFile::getTopLevel`. -/
def GFFFile.getTopLevel (f : GFFFile) : Except Fault GFFStruct :=
  f.getStruct 0

/-- The method `GFFFile::getList`: the list and the value stored into `size`. -/
def GFFFile.getList (f : GFFFile) (i : Nat) : Except Fault (GFFList × Nat) :=
  match f._listOffsetToIndex.get? i with
  | none => .error .assertion
  | some k =>
    match f._lists.get? k with
    | none => .error .assertion
    | some list =>
      match f._listSizes.get? k with
      | none => .error .undefined
      | some size => .ok (list, size)

/-- The method `GFFFile::getFieldData`. -/
def GFFFile.getFieldData (f : GFFFile) (offset : Nat) : Except Fault BytePtr :=
  match f._fieldData with
  | none => .error .assertion
  | some blob =>
    if offset ≥ f._header.fieldDataCount then
      throwException (.fieldDataOffsetOutOfRange offset f._header.fieldDataCount)
    else .ok { mem := blob, off := offset }

/-! ## Typed accessors of a struct -/

/-- Modelled from the spec: the collaborators of the accessors whose code is not
among the sources: the widening of a `float` to a `double` (both carried as bit
patterns), the formatting done by `Common::UString::sprintf`, and the decoder
`LocString::readLocString`, which consumes a byte slice. -/
structure Externals where
  LocString : Type
  floatToDouble : Nat → Nat
  sprintfUint : Nat → UString
  sprintfSint : Int → UString
  sprintfDouble : Nat → UString
  sprintfVector : Nat → Nat → Nat → UString
  sprintfOrientation : Nat → Nat → Nat → Nat → UString
  readLocString : List Nat → LocString → LocString

/-- The private method `GFFStruct::getData(const Field &)`. -/
def GFFStruct.getDataPtr (parent : GFFFile) (field : Field) : Except Fault BytePtr :=
  if field.extended then parent.getFieldData field.data else .error .assertion

/-- The method `GFFStruct::getField`; `none` is the null pointer. -/
def GFFStruct.getField (s : GFFStruct) (name : UString) : Option Field :=
  s._fields.find name

/-- The method `GFFStruct::getFieldCount`, which returns a 32-bit `uint`. -/
def GFFStruct.getFieldCount (s : GFFStruct) : Nat :=
  s._fields.size % 2 ^ 32

/-- The method `GFFStruct::hasField`. -/
def GFFStruct.hasField (s : GFFStruct) (field : UString) : Bool :=
  (s.getField field).isSome

/-- The method `GFFStruct::getChar`; `char` is the signed 8-bit type. -/
def GFFStruct.getChar (s : GFFStruct) (field : UString) (dflt : Int) : Except Fault Int :=
  match s.getField field with
  | none => .ok dflt
  | some f =>
    if f.type ≠ kFieldTypeChar then throwException .notChar
    else .ok (castInt8 f.data)

/-- The method `GFFStruct::getUint`. -/
def GFFStruct.getUint (parent : GFFFile) (s : GFFStruct) (field : UString) (dflt : Nat) :
    Except Fault Nat :=
  match s.getField field with
  | none => .ok dflt
  | some f =>
    if f.type = kFieldTypeByte then .ok (f.data % 2 ^ 8)
    else if f.type = kFieldTypeUint16 then .ok (f.data % 2 ^ 16)
    else if f.type = kFieldTypeUint32 then .ok (f.data % 2 ^ 32)
    else if f.type = kFieldTypeChar then .ok (castUint64 (castInt8 (f.data % 2 ^ 8)))
    else if f.type = kFieldTypeSint16 then .ok (castUint64 (castInt16 (f.data % 2 ^ 16)))
    else if f.type = kFieldTypeSint32 then .ok (castUint64 (castInt32 (f.data % 2 ^ 32)))
    else if f.type = kFieldTypeUint64 then
      (GFFStruct.getDataPtr parent f).bind READ_LE_UINT64
    else if f.type = kFieldTypeSint64 then
      ((GFFStruct.getDataPtr parent f).bind READ_LE_UINT64).map
        (fun v => castUint64 (castInt64 v))
    else throwException .notInt

/-- The method `GFFStruct::getSint`. -/
def GFFStruct.getSint (parent : GFFFile) (s : GFFStruct) (field : UString) (dflt : Int) :
    Except Fault Int :=
  match s.getField field with
  | none => .ok dflt
  | some f =>
    if f.type = kFieldTypeByte then .ok (castInt8 (f.data % 2 ^ 8))
    else if f.type = kFieldTypeUint16 then .ok (castInt16 (f.data % 2 ^ 16))
    else if f.type = kFieldTypeUint32 then .ok (castInt32 (f.data % 2 ^ 32))
    else if f.type = kFieldTypeChar then .ok (castInt8 (f.data % 2 ^ 8))
    else if f.type = kFieldTypeSint16 then .ok (castInt16 (f.data % 2 ^ 16))
    else if f.type = kFieldTypeSint32 then .ok (castInt32 (f.data % 2 ^ 32))
    else if f.type = kFieldTypeUint64 then
      ((GFFStruct.getDataPtr parent f).bind READ_LE_UINT64).map castInt64
    else if f.type = kFieldTypeSint64 then
      ((GFFStruct.getDataPtr parent f).bind READ_LE_UINT64).map castInt64
    else throwException .notInt

/-- The method `GFFStruct::getBool`; the `bool` default is passed on as 0 or 1. -/
def GFFStruct.getBool (parent : GFFFile) (s : GFFStruct) (field : UString) (dflt : Bool) :
    Except Fault Bool :=
  (GFFStruct.getUint parent s field (if dflt then 1 else 0)).map (fun v => decide (v ≠ 0))

/-- The method `GFFStruct::getDouble`; doubles are bit patterns. -/
def GFFStruct.getDouble (ext : Externals) (parent : GFFFile) (s : GFFStruct)
    (field : UString) (dflt : Nat) : Except Fault Nat :=
  match s.getField field with
  | none => .ok dflt
  | some f =>
    if f.type = kFieldTypeFloat then .ok (ext.floatToDouble f.data)
    else if f.type = kFieldTypeDouble then
      (GFFStruct.getDataPtr parent f).bind READ_LE_UINT64
    else throwException .notDouble

/-- The three components decoded by `GFFStruct::getVector`. -/
def GFFStruct.readVector (data : BytePtr) : Except Fault (Nat × Nat × Nat) := do
  let x ← READ_LE_UINT32 (data.add 0)
  let y ← READ_LE_UINT32 (data.add 4)
  let z ← READ_LE_UINT32 (data.add 8)
  pure (x, y, z)

/-- The four components decoded by `GFFStruct::getOrientation`. -/
def GFFStruct.readOrientation (data : BytePtr) : Except Fault (Nat × Nat × Nat × Nat) := do
  let a ← READ_LE_UINT32 (data.add 0)
  let b ← READ_LE_UINT32 (data.add 4)
  let c ← READ_LE_UINT32 (data.add 8)
  let d ← READ_LE_UINT32 (data.add 12)
  pure (a, b, c, d)

/-- The method `GFFStruct::getVector(field, float &x, float &y, float &z)`: the
values of `x`, `y`, `z` after the call, given those before it. -/
def GFFStruct.getVector (parent : GFFFile) (s : GFFStruct) (field : UString)
    (xyz : Nat × Nat × Nat) : Except Fault (Nat × Nat × Nat) :=
  match s.getField field with
  | none => .ok xyz
  | some f =>
    if f.type ≠ kFieldTypeVector then throwException .notVector
    else (GFFStruct.getDataPtr parent f).bind GFFStruct.readVector

/-- The method `GFFStruct::getOrientation(field, float &a, .., float &d)`: the
values of the four outputs after the call, given those before it. -/
def GFFStruct.getOrientation (parent : GFFFile) (s : GFFStruct) (field : UString)
    (abcd : Nat × Nat × Nat × Nat) : Except Fault (Nat × Nat × Nat × Nat) :=
  match s.getField field with
  | none => .ok abcd
  | some f =>
    if f.type ≠ kFieldTypeOrientation then throwException .notOrientation
    else (GFFStruct.getDataPtr parent f).bind GFFStruct.readOrientation

/-- The method `GFFStruct::getVector(field, double &x, double &y, double &z)`. -/
def GFFStruct.getVectorDouble (ext : Externals) (parent : GFFFile) (s : GFFStruct)
    (field : UString) (xyz : Nat × Nat × Nat) : Except Fault (Nat × Nat × Nat) :=
  match s.getField field with
  | none => .ok xyz
  | some f =>
    if f.type ≠ kFieldTypeVector then throwException .notVector
    else ((GFFStruct.getDataPtr parent f).bind GFFStruct.readVector).map
      (fun v => (ext.floatToDouble v.1, ext.floatToDouble v.2.1, ext.floatToDouble v.2.2))

/-- The method `GFFStruct::getOrientation(field, double &a, .., double &d)`. -/
def GFFStruct.getOrientationDouble (ext : Externals) (parent : GFFFile) (s : GFFStruct)
    (field : UString) (abcd : Nat × Nat × Nat × Nat) : Except Fault (Nat × Nat × Nat × Nat) :=
  match s.getField field with
  | none => .ok abcd
  | some f =>
    if f.type ≠ kFieldTypeOrientation then throwException .notOrientation
    else ((GFFStruct.getDataPtr parent f).bind GFFStruct.readOrientation).map
      (fun v => (ext.floatToDouble v.1, ext.floatToDouble v.2.1,
                 ext.floatToDouble v.2.2.1, ext.floatToDouble v.2.2.2))

/-- The text read by `UString::readASCII` from a `MemoryReadStream` of `length`
bytes placed at `data`. -/
def readASCIIAt (data : BytePtr) (length : Nat) : Except Fault UString :=
  (data.bytes length).map asciiOfBytes

/-- The method `GFFStruct::getString`. -/
def GFFStruct.getString (ext : Externals) (parent : GFFFile) (s : GFFStruct)
    (field : UString) (dflt : UString) : Except Fault UString :=
  match s.getField field with
  | none => .ok dflt
  | some f =>
    if f.type = kFieldTypeExoString then do
      let data ← GFFStruct.getDataPtr parent f
      let length ← READ_LE_UINT32 data
      readASCIIAt (data.add 4) length
    else if f.type = kFieldTypeResRef then do
      let data ← GFFStruct.getDataPtr parent f
      let length ← data.deref
      readASCIIAt (data.add 1) length
    else if f.type = kFieldTypeByte ∨ f.type = kFieldTypeUint16 ∨
        f.type = kFieldTypeUint32 ∨ f.type = kFieldTypeUint64 then
      (GFFStruct.getUint parent s field 0).map ext.sprintfUint
    else if f.type = kFieldTypeChar ∨ f.type = kFieldTypeSint16 ∨
        f.type = kFieldTypeSint32 ∨ f.type = kFieldTypeSint64 then
      (GFFStruct.getSint parent s field 0).map ext.sprintfSint
    else if f.type = kFieldTypeFloat ∨ f.type = kFieldTypeDouble then
      (GFFStruct.getDouble ext parent s field 0).map ext.sprintfDouble
    else if f.type = kFieldTypeVector then
      (GFFStruct.getVector parent s field (0, 0, 0)).map
        (fun v => ext.sprintfVector v.1 v.2.1 v.2.2)
    else if f.type = kFieldTypeOrientation then
      (GFFStruct.getOrientation parent s field (0, 0, 0, 0)).map
        (fun v => ext.sprintfOrientation v.1 v.2.1 v.2.2.1 v.2.2.2)
    else throwException .notStringable

/-- The method `GFFStruct::getLocString`: the value of `str` after the call. -/
def GFFStruct.getLocString (ext : Externals) (parent : GFFFile) (s : GFFStruct)
    (field : UString) (str : ext.LocString) : Except Fault ext.LocString :=
  match s.getField field with
  | none => .ok str
  | some f =>
    if f.type ≠ kFieldTypeLocString then throwException .notLocString
    else do
      let data ← GFFStruct.getDataPtr parent f
      let length ← READ_LE_UINT32 data
      let bytes ← (data.add 4).bytes length
      pure (ext.readLocString bytes str)

/-- Modelled from the spec: a `Common::MemoryReadStream` (common/stream.h is not
among the sources) as its constructor receives it, the pointer to its first
byte and the number of its bytes; making the stream reads none of them. -/
structure MemoryReadStream where
  ptr : BytePtr
  size : Nat
  deriving DecidableEq, Repr

/-- The method `GFFStruct::getData(const Common::UString &)`: the new
`MemoryReadStream`, `none` for the null pointer. Only the length word is read. -/
def GFFStruct.getData (parent : GFFFile) (s : GFFStruct) (field : UString) :
    Except Fault (Option MemoryReadStream) :=
  match s.getField field with
  | none => .ok none
  | some f =>
    if f.type ≠ kFieldTypeVoid then throwException .notData
    else do
      let data ← GFFStruct.getDataPtr parent f
      let length ← READ_LE_UINT32 data
      pure (some ⟨data.add 4, length⟩)

/-- The method `GFFStruct::getStruct`. -/
def GFFStruct.getStruct (parent : GFFFile) (s : GFFStruct) (field : UString) :
    Except Fault GFFStruct :=
  match s.getField field with
  | none => throwException .noSuchField
  | some f =>
    if f.type ≠ kFieldTypeStruct then throwException .notStruct
    else parent.getStruct f.data

/-- The method `GFFStruct::getList(field, size)`. -/
def GFFStruct.getList (parent : GFFFile) (s : GFFStruct) (field : UString) :
    Except Fault (GFFList × Nat) :=
  match s.getField field with
  | none => throwException .noSuchField
  | some f =>
    if f.type ≠ kFieldTypeList then throwException .notList
    else parent.getList (f.data / 4)

/-! ## Struct construction -/

/-- The result of `n` successive calls of `readUint32LE`. -/
def readUint32LEs : Nat → SeekableReadStream → List Nat × SeekableReadStream
  | 0, gff => ([], gff)
  | n + 1, gff =>
    let r := gff.readUint32LE
    let rest := readUint32LEs n r.2
    (r.1 :: rest.1, rest.2)

/-- The method `GFFStruct::readIndices`: the vector `indices` it fills. -/
def GFFStruct.readIndices (gff : SeekableReadStream) (count : Nat) :
    List Nat × SeekableReadStream :=
  readUint32LEs count gff

/-- The method `GFFStruct::readLabel`; the result of its `seek` is not looked at. -/
def GFFStruct.readLabel (parent : GFFFile) (gff : SeekableReadStream) (index : Nat) :
    UString × SeekableReadStream :=
  let gff1 := (gff.seek ((parent._header.labelOffset + index * 16) % 2 ^ 32)).2
  gff1.readASCII 16

/-- The method `GFFStruct::readField`. -/
def GFFStruct.readField (parent : GFFFile) (s : GFFStruct) (gff : SeekableReadStream)
    (index : Nat) : Except Fault (GFFStruct × SeekableReadStream) :=
  if index > parent._header.fieldCount then
    throwException (.fieldIndexOutOfRange index parent._header.fieldCount)
  else
    match gff.seek ((parent._header.fieldOffset + index * 12) % 2 ^ 32) with
    | (false, _) => throwException .seekError
    | (true, gff1) =>
      let type := gff1.readUint32LE
      let label := type.2.readUint32LE
      let data := label.2.readUint32LE
      let name := GFFStruct.readLabel parent data.2 label.1
      .ok ({ s with _fields := s._fields.assign name.1 (Field.new type.1 data.1) }, name.2)

/-- The loop of `GFFStruct::readFields` over the vector `indices`. -/
def GFFStruct.readFieldsLoop (parent : GFFFile) :
    List Nat → GFFStruct → SeekableReadStream → Except Fault (GFFStruct × SeekableReadStream)
  | [], s, gff => .ok (s, gff)
  | i :: indices, s, gff =>
    match GFFStruct.readField parent s gff i with
    | .error e => .error e
    | .ok r => GFFStruct.readFieldsLoop parent indices r.1 r.2

/-- The method `GFFStruct::readFields`. -/
def GFFStruct.readFields (parent : GFFFile) (s : GFFStruct) (gff : SeekableReadStream)
    (index count : Nat) : Except Fault (GFFStruct × SeekableReadStream) :=
  if index > parent._header.fieldIndicesCount then
    throwException (.fieldIndicesIndexOutOfRange index parent._header.fieldIndicesCount)
  else
    match gff.seek ((parent._header.fieldIndicesOffset + index) % 2 ^ 32) with
    | (false, _) => throwException .seekError
    | (true, gff1) =>
      let indices := GFFStruct.readIndices gff1 count
      GFFStruct.readFieldsLoop parent indices.1 s indices.2

/-- The constructor `GFFStruct::GFFStruct(parent, gff)`. -/
def GFFStruct.new (parent : GFFFile) (gff : SeekableReadStream) :
    Except Fault (GFFStruct × SeekableReadStream) :=
  let id := gff.readUint32LE
  let index := id.2.readUint32LE
  let count := index.2.readUint32LE
  let curPos := count.2.pos % 2 ^ 32
  let s : GFFStruct := { _id := id.1, _fields := [] }
  let r : Except Fault (GFFStruct × SeekableReadStream) :=
    if count.1 = 1 then GFFStruct.readField parent s count.2 index.1
    else if count.1 > 1 then GFFStruct.readFields parent s count.2 index.1 count.1
    else .ok (s, count.2)
  match r with
  | .error e => .error e
  | .ok q => .ok (q.1, (q.2.seek curPos).2)

/-! ## Loading a file -/

/-- The loop of `GFFFile::readStructs`, with `n` iterations to go: the file as
the loop leaves it, and the stream or the fault it ended with. -/
def GFFFile.readStructsLoop : Nat → GFFFile → SeekableReadStream →
    GFFFile × Except Fault SeekableReadStream
  | 0, f, gff => (f, .ok gff)
  | n + 1, f, gff =>
    match GFFStruct.new f gff with
    | .error e => (f, .error e)
    | .ok r => GFFFile.readStructsLoop n { f with _structs := f._structs ++ [r.1] } r.2

/-- The method `GFFFile::readStructs`. -/
def GFFFile.readStructs (f : GFFFile) (gff : SeekableReadStream) :
    GFFFile × Except Fault SeekableReadStream :=
  GFFFile.readStructsLoop f._header.structCount f gff

/-- The first loop of `GFFFile::readLists`, "counting the actual amount of
lists", entered with the 32-bit `i` and `listCount`; `fuel` bounds the number of
iterations and `none` says it ran out. -/
def GFFFile.countLists (rawLists : List Nat) : Nat → Nat → Nat → Option (Except Fault Nat)
  | 0, _, _ => none
  | fuel + 1, i, listCount =>
    if i < rawLists.length then
      let n := rawLists.getD i 0
      if (i + n) % 2 ^ 32 > rawLists.length then
        some (throwException .listIndicesBroken)
      else
        GFFFile.countLists rawLists fuel (((i + n) % 2 ^ 32 + 1) % 2 ^ 32)
          ((listCount + 1) % 2 ^ 32)
    else some (.ok listCount)

/-- The inner loop `for (j = 0; j < n; j++, ++it)` of `GFFFile::readLists`, with
`n - j` iterations to go: the iterator (the words from `it` on), `list`, `size`
and `_listOffsetToIndex` as the loop leaves them. -/
def GFFFile.readListRun (structs : List GFFStruct) :
    Nat → List Nat → GFFList → Nat → List Nat →
    Except Fault (List Nat × GFFList × Nat × List Nat)
  | 0, it, list, size, offsetToIndex => .ok (it, list, size, offsetToIndex)
  | _ + 1, [], _, _, _ => .error .assertion
  | n + 1, w :: it, list, size, offsetToIndex =>
    if w < structs.length then
      GFFFile.readListRun structs n it (list ++ [w]) ((size + 1) % 2 ^ 32)
        (offsetToIndex ++ [0xFFFFFFFF])
    else .error .undefined

/-- The second loop of `GFFFile::readLists`, "converting the raw list array into
real, useable lists", entered with the iterator at `it`. The references `list`
and `size` to the new last elements of `_lists` and `_listSizes` are stored
when their run is read. Every iteration moves the iterator on; `fuel` bounds
their number and `none` says it ran out. -/
def GFFFile.convertLists : Nat → GFFFile → List Nat → Option (Except Fault GFFFile)
  | _, f, [] => some (.ok f)
  | 0, _, _ :: _ => none
  | fuel + 1, f, n :: it =>
    match GFFFile.readListRun f._structs n it [] 0
        (f._listOffsetToIndex ++ [f._lists.length % 2 ^ 32]) with
    | .error e => some (.error e)
    | .ok r =>
      GFFFile.convertLists fuel
        { f with _lists := f._lists ++ [r.2.1],
                 _listSizes := f._listSizes ++ [r.2.2.1],
                 _listOffsetToIndex := r.2.2.2 } r.1

/-- The method `GFFFile::readLists`. Its two exceptions are thrown before the
file is changed; a failed assertion ends the program, the file returned with it
is the one the method was entered with. -/
def GFFFile.readLists (fuel : Nat) (f : GFFFile) (gff : SeekableReadStream) :
    Option (GFFFile × Except Fault SeekableReadStream) :=
  match gff.seek f._header.listIndicesOffset with
  | (false, _) => some (f, throwException .seekError)
  | (true, gff1) =>
    let rawLists := readUint32LEs (f._header.listIndicesCount / 4) gff1
    match GFFFile.countLists rawLists.1 fuel 0 0 with
    | none => none
    | some (.error e) => some (f, .error e)
    | some (.ok _) =>
      match GFFFile.convertLists fuel f rawLists.1 with
      | none => none
      | some (.error e) => some (f, .error e)
      | some (.ok f1) => some (f1, .ok rawLists.2)

/-- The method `GFFFile::readFieldData`; the result of its `seek` is not looked
at. The buffer `new byte[fieldDataCount]` is not initialised: `_fieldData` holds
the bytes the read has stored in it, and the bytes of the buffer behind those
of a short read have no value (a read there is undefined). -/
def GFFFile.readFieldData (f : GFFFile) (gff : SeekableReadStream) :
    GFFFile × Except Fault SeekableReadStream :=
  let gff1 := (gff.seek f._header.fieldDataOffset).2
  let r := gff1.read f._header.fieldDataCount
  if r.1.length ≠ f._header.fieldDataCount then
    ({ f with _fieldData := some r.1 }, throwException .readError)
  else ({ f with _fieldData := some r.1 }, .ok r.2)

/-- The constant `kVersion32`, `MKID_BE('V3.2')`. -/
def kVersion32 : Nat := 0x56332E32

/-- The constant `kVersion33`, `MKID_BE('V3.3')`. -/
def kVersion33 : Nat := 0x56332E33

/-- Modelled from the spec: `AuroraBase::readHeader` (aurora/aurorafile.cpp is not
among the sources): "read a 4-byte version/type tag", bytes 0-3 of the file. -/
def GFFFile.readHeader (f : GFFFile) (gff : SeekableReadStream) :
    GFFFile × SeekableReadStream :=
  let v := gff.readUint32BE
  ({ f with _version := v.1 }, v.2)

/-- The handler `catch (Common::Exception &e)` of `GFFFile::load`. -/
def GFFFile.rethrow : Fault → Fault
  | .exception e => .exception (e.add "Failed reading GFF file")
  | other => other

/-- The method `GFFFile::load`: the file as the call leaves it, and the stream
or the fault it ended with; `fuel` is handed to `readLists`. -/
def GFFFile.load (fuel : Nat) (f : GFFFile) (gff : SeekableReadStream) :
    Option (GFFFile × Except Fault SeekableReadStream) :=
  let h := GFFFile.readHeader f.clear gff
  if h.1._version ≠ kVersion32 ∧ h.1._version ≠ kVersion33 then
    some (h.1, throwException (.unsupportedVersion h.1._version))
  else
    let hdr := Header.read h.2
    match GFFFile.readStructs { h.1 with _header := hdr.1 } hdr.2 with
    | (f1, .error e) => some (f1, .error (GFFFile.rethrow e))
    | (f1, .ok gff1) =>
      match GFFFile.readLists fuel f1 gff1 with
      | none => none
      | some (f2, .error e) => some (f2, .error (GFFFile.rethrow e))
      | some (f2, .ok gff2) =>
        match GFFFile.readFieldData f2 gff2 with
        | (f3, .error e) => some (f3, .error (GFFFile.rethrow e))
        | (f3, .ok gff3) =>
          if gff3.err then
            some (f3, .error (GFFFile.rethrow (.exception ⟨.readError, []⟩)))
          else some (f3, .ok gff3)

/-! ## Vocabulary of the properties -/

/-- The raw list-indices table that holds the runs `runs`: each run is its
length word followed by its struct indices. -/
def encodeRuns : List (List Nat) → List Nat
  | [] => []
  | run :: runs => run.length :: (run ++ encodeRuns runs)

/-- The word position of the length word of run `k` in `encodeRuns runs`. -/
def runStart : List (List Nat) → Nat → Nat
  | _, 0 => 0
  | [], _ + 1 => 0
  | run :: runs, k + 1 => run.length + 1 + runStart runs k

/-- The stream bytes of a sequence of 32-bit words, little-endian. -/
def wordsLE : List Nat → List Nat
  | [] => []
  | w :: ws => w % 256 :: w / 256 % 256 :: w / 65536 % 256 :: w / 16777216 % 256 :: wordsLE ws

/-- The zero-extension of the low `w` bits of `d`. -/
def zeroExtend (w d : Nat) : Nat :=
  d % 2 ^ w

/-- The sign-extension of the low `w` bits of `d`: the value of those bits
read as a two's-complement number. -/
def signExtend (w d : Nat) : Int :=
  if d % 2 ^ w < 2 ^ (w - 1) then ((d % 2 ^ w : Nat) : Int) else ((d % 2 ^ w : Nat) : Int) - 2 ^ w

/-- The two's-complement encoding of a signed value in 32 bits. -/
def encodeSint32 (v : Int) : Nat :=
  (v % 2 ^ 32).toNat

/-- A sample struct: label "u" holds the uint32 4000000000, label "s" the sint32
-5, label "b" the byte 200, label "q" a uint64 at offset 1 of the field data. -/
def sampleStruct : GFFStruct :=
  { _id := 0
    _fields := [([117], Field.new kFieldTypeUint32 4000000000),
                ([115], Field.new kFieldTypeSint32 4294967291),
                ([98], Field.new kFieldTypeByte 200),
                ([113], Field.new kFieldTypeUint64 1)] }

/-- A sample file whose field data are the ten bytes 0, 1, .., 9. -/
def sampleFile : GFFFile :=
  { GFFFile.new with
    _header := { Header.clear with fieldDataCount := 10 }
    _fieldData := some [0, 1, 2, 3, 4, 5, 6, 7, 8, 9] }

/-- Externals used to run the accessors on samples: the localized string is the
list of the byte slices decoded into it, the formatters return no text. -/
def sampleExternals : Externals :=
  { LocString := List (List Nat)
    floatToDouble := fun bits => bits
    sprintfUint := fun _ => []
    sprintfSint := fun _ => []
    sprintfDouble := fun _ => []
    sprintfVector := fun _ _ _ => []
    sprintfOrientation := fun _ _ _ _ => []
    readLocString := fun bytes str => bytes :: str }

/-- The entries `readLists` appends to `_listOffsetToIndex` for the runs `runs`
when `base` lists are there already: the list number at the position of a
length word, the marker 0xFFFFFFFF at the positions inside a run. -/
def offsetLookup : Nat → List (List Nat) → List Nat
  | _, [] => []
  | base, run :: runs =>
    base % 2 ^ 32 :: (List.replicate run.length 0xFFFFFFFF ++ offsetLookup (base + 1) runs)

/-- A sample file that holds ten structs without fields and announces a
list-indices table of `listIndicesCount` bytes at offset 0 of its stream. -/
def sampleListFile (listIndicesCount : Nat) : GFFFile :=
  { GFFFile.new with
    _header := { Header.clear with listIndicesCount := listIndicesCount }
    _structs := List.replicate 10 { _id := 0, _fields := [] } }

/-- The stream bytes of a file image: the tag "V3.2" and the words after it. -/
def fileImage (words : List Nat) : List Nat :=
  [0x56, 0x33, 0x2E, 0x32] ++ wordsLE words

/-- A file image whose list-indices table is the single word 1: a run that
declares one index and has none. The header (bytes 4-51) places one struct
without fields at offset 52 and the list-indices table, 4 bytes, at offset 64. -/
def overrunImage : List Nat :=
  fileImage [52, 1, 64, 0, 64, 0, 68, 0, 64, 0, 64, 4, 0, 0, 0, 1]

/-- The label and the field that `readField` enters into the map for the
field-table index `index` of the stream bytes `data`; `none` when it throws. -/
def fieldAt (parent : GFFFile) (data : List Nat) (index : Nat) : Option (UString × Field) :=
  match GFFStruct.readField parent { _id := 0, _fields := [] } ⟨data, 0, false⟩ index with
  | .ok r => r.1._fields.head?
  | .error _ => none

/-- The field-table indices that a struct descriptor `(index, count)` names:
none for `count = 0`, `index` itself for `count = 1`, and otherwise the `count`
consecutive 32-bit words at byte offset `index` of the field-indices table
(offsets are 32-bit values). -/
def descriptorIndices (parent : GFFFile) (data : List Nat) (index count : Nat) : List Nat :=
  if count = 0 then []
  else if count = 1 then [index]
  else (List.range count).map (fun k =>
    leValue (SeekableReadStream.bytesAt data
      ((parent._header.fieldIndicesOffset + index) % 2 ^ 32 + 4 * k) 4))

/-- Two streams that hold the same bytes and stand at the same position; their
error flags may differ. -/
def SameView (g h : SeekableReadStream) : Prop :=
  g.data = h.data ∧ g.position = h.position

/-- A stream stands at offset `q` for the purpose of reading: it stands there,
or it stands at or past its end and `q` is at or past the end too. -/
def StandsAt (g : SeekableReadStream) (q : Nat) : Prop :=
  g.position = q ∨ (g.data.length ≤ g.position ∧ g.data.length ≤ q)

/-- A file image with one struct of two fields. After the tag and the header:
the struct table at offset 52 holds the descriptor (7, 0, 2); the field table at
64 holds (uint32, label 0, 1000) and (sint32, label 1, 0xFFFFFFFB); the label
table at 88 holds "A" and "B"; the field-indices table at 120 holds 0, 1; the
list-indices table at 128 holds the run 1, 0; there is no field data. -/
def sampleImage : List Nat :=
  fileImage [52, 1, 64, 2, 88, 2, 136, 0, 120, 8, 128, 8,
    7, 0, 2,
    4, 0, 1000, 5, 1, 4294967291,
    65, 0, 0, 0, 66, 0, 0, 0,
    0, 1,
    1, 0]

/-- The file whose header is the header of `sampleImage`. -/
def sampleParent : GFFFile :=
  { GFFFile.new with
    _version := kVersion32
    _header := { structOffset := 52, structCount := 1, fieldOffset := 64, fieldCount := 2,
                 labelOffset := 88, labelCount := 2, fieldDataOffset := 136,
                 fieldDataCount := 0, fieldIndicesOffset := 120, fieldIndicesCount := 8,
                 listIndicesOffset := 128, listIndicesCount := 8 } }

/-- The struct of `sampleImage`. -/
def sampleImageStruct : GFFStruct :=
  { _id := 7
    _fields := [([65], Field.new kFieldTypeUint32 1000),
                ([66], Field.new kFieldTypeSint32 4294967291)] }

/-- A file image whose header announces the struct table at offset 64, where the
descriptor (7, 0, 0) stands, while the twelve bytes that follow the header, at
offset 52, hold the words 9, 0, 0. All other tables are empty, at offset 76. -/
def shiftedImage : List Nat :=
  fileImage [64, 1, 76, 0, 76, 0, 76, 0, 76, 0, 76, 0,
    9, 0, 0,
    7, 0, 0]

/-- A sample struct with nested fields: label "t" holds a struct field with
payload 0, label "l" a list field with payload 12, the byte offset of word 3. -/
def sampleNested : GFFStruct :=
  { _id := 0
    _fields := [([116], Field.new kFieldTypeStruct 0),
                ([108], Field.new kFieldTypeList 12)] }

/-- The tag is one of the eight integer tags. -/
def isIntTag (t : FieldType) : Prop :=
  t = kFieldTypeByte ∨ t = kFieldTypeChar ∨ t = kFieldTypeUint16 ∨ t = kFieldTypeSint16 ∨
  t = kFieldTypeUint32 ∨ t = kFieldTypeSint32 ∨ t = kFieldTypeUint64 ∨ t = kFieldTypeSint64

/-- The tag is one that `getString` accepts: exo-string, resource-reference,
the eight integer tags, float, double, vector, orientation. -/
def isStringableTag (t : FieldType) : Prop :=
  t = kFieldTypeExoString ∨ t = kFieldTypeResRef ∨ isIntTag t ∨
  t = kFieldTypeFloat ∨ t = kFieldTypeDouble ∨
  t = kFieldTypeVector ∨ t = kFieldTypeOrientation

/-- The sample list file after `readLists` has expanded the table 2, 5, 7, 1, 9. -/
def sampleListsLoaded : GFFFile :=
  { sampleListFile 20 with
    _lists := [[5, 7], [9]]
    _listSizes := [2, 1]
    _listOffsetToIndex := [0, 0xFFFFFFFF, 0xFFFFFFFF, 1, 0xFFFFFFFF] }

/-- A sample file whose field data hold the exo-string "abc" at offset 0 (length
word 3, then the text), the resource reference "xy" at offset 7 (length byte 2,
then the text) and the empty exo-string at offset 10. -/
def sampleStringFile : GFFFile :=
  { GFFFile.new with
    _header := { Header.clear with fieldDataCount := 14 }
    _fieldData := some [3, 0, 0, 0, 97, 98, 99, 2, 120, 121, 0, 0, 0, 0] }

/-- A sample struct with the string fields of `sampleStringFile`: "e" is the
exo-string at offset 0, "r" the resource reference at offset 7, "n" the empty
exo-string at offset 10. -/
def sampleStringStruct : GFFStruct :=
  { _id := 0
    _fields := [([101], Field.new kFieldTypeExoString 0),
                ([114], Field.new kFieldTypeResRef 7),
                ([110], Field.new kFieldTypeExoString 10)] }

/-- The 32-bit little-endian word that the four bytes at offset `p` spell. -/
def wordAt (data : List Nat) (p : Nat) : Nat :=
  data.getD p 0 % 256 + 256 * (data.getD (p + 1) 0 % 256) +
    65536 * (data.getD (p + 2) 0 % 256) + 16777216 * (data.getD (p + 3) 0 % 256)

/-- A file image like `sampleImage` whose struct descriptor is (7, 2, 1): one
field, at field-table index 2, while the field table holds the two fields 0
and 1. The twelve bytes behind the field table are the start of the label
table, the words 65, 0, 0. -/
def edgeIndexImage : List Nat :=
  fileImage [52, 1, 64, 2, 88, 2, 136, 0, 120, 8, 128, 8,
    7, 2, 1,
    4, 0, 1000, 5, 1, 4294967291,
    65, 0, 0, 0, 66, 0, 0, 0,
    0, 1,
    1, 0]

/-- The fault is the exception "Unsupported GFF file version". -/
def Fault.isUnsupportedVersion : Fault → Bool
  | .exception ⟨.unsupportedVersion _, _⟩ => true
  | _ => false

/-- A file image whose header places four bytes of field data at offset 200,
past the end of the 56-byte stream; the four bytes 1, 2, 3, 4 stand at offset
52, behind the header, where the empty struct, field, label and list tables
are placed. -/
def pastEndImage : List Nat :=
  fileImage [52, 0, 52, 0, 52, 0, 200, 4, 52, 0, 52, 0, 67305985]

/-- A file image like `sampleImage` whose header announces four bytes of field
data at offset 136, the end of the stream. -/
def truncatedImage : List Nat :=
  fileImage [52, 1, 64, 2, 88, 2, 136, 4, 120, 8, 128, 8,
    7, 0, 2,
    4, 0, 1000, 5, 1, 4294967291,
    65, 0, 0, 0, 66, 0, 0, 0,
    0, 1,
    1, 0]

/-- The `try` block of `GFFFile::load` together with its handler, entered with
the file `f` (header read) and the stream `gff`. -/
def GFFFile.loadTables (fuel : Nat) (f : GFFFile) (gff : SeekableReadStream) :
    Option (GFFFile × Except Fault SeekableReadStream) :=
  match GFFFile.readStructs f gff with
  | (f1, .error e) => some (f1, .error (GFFFile.rethrow e))
  | (f1, .ok gff1) =>
    match GFFFile.readLists fuel f1 gff1 with
    | none => none
    | some (f2, .error e) => some (f2, .error (GFFFile.rethrow e))
    | some (f2, .ok gff2) =>
      match GFFFile.readFieldData f2 gff2 with
      | (f3, .error e) => some (f3, .error (GFFFile.rethrow e))
      | (f3, .ok gff3) =>
        if gff3.err then
          some (f3, .error (GFFFile.rethrow (.exception ⟨.readError, []⟩)))
        else some (f3, .ok gff3)

/-- The file with which `load` enters its `try` block: cleared, with the tag and
the header read from the stream. -/
def GFFFile.afterHeader (f : GFFFile) (gff : SeekableReadStream) : GFFFile :=
  { ({ f.clear with _version := gff.readUint32BE.1 } : GFFFile) with
    _header := (Header.read gff.readUint32BE.2).1 }

/-- A sample struct whose extended fields start inside the ten bytes of field
data of `sampleFile` and do not end there: "q" is a uint64 at offset 5, "v" a
vector at offset 0, "e" an exo-string at offset 8. -/
def sampleOverrunStruct : GFFStruct :=
  { _id := 0
    _fields := [([113], Field.new kFieldTypeUint64 5),
                ([118], Field.new kFieldTypeVector 0),
                ([101], Field.new kFieldTypeExoString 8)] }

/-- A file image like `sampleImage` whose struct descriptor is (7, 4, 2): two
field indices at byte offset 4 of the field-indices table, which is 8 bytes
long. The second of the two words is the first word of the list-indices
table. -/
def indicesOverrunImage : List Nat :=
  fileImage [52, 1, 64, 2, 88, 2, 136, 0, 120, 8, 128, 8,
    7, 4, 2,
    4, 0, 1000, 5, 1, 4294967291,
    65, 0, 0, 0, 66, 0, 0, 0,
    0, 1,
    1, 0]

/-- A file image like `sampleImage` whose list-indices table is the run 2, 0, 0:
one list with two references to struct 0. -/
def twoRefImage : List Nat :=
  fileImage [52, 1, 64, 2, 88, 2, 140, 0, 120, 8, 128, 12,
    7, 0, 2,
    4, 0, 1000, 5, 1, 4294967291,
    65, 0, 0, 0, 66, 0, 0, 0,
    0, 1,
    2, 0, 0]

/-- A file image without structs whose list-indices table, 8 bytes at offset 52,
holds the words 0 and 0xFFFFFFFF: an empty run, and a run whose count added to
its position 1 wraps to 0 in 32 bits. -/
def wrapImage : List Nat :=
  fileImage [52, 0, 52, 0, 52, 0, 60, 0, 52, 0, 52, 8, 0, 4294967295]

/-- The context lines of a fault: those of the exception, none otherwise. -/
def Fault.stack : Fault → List String
  | .exception e => e.stack
  | _ => []

/-- The fault `x` is raised inside the `try` block of `load`, entered with the
file `f` and the stream `gff`: by `readStructs`, by `readLists`, by
`readFieldData`, or as the read error thrown for the error flag of the stream. -/
def GFFFile.raisedInTry (fuel : Nat) (f : GFFFile) (gff : SeekableReadStream) (x : Fault) :
    Prop :=
  (∃ f1, GFFFile.readStructs f gff = (f1, .error x)) ∨
  (∃ f1 g1 f2, GFFFile.readStructs f gff = (f1, .ok g1) ∧
    GFFFile.readLists fuel f1 g1 = some (f2, .error x)) ∨
  (∃ f1 g1 f2 g2 f3, GFFFile.readStructs f gff = (f1, .ok g1) ∧
    GFFFile.readLists fuel f1 g1 = some (f2, .ok g2) ∧
    GFFFile.readFieldData f2 g2 = (f3, .error x)) ∨
  (∃ f1 g1 f2 g2 f3 g3, GFFFile.readStructs f gff = (f1, .ok g1) ∧
    GFFFile.readLists fuel f1 g1 = some (f2, .ok g2) ∧
    GFFFile.readFieldData f2 g2 = (f3, .ok g3) ∧ g3.err = true ∧
    x = .exception ⟨.readError, []⟩)

/-- A file image whose tag is "V3.1". -/
def badTagImage : List Nat :=
  [0x56, 0x33, 0x2E, 0x31] ++ wordsLE [52, 0, 52, 0, 52, 0, 52, 0, 52, 0, 52, 0]

/-- The field that the last entry with the label `l` gives it, `none` when no
entry has that label. -/
def lastEntry : List (UString × Field) → UString → Option Field
  | [], _ => none
  | (k, v) :: es, l =>
    match lastEntry es l with
    | some w => some w
    | none => if k = l then some v else none

/-- A file image like `sampleImage` in which both fields carry the label index
0: the two field indices of the struct resolve to the same label "A". -/
def collisionImage : List Nat :=
  fileImage [52, 1, 64, 2, 88, 2, 136, 0, 120, 8, 128, 8,
    7, 0, 2,
    4, 0, 1000, 5, 0, 4294967291,
    65, 0, 0, 0, 66, 0, 0, 0,
    0, 1,
    1, 0]

/-- A file image without structs and lists whose header places four bytes of
field data at offset 52, where the bytes 1, 2, 3, 4 stand. -/
def fieldDataImage : List Nat :=
  fileImage [52, 0, 52, 0, 52, 0, 52, 4, 52, 0, 52, 0, 67305985]

/-- A file image like `truncatedImage` whose list-indices table holds the words
3, 0: a run that declares three indices where one word is left. As in
`truncatedImage` the header announces four bytes of field data at offset 136,
the end of the stream. -/
def brokenListsImage : List Nat :=
  fileImage [52, 1, 64, 2, 88, 2, 136, 4, 120, 8, 128, 8,
    7, 0, 2,
    4, 0, 1000, 5, 1, 4294967291,
    65, 0, 0, 0, 66, 0, 0, 0,
    0, 1,
    3, 0]

/-- A file image like `sampleImage` whose struct descriptor is (7, 5, 1): one
field, at field-table index 5, while the header announces two fields. -/
def badFieldIndexImage : List Nat :=
  fileImage [52, 1, 64, 2, 88, 2, 136, 0, 120, 8, 128, 8,
    7, 5, 1,
    4, 0, 1000, 5, 1, 4294967291,
    65, 0, 0, 0, 66, 0, 0, 0,
    0, 1,
    1, 0]

/-- A file image with one struct that holds one list field. After the tag and
the header: the struct table at offset 52 holds the descriptor (7, 0, 1); the
field table at 64 holds (list, label 0, 0), a list field whose payload is the
byte offset 0 of the list-indices table; the label table at 76 holds "L"; the
list-indices table at 92 holds the run 2, 0, 0; there are no field indices and
no field data. -/
def listFieldImage : List Nat :=
  fileImage [52, 1, 64, 1, 76, 1, 104, 0, 92, 0, 92, 12,
    7, 0, 1,
    15, 0, 0,
    76, 0, 0, 0,
    2, 0, 0]

end Aurora

/-! # Properties -/

namespace Aurora

/-! ## Field classification -/

/-- C6: `Field(t, d).extended` is true exactly for the tags uint64, sint64,
double, exo-string, resource-reference, localized-string, void, vector and
orientation; it is false for byte, char, uint16, sint16, uint32, sint32, float,
struct, list; and it is the same for every payload. -/
theorem Field_extended_by_tag (t : FieldType) (d : Nat) :
    ((Field.new t d).extended = true ↔
      (t = kFieldTypeUint64 ∨ t = kFieldTypeSint64 ∨ t = kFieldTypeDouble ∨
       t = kFieldTypeExoString ∨ t = kFieldTypeResRef ∨ t = kFieldTypeLocString ∨
       t = kFieldTypeVoid ∨ t = kFieldTypeVector ∨ t = kFieldTypeOrientation)) ∧
    ((Field.new kFieldTypeByte d).extended = false ∧
     (Field.new kFieldTypeChar d).extended = false ∧
     (Field.new kFieldTypeUint16 d).extended = false ∧
     (Field.new kFieldTypeSint16 d).extended = false ∧
     (Field.new kFieldTypeUint32 d).extended = false ∧
     (Field.new kFieldTypeSint32 d).extended = false ∧
     (Field.new kFieldTypeFloat d).extended = false ∧
     (Field.new kFieldTypeStruct d).extended = false ∧
     (Field.new kFieldTypeList d).extended = false) ∧
    (∀ d2 : Nat, (Field.new t d2).extended = (Field.new t d).extended) := by
  refine ⟨?_, ?_, ?_⟩
  · simp only [Field.new, Bool.or_eq_true, decide_eq_true_eq]
    tauto
  · simp [Field.new]
  · intro d2
    rfl

/-! ## Integer accessors -/

/-- C7: on a present field, whatever the default, `getUint` returns the payload
`V` of a uint32 field for every `V < 2^32`, and `getSint` returns `S` for a
sint32 field whose payload is the two's-complement encoding of a signed 32-bit
`S`. Each half asks for its own field only. -/
theorem getUint_getSint_round_trip (parent : GFFFile) (s : GFFStruct) (label : UString)
    (f : Field) (hf : s.getField label = some f) :
    (f.type = kFieldTypeUint32 → ∀ V dflt : Nat, V < 2 ^ 32 → f.data = V →
      GFFStruct.getUint parent s label dflt = .ok V) ∧
    (f.type = kFieldTypeSint32 → ∀ S dflt : Int, -(2 : Int) ^ 31 ≤ S → S < (2 : Int) ^ 31 →
      f.data = encodeSint32 S → GFFStruct.getSint parent s label dflt = .ok S) := by
  constructor
  · intro ht V dflt hV hd
    have hVmod : V % 2 ^ 32 = V := Nat.mod_eq_of_lt hV
    simp only [GFFStruct.getUint, hf, ht, hd, hVmod]
    rfl
  · intro ht S dflt hlo hhi hd
    have hmod : encodeSint32 S % 2 ^ 32 = encodeSint32 S := by
      apply Nat.mod_eq_of_lt
      unfold encodeSint32
      omega
    have hval : castInt32 (encodeSint32 S) = S := by
      unfold castInt32
      rw [hmod]
      unfold encodeSint32
      split <;> omega
    simp only [GFFStruct.getSint, hf, ht, hd, hmod, hval]
    rfl

/-- Witness of C7: a struct that holds nothing but the uint32 field "u" gives
4000000000 back, and the sint32 field "s" of the sample struct gives -5 back;
the default 7 plays no part. -/
theorem getUint_getSint_round_trip_witness :
    GFFStruct.getUint GFFFile.new
      { _id := 0, _fields := [([117], Field.new kFieldTypeUint32 4000000000)] } [117] 7 =
        .ok 4000000000 ∧
    GFFStruct.getSint GFFFile.new sampleStruct [115] 7 = .ok (-5) :=
  ⟨(getUint_getSint_round_trip GFFFile.new
      { _id := 0, _fields := [([117], Field.new kFieldTypeUint32 4000000000)] } [117]
      (Field.new kFieldTypeUint32 4000000000) rfl).1 rfl 4000000000 7 (by decide) rfl,
   (getUint_getSint_round_trip GFFFile.new sampleStruct [115]
      (Field.new kFieldTypeSint32 4294967291) rfl).2 rfl (-5) 7 (by decide) (by decide)
      (by decide)⟩

/-- The first byte of a read that lies inside the data. -/
theorem bytesAt_succ (data : List Nat) (p n : Nat) (h : p < data.length) :
    SeekableReadStream.bytesAt data p (n + 1) =
      (data.getD p 0 % 256) :: SeekableReadStream.bytesAt data (p + 1) n := by
  unfold SeekableReadStream.bytesAt
  rw [List.drop_eq_getElem_cons h, List.take_succ_cons, List.map_cons,
    List.getD_eq_getElem _ _ h]

/-- A read of no bytes finds none. -/
theorem bytesAt_zero (data : List Nat) (p : Nat) :
    SeekableReadStream.bytesAt data p 0 = [] := by
  simp [SeekableReadStream.bytesAt]

/-- The little-endian value of `n` bytes inside the data, as a weighted sum. -/
theorem leValue_bytesAt (data : List Nat) (n p : Nat) (h : p + n ≤ data.length) :
    leValue (SeekableReadStream.bytesAt data p n) =
      ((List.range n).map (fun k => data.getD (p + k) 0 % 256 * 256 ^ k)).sum := by
  induction n generalizing p with
  | zero => simp [bytesAt_zero, leValue]
  | succ n ih =>
    rw [bytesAt_succ data p n (by omega), leValue, ih (p + 1) (by omega),
      List.range_succ_eq_map, List.map_cons, List.sum_cons, List.map_map]
    simp only [Nat.mod_mod, Nat.add_zero, pow_zero, Nat.mul_one]
    congr 1
    rw [← List.sum_map_mul_left]
    congr 1
    apply List.map_congr_left
    intro k _
    simp only [Function.comp, pow_succ]
    have : p + 1 + k = p + (k + 1) := by omega
    rw [this]
    ring

/-- C8 as amended: on a present field with payload `d`, `getSint` returns the
sign-extension of the low 8 bits of `d` for byte and char, of the low 16 bits
for uint16 and sint16, of the low 32 bits for uint32 and sint32. -/
theorem getSint_sign_extends (parent : GFFFile) (s : GFFStruct) (label : UString)
    (f : Field) (dflt : Int) (hf : s.getField label = some f) :
    ((f.type = kFieldTypeByte ∨ f.type = kFieldTypeChar) →
      GFFStruct.getSint parent s label dflt = .ok (signExtend 8 f.data)) ∧
    ((f.type = kFieldTypeUint16 ∨ f.type = kFieldTypeSint16) →
      GFFStruct.getSint parent s label dflt = .ok (signExtend 16 f.data)) ∧
    ((f.type = kFieldTypeUint32 ∨ f.type = kFieldTypeSint32) →
      GFFStruct.getSint parent s label dflt = .ok (signExtend 32 f.data)) := by
  refine ⟨?_, ?_, ?_⟩
  · rintro (h | h) <;>
      simp only [GFFStruct.getSint, hf, h, castInt8, signExtend, Nat.mod_mod] <;> rfl
  · rintro (h | h) <;>
      simp only [GFFStruct.getSint, hf, h, castInt16, signExtend, Nat.mod_mod] <;> rfl
  · rintro (h | h) <;>
      simp only [GFFStruct.getSint, hf, h, castInt32, signExtend, Nat.mod_mod] <;> rfl

/-- Witness of C8 as amended: the byte 200 of the sample struct reads as -56. -/
theorem getSint_sign_extends_witness :
    GFFStruct.getSint GFFFile.new sampleStruct [98] 0 = .ok (signExtend 8 200) ∧
    signExtend 8 200 = -56 :=
  ⟨(getSint_sign_extends GFFFile.new sampleStruct [98] (Field.new kFieldTypeByte 200) 0
      (by decide)).1 (Or.inl rfl), by decide⟩

/-- Counterexample to C8 as stated: the sample struct holds a present field of
type byte with payload 200, whose zero-extension is 200, and `getSint` returns
-56 for it. -/
theorem getSint_byte_not_zero_extended :
    sampleStruct.getField [98] = some (Field.new kFieldTypeByte 200) ∧
    zeroExtend 8 200 = 200 ∧
    GFFStruct.getSint GFFFile.new sampleStruct [98] 0 = .ok (-56) ∧
    GFFStruct.getSint GFFFile.new sampleStruct [98] 0 ≠
      .ok ((zeroExtend 8 200 : Nat) : Int) := by
  refine ⟨rfl, rfl, rfl, ?_⟩
  intro h
  have h2 : (-56 : Int) = ((zeroExtend 8 200 : Nat) : Int) := Except.ok.inj h
  revert h2
  decide

/-- C9: on a present field with payload `d`, `getUint` returns the
zero-extension of the low 8/16/32 bits of `d` for byte/uint16/uint32, the
sign-extension of the low 8/16/32 bits taken modulo 2^64 for char/sint16/sint32,
and for uint64 and sint64 the sum of `b_k * 256^k` over the 8 bytes at offset
`d` of the field-data blob. -/
theorem getUint_widens (parent : GFFFile) (s : GFFStruct) (label : UString)
    (t : FieldType) (d dflt : Nat) (hf : s.getField label = some (Field.new t d)) :
    (t = kFieldTypeByte → GFFStruct.getUint parent s label dflt = .ok (zeroExtend 8 d)) ∧
    (t = kFieldTypeUint16 → GFFStruct.getUint parent s label dflt = .ok (zeroExtend 16 d)) ∧
    (t = kFieldTypeUint32 → GFFStruct.getUint parent s label dflt = .ok (zeroExtend 32 d)) ∧
    (t = kFieldTypeChar →
      GFFStruct.getUint parent s label dflt = .ok (signExtend 8 d % 2 ^ 64).toNat) ∧
    (t = kFieldTypeSint16 →
      GFFStruct.getUint parent s label dflt = .ok (signExtend 16 d % 2 ^ 64).toNat) ∧
    (t = kFieldTypeSint32 →
      GFFStruct.getUint parent s label dflt = .ok (signExtend 32 d % 2 ^ 64).toNat) ∧
    ((t = kFieldTypeUint64 ∨ t = kFieldTypeSint64) →
      ∀ blob : List Nat, parent._fieldData = some blob →
        blob.length = parent._header.fieldDataCount → d + 8 ≤ blob.length →
        GFFStruct.getUint parent s label dflt =
          .ok ((List.range 8).map (fun k => blob.getD (d + k) 0 % 256 * 256 ^ k)).sum) := by
  refine ⟨?_, ?_, ?_, ?_, ?_, ?_, ?_⟩
  · intro h; subst h
    simp only [GFFStruct.getUint, hf, zeroExtend]; rfl
  · intro h; subst h
    simp only [GFFStruct.getUint, hf, zeroExtend]; rfl
  · intro h; subst h
    simp only [GFFStruct.getUint, hf, zeroExtend]; rfl
  · intro h; subst h
    simp only [GFFStruct.getUint, hf, castUint64, castInt8, signExtend, Nat.mod_mod]; rfl
  · intro h; subst h
    simp only [GFFStruct.getUint, hf, castUint64, castInt16, signExtend, Nat.mod_mod]; rfl
  · intro h; subst h
    simp only [GFFStruct.getUint, hf, castUint64, castInt32, signExtend, Nat.mod_mod]; rfl
  · intro h blob hblob hlen hd
    have hsum := leValue_bytesAt blob 8 d hd
    have hlt : ((List.range 8).map (fun k => blob.getD (d + k) 0 % 256 * 256 ^ k)).sum
        < 2 ^ 64 := by
      simp only [List.range, List.range.loop, List.map_cons, List.map_nil, List.sum_cons,
        List.sum_nil]
      omega
    have hptr : GFFStruct.getDataPtr parent (Field.new t d) = .ok ⟨blob, d⟩ := by
      have hext : (Field.new t d).extended = true := by
        rcases h with h | h <;> subst h <;> rfl
      have hd2 : ¬ d ≥ parent._header.fieldDataCount := by omega
      unfold GFFStruct.getDataPtr
      rw [if_pos hext]
      show parent.getFieldData d = _
      simp [GFFFile.getFieldData, hblob, hd2]
    have hread : READ_LE_UINT64 ⟨blob, d⟩ =
        .ok ((List.range 8).map (fun k => blob.getD (d + k) 0 % 256 * 256 ^ k)).sum := by
      simp only [READ_LE_UINT64, BytePtr.bytes, hd, if_true, Except.map, hsum]
    rcases h with h | h
    · subst h
      simp only [GFFStruct.getUint, hf, hptr]
      exact hread
    · subst h
      simp only [GFFStruct.getUint, hf, hptr]
      show Except.map _ (Except.bind (Except.ok _) READ_LE_UINT64) = _
      simp only [Except.bind, hread, Except.map]
      congr 1
      unfold castUint64 castInt64
      rw [Nat.mod_eq_of_lt hlt]
      split <;> omega

/-- Witness of C9: the uint64 of the sample struct, stored at offset 1 of the
field data 0, 1, .., 9, reads as the little-endian value of the bytes 1 .. 8. -/
theorem getUint_widens_witness :
    GFFStruct.getUint sampleFile sampleStruct [113] 0 = .ok 0x0807060504030201 :=
  (getUint_widens sampleFile sampleStruct [113] kFieldTypeUint64 1 0 (by decide)).2.2.2.2.2.2
    (Or.inl rfl) [0, 1, 2, 3, 4, 5, 6, 7, 8, 9] rfl rfl (by decide)

/-! ## Absent labels -/

/-- C10: for a label that is not in the field map, `getChar`, `getUint`,
`getSint`, `getBool`, `getDouble` and `getString` return the supplied default,
`getVector`, `getOrientation` (in both precisions) and `getLocString` leave
their outputs as they were, and `getData` returns the null stream; none of them
raises. -/
theorem absent_label_gives_default (ext : Externals) (parent : GFFFile) (s : GFFStruct)
    (label : UString) (c : Int) (u : Nat) (i : Int) (b : Bool) (x : Nat) (str : UString)
    (xyz : Nat × Nat × Nat) (abcd : Nat × Nat × Nat × Nat) (loc : ext.LocString)
    (h : s.getField label = none) :
    GFFStruct.getChar s label c = .ok c ∧
    GFFStruct.getUint parent s label u = .ok u ∧
    GFFStruct.getSint parent s label i = .ok i ∧
    GFFStruct.getBool parent s label b = .ok b ∧
    GFFStruct.getDouble ext parent s label x = .ok x ∧
    GFFStruct.getString ext parent s label str = .ok str ∧
    GFFStruct.getVector parent s label xyz = .ok xyz ∧
    GFFStruct.getOrientation parent s label abcd = .ok abcd ∧
    GFFStruct.getVectorDouble ext parent s label xyz = .ok xyz ∧
    GFFStruct.getOrientationDouble ext parent s label abcd = .ok abcd ∧
    GFFStruct.getLocString ext parent s label loc = .ok loc ∧
    GFFStruct.getData parent s label = .ok none := by
  refine ⟨?_, ?_, ?_, ?_, ?_, ?_, ?_, ?_, ?_, ?_, ?_, ?_⟩
  · simp only [GFFStruct.getChar, h]
  · simp only [GFFStruct.getUint, h]
  · simp only [GFFStruct.getSint, h]
  · cases b <;> simp [GFFStruct.getBool, GFFStruct.getUint, h, Except.map]
  · simp only [GFFStruct.getDouble, h]
  · simp only [GFFStruct.getString, h]
  · simp only [GFFStruct.getVector, h]
  · simp only [GFFStruct.getOrientation, h]
  · simp only [GFFStruct.getVectorDouble, h]
  · simp only [GFFStruct.getOrientationDouble, h]
  · simp only [GFFStruct.getLocString, h]
  · simp only [GFFStruct.getData, h]

/-- Witness of C10: the sample struct has no label "z". -/
theorem absent_label_gives_default_witness :
    GFFStruct.getChar sampleStruct [122] 7 = .ok 7 ∧
    GFFStruct.getUint sampleFile sampleStruct [122] 8 = .ok 8 ∧
    GFFStruct.getSint sampleFile sampleStruct [122] (-9) = .ok (-9) ∧
    GFFStruct.getBool sampleFile sampleStruct [122] true = .ok true ∧
    GFFStruct.getDouble sampleExternals sampleFile sampleStruct [122] 10 = .ok 10 ∧
    GFFStruct.getString sampleExternals sampleFile sampleStruct [122] [100] = .ok [100] ∧
    GFFStruct.getVector sampleFile sampleStruct [122] (1, 2, 3) = .ok (1, 2, 3) ∧
    GFFStruct.getOrientation sampleFile sampleStruct [122] (1, 2, 3, 4) = .ok (1, 2, 3, 4) ∧
    GFFStruct.getVectorDouble sampleExternals sampleFile sampleStruct [122] (1, 2, 3)
      = .ok (1, 2, 3) ∧
    GFFStruct.getOrientationDouble sampleExternals sampleFile sampleStruct [122] (1, 2, 3, 4)
      = .ok (1, 2, 3, 4) ∧
    GFFStruct.getLocString sampleExternals sampleFile sampleStruct [122] [[1]] = .ok [[1]] ∧
    GFFStruct.getData sampleFile sampleStruct [122] = .ok none :=
  absent_label_gives_default sampleExternals sampleFile sampleStruct [122] 7 8 (-9) true 10
    [100] (1, 2, 3) (1, 2, 3, 4) [[1]] (by decide)

/-! ## List expansion -/

/-- The number of words `readUint32LEs` returns. -/
theorem readUint32LEs_length (n : Nat) (gff : SeekableReadStream) :
    (readUint32LEs n gff).1.length = n := by
  induction n generalizing gff with
  | zero => rfl
  | succ n ih => simp [readUint32LEs, ih]

/-- The length of the raw table of a sequence of runs. -/
theorem encodeRuns_length_ge (runs : List (List Nat)) :
    runs.length ≤ (encodeRuns runs).length := by
  induction runs with
  | nil => simp [encodeRuns]
  | cons run runs ih => simp [encodeRuns]; omega

/-- The counting loop accepts a table made of runs, from the start of any run. -/
theorem countLists_encodeRuns (runs : List (List Nat)) (pre : List Nat) (fuel listCount : Nat)
    (hlen : (pre ++ encodeRuns runs).length < 2 ^ 32) (hfuel : runs.length < fuel) :
    ∃ c, GFFFile.countLists (pre ++ encodeRuns runs) fuel pre.length listCount =
      some (.ok c) := by
  induction runs generalizing pre fuel listCount with
  | nil =>
    cases fuel with
    | zero => omega
    | succ fuel => exact ⟨listCount, by simp [GFFFile.countLists, encodeRuns]⟩
  | cons run runs ih =>
    cases fuel with
    | zero => omega
    | succ fuel =>
      have hlen2 : pre.length + (run.length + (encodeRuns runs).length + 1) < 2 ^ 32 := by
        simpa [encodeRuns] using hlen
      have hi : pre.length < (pre ++ encodeRuns (run :: runs)).length := by
        simp [encodeRuns]
      have hn : (pre ++ encodeRuns (run :: runs)).getD pre.length 0 = run.length := by
        rw [List.getD_eq_getElem?_getD, List.getElem?_append_right (Nat.le_refl _)]
        simp [encodeRuns]
      have hmod : (pre.length + run.length) % 2 ^ 32 = pre.length + run.length :=
        Nat.mod_eq_of_lt (by omega)
      have hmod2 : (pre.length + run.length + 1) % 2 ^ 32 = pre.length + run.length + 1 :=
        Nat.mod_eq_of_lt (by omega)
      have hle : ¬ (pre.length + run.length > (pre ++ encodeRuns (run :: runs)).length) := by
        simp [encodeRuns]; omega
      have hsplit : pre ++ encodeRuns (run :: runs) =
          (pre ++ run.length :: run) ++ encodeRuns runs := by
        simp [encodeRuns]
      have hnext : (pre ++ run.length :: run).length = pre.length + run.length + 1 := by
        simp; omega
      obtain ⟨c, hc⟩ := ih (pre ++ run.length :: run) fuel ((listCount + 1) % 2 ^ 32)
        (by rw [← hsplit]; exact hlen) (by simp at hfuel; omega)
      refine ⟨c, ?_⟩
      rw [GFFFile.countLists, if_pos hi]
      simp only [hn, hmod, hmod2, if_neg hle]
      rw [hsplit, ← hnext]
      exact hc

/-- The inner loop reads a whole run whose indices are all below the struct
count. -/
theorem readListRun_run (structs : List GFFStruct) (run rest : List Nat) (list : GFFList)
    (size : Nat) (lookup : List Nat) (hidx : ∀ idx ∈ run, idx < structs.length)
    (hsize : size + run.length < 2 ^ 32) :
    GFFFile.readListRun structs run.length (run ++ rest) list size lookup =
      .ok (rest, list ++ run, size + run.length,
        lookup ++ List.replicate run.length 0xFFFFFFFF) := by
  induction run generalizing list size lookup with
  | nil => simp [GFFFile.readListRun]
  | cons w run ih =>
    have hw : w < structs.length := hidx w (List.mem_cons_self _ _)
    have hsz : (size + 1) % 2 ^ 32 = size + 1 := Nat.mod_eq_of_lt (by simp at hsize; omega)
    show GFFFile.readListRun structs (run.length + 1) (w :: (run ++ rest)) list size lookup = _
    rw [GFFFile.readListRun, if_pos hw, hsz,
      ih (list ++ [w]) (size + 1) (lookup ++ [0xFFFFFFFF])
        (fun idx h => hidx idx (List.mem_cons_of_mem _ h)) (by simp at hsize; omega)]
    simp [List.replicate_succ, Nat.add_comm, Nat.add_left_comm]

/-- The converting loop turns a table made of runs into one list per run. -/
theorem convertLists_encodeRuns (runs : List (List Nat)) (f : GFFFile) (fuel : Nat)
    (hidx : ∀ run ∈ runs, ∀ idx ∈ run, idx < f._structs.length)
    (hlen : (encodeRuns runs).length < 2 ^ 32) (hfuel : runs.length ≤ fuel) :
    GFFFile.convertLists fuel f (encodeRuns runs) =
      some (.ok { f with
        _lists := f._lists ++ runs
        _listSizes := f._listSizes ++ runs.map List.length
        _listOffsetToIndex := f._listOffsetToIndex ++ offsetLookup f._lists.length runs }) := by
  induction runs generalizing f fuel with
  | nil => simp [encodeRuns, GFFFile.convertLists, offsetLookup]
  | cons run runs ih =>
    cases fuel with
    | zero => simp at hfuel
    | succ fuel =>
      have hlen2 : run.length + (encodeRuns runs).length + 1 < 2 ^ 32 := by
        simpa [encodeRuns] using hlen
      simp only [encodeRuns, GFFFile.convertLists]
      rw [readListRun_run f._structs run (encodeRuns runs) [] 0 _
        (hidx run (List.mem_cons_self _ _)) (by omega)]
      simp only []
      rw [ih]
      · simp [offsetLookup]
      · exact fun r hr => hidx r (List.mem_cons_of_mem _ hr)
      · omega
      · simpa using hfuel

/-- What `readLists` does on a table made of runs: it succeeds, and appends the
runs, their lengths and their lookup entries to the three vectors. -/
theorem readLists_encodeRuns (f : GFFFile) (gff gff1 : SeekableReadStream)
    (runs : List (List Nat)) (fuel : Nat)
    (hcount : f._header.listIndicesCount < 2 ^ 32)
    (hseek : gff.seek f._header.listIndicesOffset = (true, gff1))
    (hraw : (readUint32LEs (f._header.listIndicesCount / 4) gff1).1 = encodeRuns runs)
    (hidx : ∀ run ∈ runs, ∀ idx ∈ run, idx < f._structs.length)
    (hfuel : (encodeRuns runs).length < fuel) :
    GFFFile.readLists fuel f gff =
      some ({ f with
          _lists := f._lists ++ runs
          _listSizes := f._listSizes ++ runs.map List.length
          _listOffsetToIndex := f._listOffsetToIndex ++ offsetLookup f._lists.length runs },
        .ok (readUint32LEs (f._header.listIndicesCount / 4) gff1).2) := by
  have hW : (encodeRuns runs).length < 2 ^ 32 := by
    rw [← hraw, readUint32LEs_length]
    omega
  have hruns := encodeRuns_length_ge runs
  obtain ⟨c, hc⟩ := countLists_encodeRuns runs [] fuel 0 (by simpa using hW) (by omega)
  simp only [List.nil_append, List.length_nil] at hc
  have hconv := convertLists_encodeRuns runs f fuel hidx hW (by omega)
  simp only [GFFFile.readLists, hseek, hraw, hc, hconv]

/-- C1: on a file without lists, a raw table that is a concatenation of runs
`[n, idx_0 .. idx_{n-1}]` with every index below the struct count expands to
exactly one list per run, in run order; each list holds the run's struct
references in order and its recorded size is the run's length. -/
theorem readLists_one_list_per_run (f : GFFFile) (gff gff1 : SeekableReadStream)
    (runs : List (List Nat)) (fuel : Nat)
    (hfresh : f._lists = [] ∧ f._listSizes = [] ∧ f._listOffsetToIndex = [])
    (hcount : f._header.listIndicesCount < 2 ^ 32)
    (hseek : gff.seek f._header.listIndicesOffset = (true, gff1))
    (hraw : (readUint32LEs (f._header.listIndicesCount / 4) gff1).1 = encodeRuns runs)
    (hidx : ∀ run ∈ runs, ∀ idx ∈ run, idx < f._structs.length)
    (hfuel : (encodeRuns runs).length < fuel) :
    ∃ f1 gff2, GFFFile.readLists fuel f gff = some (f1, .ok gff2) ∧
      f1._lists = runs ∧
      f1._listSizes = runs.map List.length ∧
      f1._structs = f._structs := by
  refine ⟨_, _, readLists_encodeRuns f gff gff1 runs fuel hcount hseek hraw hidx hfuel, ?_, ?_, ?_⟩
  · simp [hfresh.1]
  · simp [hfresh.2.1]
  · rfl

/-- Witness of C1: the raw words 2, 5, 7, 1, 9 give the two lists [5, 7] and
[9] with the sizes 2 and 1. -/
theorem readLists_one_list_per_run_witness :
    ∃ f1 gff2,
      GFFFile.readLists 6 (sampleListFile 20) ⟨wordsLE [2, 5, 7, 1, 9], 0, false⟩ =
        some (f1, .ok gff2) ∧
      f1._lists = [[5, 7], [9]] ∧
      f1._listSizes = [2, 1] ∧
      f1._structs = (sampleListFile 20)._structs :=
  readLists_one_list_per_run (sampleListFile 20) ⟨wordsLE [2, 5, 7, 1, 9], 0, false⟩
    ⟨wordsLE [2, 5, 7, 1, 9], 0, false⟩ [[5, 7], [9]] 6 ⟨rfl, rfl, rfl⟩ (by decide) (by decide)
    (by decide) (by decide) (by decide)

/-! ## Offset-to-list lookup -/

/-- The lookup has one entry per word of the table. -/
theorem offsetLookup_length (runs : List (List Nat)) (base : Nat) :
    (offsetLookup base runs).length = (encodeRuns runs).length := by
  induction runs generalizing base with
  | nil => rfl
  | cons run runs ih => simp [offsetLookup, encodeRuns, ih]

/-- At the position of the length word of run `k` the lookup holds the number
of the list. -/
theorem offsetLookup_runStart (runs : List (List Nat)) (base k : Nat) (hk : k < runs.length) :
    (offsetLookup base runs)[runStart runs k]? = some ((base + k) % 2 ^ 32) := by
  induction runs generalizing base k with
  | nil => simp at hk
  | cons run runs ih =>
    cases k with
    | zero => simp [offsetLookup, runStart]
    | succ k =>
      have hk2 : k < runs.length := by simpa using hk
      have hpos : run.length + 1 + runStart runs k = (run.length + runStart runs k) + 1 := by
        omega
      simp only [offsetLookup, runStart]
      rw [hpos, List.getElem?_cons_succ,
        List.getElem?_append_right (by simp), List.length_replicate,
        Nat.add_sub_cancel_left, ih (base + 1) k hk2]
      congr 2
      omega

/-- At a position inside a run the lookup holds the continuation marker. -/
theorem offsetLookup_inside (runs : List (List Nat)) (base p : Nat)
    (hp : p < (encodeRuns runs).length)
    (hin : ∀ k, k < runs.length → p ≠ runStart runs k) :
    (offsetLookup base runs)[p]? = some 0xFFFFFFFF := by
  induction runs generalizing base p with
  | nil => simp [encodeRuns] at hp
  | cons run runs ih =>
    cases p with
    | zero => exact absurd rfl (hin 0 (by simp))
    | succ q =>
      simp only [offsetLookup, List.getElem?_cons_succ]
      by_cases hq : q < run.length
      · rw [List.getElem?_append_left (by simpa using hq)]
        simp [List.getElem?_replicate, hq]
      · have hq2 : run.length ≤ q := by omega
        rw [List.getElem?_append_right (by simpa using hq2), List.length_replicate]
        apply ih
        · simp [encodeRuns] at hp
          omega
        · intro k hk hEq
          apply hin (k + 1) (by simpa using hk)
          simp only [runStart]
          omega

/-- C2: after `readLists` has expanded a table of runs into a file without
lists, the lookup has one entry per word of the table; `getList` at the
position of the length word of run `k` returns the `k`-th list and its element
count; at a position inside a run the lookup holds 0xFFFFFFFF and the bounds
assertion of `getList` fails; at a position past the table the first assertion
fails. -/
theorem getList_resolves_length_words (f : GFFFile) (gff gff1 : SeekableReadStream)
    (runs : List (List Nat)) (fuel : Nat)
    (hfresh : f._lists = [] ∧ f._listSizes = [] ∧ f._listOffsetToIndex = [])
    (hcount : f._header.listIndicesCount < 2 ^ 32)
    (hseek : gff.seek f._header.listIndicesOffset = (true, gff1))
    (hraw : (readUint32LEs (f._header.listIndicesCount / 4) gff1).1 = encodeRuns runs)
    (hidx : ∀ run ∈ runs, ∀ idx ∈ run, idx < f._structs.length)
    (hfuel : (encodeRuns runs).length < fuel) :
    ∃ f1 gff2, GFFFile.readLists fuel f gff = some (f1, .ok gff2) ∧
      f1._listOffsetToIndex.length = (encodeRuns runs).length ∧
      (∀ k, k < runs.length →
        f1.getList (runStart runs k) = .ok (runs.getD k [], (runs.getD k []).length)) ∧
      (∀ p, p < (encodeRuns runs).length → (∀ k, k < runs.length → p ≠ runStart runs k) →
        f1._listOffsetToIndex.get? p = some 0xFFFFFFFF ∧
        f1.getList p = .error .assertion) ∧
      (∀ p, (encodeRuns runs).length ≤ p → f1.getList p = .error .assertion) := by
  have hW : (encodeRuns runs).length < 2 ^ 32 := by
    rw [← hraw, readUint32LEs_length]
    omega
  have hruns := encodeRuns_length_ge runs
  obtain ⟨h1, h2, h3⟩ := hfresh
  refine ⟨_, _, readLists_encodeRuns f gff gff1 runs fuel hcount hseek hraw hidx hfuel,
    ?_, ?_, ?_, ?_⟩
  · simp [h3, h1, offsetLookup_length]
  · intro k hk
    have hlook := offsetLookup_runStart runs 0 k hk
    rw [Nat.zero_add, Nat.mod_eq_of_lt (by omega)] at hlook
    simp only [GFFFile.getList, h1, h2, h3, List.nil_append, List.length_nil,
      List.get?_eq_getElem?, hlook]
    simp [List.getElem?_eq_getElem hk, List.getD_eq_getElem?_getD]
  · intro p hp hin
    have hlook := offsetLookup_inside runs 0 p hp hin
    have hnone : runs[4294967295]? = none := by
      apply List.getElem?_eq_none
      omega
    simp only [GFFFile.getList, h1, h2, h3, List.nil_append, List.length_nil,
      List.get?_eq_getElem?, hlook, hnone, and_self]
  · intro p hp
    have hnone : (offsetLookup 0 runs)[p]? = none := by
      apply List.getElem?_eq_none
      rw [offsetLookup_length]
      exact hp
    simp only [GFFFile.getList, h1, h3, List.nil_append, List.length_nil,
      List.get?_eq_getElem?, hnone]

/-- Witness of C2: for the raw words 2, 5, 7, 1, 9 word 0 resolves the first
list, word 3 the second, words 1, 2 and 4 are invalid, and so is word 5. -/
theorem getList_resolves_length_words_witness :
    ∃ f1 gff2,
      GFFFile.readLists 6 (sampleListFile 20) ⟨wordsLE [2, 5, 7, 1, 9], 0, false⟩ =
        some (f1, .ok gff2) ∧
      f1._listOffsetToIndex.length = 5 ∧
      f1.getList 0 = .ok ([5, 7], 2) ∧
      f1.getList 3 = .ok ([9], 1) ∧
      f1.getList 1 = .error .assertion ∧
      f1.getList 2 = .error .assertion ∧
      f1.getList 4 = .error .assertion ∧
      f1.getList 5 = .error .assertion := by
  obtain ⟨f1, gff2, h, hlen, hstart, hin, hout⟩ :=
    getList_resolves_length_words (sampleListFile 20) ⟨wordsLE [2, 5, 7, 1, 9], 0, false⟩
      ⟨wordsLE [2, 5, 7, 1, 9], 0, false⟩ [[5, 7], [9]] 6 ⟨rfl, rfl, rfl⟩ (by decide)
      (by decide) (by decide) (by decide) (by decide)
  exact ⟨f1, gff2, h, hlen, hstart 0 (by decide), hstart 1 (by decide),
    (hin 1 (by decide) (by decide)).2, (hin 2 (by decide) (by decide)).2,
    (hin 4 (by decide) (by decide)).2, hout 5 (by decide)⟩

/-! ## List runs that overrun the table -/

/-- Evaluation for C3: on the image whose list-indices table is the single
word 1, `load` does not throw "List indices broken"; the counting loop accepts
the table and the converting loop stops at `assert(it != rawLists.end())`. -/
theorem load_overrun_by_one_not_rejected :
    (GFFFile.load 4 GFFFile.new ⟨overrunImage, 0, false⟩).map Prod.snd =
      some (.error .assertion) ∧
    GFFFile.countLists [1] 4 0 0 = some (.ok 1) ∧
    GFFFile.countLists [2, 5, 7, 1] 4 0 0 = some (.ok 2) ∧
    (GFFFile.readLists 6 (sampleListFile 16) ⟨wordsLE [2, 5, 7, 1], 0, false⟩).map Prod.snd =
      some (.error .assertion) := by
  refine ⟨?_, ?_, ?_, ?_⟩ <;> rfl

/-! ## Struct construction -/

/-- A read leaves the bytes of the stream as they are. -/
theorem read_data (g : SeekableReadStream) (n : Nat) : (g.read n).2.data = g.data := rfl

/-- A 32-bit read leaves the bytes of the stream as they are. -/
theorem readUint32LE_data (g : SeekableReadStream) : g.readUint32LE.2.data = g.data := rfl

/-- A seek leaves the bytes of the stream as they are. -/
theorem seek_data (g : SeekableReadStream) (o : Nat) : (g.seek o).2.data = g.data := by
  unfold SeekableReadStream.seek
  split <;> rfl

/-- Reads of streams with the same view find the same bytes. -/
theorem read_sameView (g h : SeekableReadStream) (n : Nat) (hv : SameView g h) :
    (g.read n).1 = (h.read n).1 ∧ SameView (g.read n).2 (h.read n).2 := by
  obtain ⟨hd, hp⟩ := hv
  simp only [SeekableReadStream.read, SameView, hd, hp, and_self]

/-- 32-bit reads of streams with the same view find the same word. -/
theorem readUint32LE_sameView (g h : SeekableReadStream) (hv : SameView g h) :
    g.readUint32LE.1 = h.readUint32LE.1 ∧ SameView g.readUint32LE.2 h.readUint32LE.2 := by
  obtain ⟨h1, h2⟩ := read_sameView g h 4 hv
  exact ⟨by simp only [SeekableReadStream.readUint32LE, h1], h2⟩

/-- An absolute seek on streams with the same bytes has the same outcome and,
where it succeeds, gives the same view. -/
theorem seek_sameData (g h : SeekableReadStream) (o : Nat) (hd : g.data = h.data) :
    (g.seek o).1 = (h.seek o).1 ∧ ((g.seek o).1 = true → SameView (g.seek o).2 (h.seek o).2) := by
  unfold SeekableReadStream.seek
  rw [hd]
  by_cases ho : o ≤ h.data.length
  · simp only [if_pos ho, SameView, hd, and_self, implies_true]
  · simp only [if_neg ho, Bool.false_eq_true, false_implies, and_self]

/-- A seek on streams with the same view gives the same view, moved or not. -/
theorem seek_sameView (g h : SeekableReadStream) (o : Nat) (hv : SameView g h) :
    SameView (g.seek o).2 (h.seek o).2 := by
  obtain ⟨hd, hp⟩ := hv
  unfold SeekableReadStream.seek
  rw [hd]
  by_cases ho : o ≤ h.data.length
  · simp only [if_pos ho, SameView, hd, and_self]
  · simp only [if_neg ho, SameView, hd, hp, and_self]

/-- Label reads on streams with the same view find the same label. -/
theorem readLabel_sameView (parent : GFFFile) (g h : SeekableReadStream) (i : Nat)
    (hv : SameView g h) :
    (GFFStruct.readLabel parent g i).1 = (GFFStruct.readLabel parent h i).1 ∧
    (GFFStruct.readLabel parent g i).2.data = g.data := by
  have hs := seek_sameView g h ((parent._header.labelOffset + i * 16) % 2 ^ 32) hv
  obtain ⟨h1, _⟩ := read_sameView _ _ 16 hs
  refine ⟨?_, ?_⟩
  · simp only [GFFStruct.readLabel, SeekableReadStream.readASCII, h1]
  · simp only [GFFStruct.readLabel, SeekableReadStream.readASCII, read_data, seek_data]

/-- What `readField` enters depends on the bytes of the stream only. -/
theorem readField_sameData (parent : GFFFile) (s t : GFFStruct) (g h : SeekableReadStream)
    (index : Nat) (r : GFFStruct × SeekableReadStream) (hd : g.data = h.data)
    (hr : GFFStruct.readField parent s g index = .ok r) :
    ∃ l fld q, GFFStruct.readField parent t h index = .ok q ∧
      r.1._fields = s._fields.assign l fld ∧ q.1._fields = t._fields.assign l fld ∧
      r.1._id = s._id ∧ r.2.data = g.data := by
  unfold GFFStruct.readField at hr ⊢
  by_cases hidx : index > parent._header.fieldCount
  · rw [if_pos hidx] at hr
    cases hr
  · rw [if_neg hidx] at hr ⊢
    obtain ⟨hflag, hview⟩ :=
      seek_sameData g h ((parent._header.fieldOffset + index * 12) % 2 ^ 32) hd
    have hgd := seek_data g ((parent._header.fieldOffset + index * 12) % 2 ^ 32)
    rcases hg : g.seek ((parent._header.fieldOffset + index * 12) % 2 ^ 32) with ⟨b, g1⟩
    rcases hh : h.seek ((parent._header.fieldOffset + index * 12) % 2 ^ 32) with ⟨c, h1⟩
    rw [hg] at hr hflag hview hgd
    rw [hh] at hflag hview
    simp only at hflag hview hgd
    subst hflag
    cases b with
    | false => cases hr
    | true =>
      have hv1 := hview rfl
      obtain ⟨e1, hv2⟩ := readUint32LE_sameView g1 h1 hv1
      obtain ⟨e2, hv3⟩ := readUint32LE_sameView _ _ hv2
      obtain ⟨e3, hv4⟩ := readUint32LE_sameView _ _ hv3
      obtain ⟨e4, e5⟩ := readLabel_sameView parent _ _ g1.readUint32LE.2.readUint32LE.1 hv4
      simp only [Except.ok.injEq] at hr
      subst hr
      refine ⟨_, _, _, rfl, rfl, ?_, rfl, ?_⟩
      · rw [e2] at e4
        simp only [e1, e2, e3, e4]
      · simp only [e5, readUint32LE_data, hgd]

/-- What `readField` does, in terms of `fieldAt`. -/
theorem readField_fieldAt (parent : GFFFile) (s : GFFStruct) (gff : SeekableReadStream)
    (index : Nat) (r : GFFStruct × SeekableReadStream)
    (h : GFFStruct.readField parent s gff index = .ok r) :
    ∃ l fld, fieldAt parent gff.data index = some (l, fld) ∧
      r.1._fields = s._fields.assign l fld ∧ r.1._id = s._id ∧ r.2.data = gff.data := by
  obtain ⟨l, fld, q, hq, h1, h2, h3, h4⟩ :=
    readField_sameData parent s { _id := 0, _fields := [] } gff ⟨gff.data, 0, false⟩ index r rfl h
  refine ⟨l, fld, ?_, h1, h3, h4⟩
  simp only [fieldAt, hq, h2, FieldMap.assign, List.head?_cons]

/-! ### The field map -/

/-- Assigning a key the map does not hold appends the entry. -/
theorem FieldMap.assign_of_not_mem (m : FieldMap) (l : UString) (v : Field)
    (h : l ∉ m.map Prod.fst) : FieldMap.assign m l v = m ++ [(l, v)] := by
  induction m with
  | nil => rfl
  | cons e m ih =>
    obtain ⟨k, w⟩ := e
    simp only [List.map_cons, List.mem_cons, not_or] at h
    have hk : ¬ k = l := fun hkl => h.1 hkl.symm
    simp only [FieldMap.assign, if_neg hk, ih h.2, List.cons_append]

/-- Assigning entries with pairwise distinct new keys appends them in order. -/
theorem FieldMap.foldl_assign_of_nodup (entries : List (UString × Field)) (m : FieldMap)
    (h : (m.map Prod.fst ++ entries.map Prod.fst).Nodup) :
    entries.foldl (fun acc e => FieldMap.assign acc e.1 e.2) m = m ++ entries := by
  induction entries generalizing m with
  | nil => simp
  | cons e entries ih =>
    have hnot : e.1 ∉ m.map Prod.fst := by
      intro hmem
      rw [List.nodup_append] at h
      exact h.2.2 hmem (by simp)
    rw [List.foldl_cons, FieldMap.assign_of_not_mem m e.1 e.2 hnot, ih]
    · simp
    · simpa [List.append_assoc] using h

/-- A map with distinct keys finds each of its entries. -/
theorem FieldMap.find_of_mem (m : FieldMap) (l : UString) (v : Field)
    (hnd : (m.map Prod.fst).Nodup) (h : (l, v) ∈ m) : FieldMap.find m l = some v := by
  induction m with
  | nil => simp at h
  | cons e m ih =>
    obtain ⟨k, w⟩ := e
    simp only [List.map_cons, List.nodup_cons] at hnd
    simp only [List.mem_cons, Prod.mk.injEq] at h
    rcases h with ⟨h1, h2⟩ | h
    · simp [FieldMap.find, h1, h2]
    · have hk : ¬ k = l := by
        intro hkl
        apply hnd.1
        rw [hkl]
        exact List.mem_map_of_mem Prod.fst h
      simp only [FieldMap.find, if_neg hk]
      exact ih hnd.2 h

/-- What a map finds is one of its entries. -/
theorem FieldMap.mem_of_find (m : FieldMap) (l : UString) (v : Field)
    (h : FieldMap.find m l = some v) : (l, v) ∈ m := by
  induction m with
  | nil => simp [FieldMap.find] at h
  | cons e m ih =>
    obtain ⟨k, w⟩ := e
    by_cases hk : k = l
    · simp only [FieldMap.find, if_pos hk, Option.some.injEq] at h
      simp [hk, h]
    · simp only [FieldMap.find, if_neg hk] at h
      exact List.mem_cons_of_mem _ (ih h)

/-! ### Reading the indices and the fields -/

/-- The loop of `readFields` enters, in order, the fields its indices resolve to. -/
theorem readFieldsLoop_entries (parent : GFFFile) (indices : List Nat) (s : GFFStruct)
    (gff : SeekableReadStream) (r : GFFStruct × SeekableReadStream)
    (h : GFFStruct.readFieldsLoop parent indices s gff = .ok r) :
    ∃ entries : List (UString × Field),
      indices.map (fieldAt parent gff.data) = entries.map some ∧
      r.1._fields = entries.foldl (fun acc e => FieldMap.assign acc e.1 e.2) s._fields ∧
      r.1._id = s._id ∧ r.2.data = gff.data := by
  induction indices generalizing s gff with
  | nil =>
    simp only [GFFStruct.readFieldsLoop, Except.ok.injEq] at h
    subst h
    exact ⟨[], rfl, rfl, rfl, rfl⟩
  | cons i indices ih =>
    unfold GFFStruct.readFieldsLoop at h
    rcases hf : GFFStruct.readField parent s gff i with e | q
    · rw [hf] at h
      cases h
    · rw [hf] at h
      obtain ⟨l, fld, h1, h2, h3, h4⟩ := readField_fieldAt parent s gff i q hf
      obtain ⟨entries, g1, g2, g3, g4⟩ := ih q.1 q.2 h
      refine ⟨(l, fld) :: entries, ?_, ?_, ?_, ?_⟩
      · simp only [List.map_cons, h1, ← g1, h4]
      · simp only [List.foldl_cons, g2, h2]
      · rw [g3, h3]
      · rw [g4, h4]

/-- The number of bytes a read finds. -/
theorem bytesAt_length (data : List Nat) (p n : Nat) :
    (SeekableReadStream.bytesAt data p n).length = min n (data.length - p) := by
  simp [SeekableReadStream.bytesAt]

/-- A read at or past the end finds nothing. -/
theorem bytesAt_past_end (data : List Nat) (p n : Nat) (h : data.length ≤ p) :
    SeekableReadStream.bytesAt data p n = [] := by
  simp [SeekableReadStream.bytesAt, List.drop_eq_nil_of_le h]

/-- The value of a byte sequence is below 256 to the power of its length. -/
theorem leValue_lt (bs : List Nat) : leValue bs < 256 ^ bs.length := by
  induction bs with
  | nil => simp [leValue]
  | cons b bs ih =>
    have hb : b % 256 < 256 := Nat.mod_lt _ (by decide)
    simp only [leValue, List.length_cons, pow_succ]
    omega

/-- A 32-bit word read from a stream is below 2^32. -/
theorem leValue_bytesAt_lt (data : List Nat) (p : Nat) :
    leValue (SeekableReadStream.bytesAt data p 4) < 2 ^ 32 := by
  have h1 := leValue_lt (SeekableReadStream.bytesAt data p 4)
  have h2 : (SeekableReadStream.bytesAt data p 4).length ≤ 4 := by
    rw [bytesAt_length]
    exact Nat.min_le_left _ _
  have h3 : 256 ^ (SeekableReadStream.bytesAt data p 4).length ≤ 256 ^ 4 :=
    Nat.pow_le_pow_right (by decide) h2
  have h4 : (256 : Nat) ^ 4 = 2 ^ 32 := by norm_num
  omega

/-- A 32-bit read of a stream that stands at `q` finds the word at `q` and
leaves the stream standing at `q + 4`. -/
theorem readUint32LE_standsAt (g : SeekableReadStream) (q : Nat) (h : StandsAt g q) :
    g.readUint32LE.1 = leValue (SeekableReadStream.bytesAt g.data q 4) ∧
    StandsAt g.readUint32LE.2 (q + 4) := by
  rcases h with h | ⟨h1, h2⟩
  · refine ⟨by simp only [SeekableReadStream.readUint32LE, SeekableReadStream.read, h], ?_⟩
    simp only [StandsAt, SeekableReadStream.readUint32LE, SeekableReadStream.read, h,
      bytesAt_length]
    omega
  · refine ⟨?_, ?_⟩
    · simp only [SeekableReadStream.readUint32LE, SeekableReadStream.read,
        bytesAt_past_end _ _ _ h1, bytesAt_past_end _ _ _ h2]
    · simp only [StandsAt, SeekableReadStream.readUint32LE, SeekableReadStream.read,
        bytesAt_length]
      omega

/-- The words `readUint32LEs` reads from a stream that stands at `q` are the
words at `q`, `q + 4`, .. of its bytes. -/
theorem readUint32LEs_standsAt (n : Nat) (g : SeekableReadStream) (q : Nat)
    (h : StandsAt g q) :
    (readUint32LEs n g).1 =
      (List.range n).map (fun k => leValue (SeekableReadStream.bytesAt g.data (q + 4 * k) 4)) ∧
    (readUint32LEs n g).2.data = g.data := by
  induction n generalizing g q with
  | zero => exact ⟨rfl, rfl⟩
  | succ n ih =>
    obtain ⟨h1, h2⟩ := readUint32LE_standsAt g q h
    obtain ⟨h3, h4⟩ := ih g.readUint32LE.2 (q + 4) h2
    refine ⟨?_, ?_⟩
    · simp only [readUint32LEs, h1, h3, readUint32LE_data, List.range_succ_eq_map,
        List.map_cons, List.map_map, Nat.mul_zero, Nat.add_zero, List.cons.injEq, true_and]
      apply List.map_congr_left
      intro k _
      simp only [Function.comp, Nat.succ_eq_add_one]
      congr 2
      omega
    · simp only [readUint32LEs, h4, readUint32LE_data]

/-- The number of indices a struct descriptor names. -/
theorem descriptorIndices_length (parent : GFFFile) (data : List Nat) (index count : Nat) :
    (descriptorIndices parent data index count).length = count := by
  unfold descriptorIndices
  split
  · simp_all
  · split
    · simp_all
    · simp

/-- What the constructor enters into the field map: in order, the fields that
the indices of its descriptor resolve to. -/
theorem new_entries (parent : GFFFile) (gff : SeekableReadStream)
    (r : GFFStruct × SeekableReadStream) (id index count : Nat)
    (hdesc : (readUint32LEs 3 gff).1 = [id, index, count])
    (hnew : GFFStruct.new parent gff = .ok r) :
    ∃ entries : List (UString × Field),
      (descriptorIndices parent gff.data index count).map (fieldAt parent gff.data) =
        entries.map some ∧
      r.1._fields = entries.foldl (fun acc e => FieldMap.assign acc e.1 e.2) [] ∧
      r.1._id = id := by
  simp only [readUint32LEs, List.cons.injEq, and_true] at hdesc
  obtain ⟨hid, hindex, hcount⟩ := hdesc
  unfold GFFStruct.new at hnew
  simp only [hid, hindex, hcount] at hnew
  have hdata : gff.readUint32LE.2.readUint32LE.2.readUint32LE.2.data = gff.data := rfl
  by_cases h1 : count = 1
  · subst h1
    simp only [if_true] at hnew
    rcases hf : GFFStruct.readField parent { _id := id, _fields := [] }
        gff.readUint32LE.2.readUint32LE.2.readUint32LE.2 index with e | q
    · rw [hf] at hnew
      cases hnew
    · rw [hf] at hnew
      simp only [Except.ok.injEq] at hnew
      subst hnew
      obtain ⟨l, fld, g1, g2, g3, _⟩ := readField_fieldAt parent _ _ index q hf
      refine ⟨[(l, fld)], ?_, ?_, g3⟩
      · simp [descriptorIndices, ← hdata, g1]
      · simpa using g2
  · rw [if_neg h1] at hnew
    by_cases h2 : count > 1
    · rw [if_pos h2] at hnew
      rcases hf : GFFStruct.readFields parent { _id := id, _fields := [] }
          gff.readUint32LE.2.readUint32LE.2.readUint32LE.2 index count with e | q
      · rw [hf] at hnew
        cases hnew
      · rw [hf] at hnew
        simp only [Except.ok.injEq] at hnew
        subst hnew
        unfold GFFStruct.readFields at hf
        split at hf
        · cases hf
        · by_cases hseek : (parent._header.fieldIndicesOffset + index) % 2 ^ 32 ≤ gff.data.length
          · simp only [SeekableReadStream.seek, hdata, if_pos hseek,
              GFFStruct.readIndices] at hf
            obtain ⟨w1, w2⟩ := readUint32LEs_standsAt count
              ⟨gff.data, (parent._header.fieldIndicesOffset + index) % 2 ^ 32,
                gff.readUint32LE.2.readUint32LE.2.readUint32LE.2.error⟩
              ((parent._header.fieldIndicesOffset + index) % 2 ^ 32) (Or.inl rfl)
            simp only at w1 w2
            obtain ⟨entries, g1, g2, g3, _⟩ := readFieldsLoop_entries parent _ _ _ q hf
            refine ⟨entries, ?_, g2, g3⟩
            rw [← g1, w2, w1]
            have h0 : ¬ count = 0 := by omega
            simp only [descriptorIndices, if_neg h0, if_neg h1]
          · simp only [SeekableReadStream.seek, hdata, if_neg hseek] at hf
            cases hf
    · rw [if_neg h2] at hnew
      simp only [Except.ok.injEq] at hnew
      subst hnew
      have h0 : count = 0 := by omega
      exact ⟨[], by simp [descriptorIndices, h0], rfl, rfl⟩

/-- C4: a struct constructed from the descriptor `(id, index, count)`, whose
fields resolve to pairwise distinct labels, has `getFieldCount() = count`, and
its fields are exactly those at the field-table indices the descriptor names:
none for `count = 0`, the one at `index` for `count = 1`, and for `count > 1`
those at the `count` consecutive 32-bit indices stored at byte offset `index`
of the field-indices table. -/
theorem GFFStruct_new_field_count (parent : GFFFile) (gff : SeekableReadStream)
    (r : GFFStruct × SeekableReadStream) (id index count : Nat)
    (hdesc : (readUint32LEs 3 gff).1 = [id, index, count])
    (hnew : GFFStruct.new parent gff = .ok r)
    (hdistinct : ((descriptorIndices parent gff.data index count).map
      (fun i => (fieldAt parent gff.data i).map Prod.fst)).Nodup) :
    r.1._id = id ∧
    r.1.getFieldCount = count ∧
    (count = 0 → r.1._fields = []) ∧
    (count = 1 → descriptorIndices parent gff.data index count = [index]) ∧
    (∀ i ∈ descriptorIndices parent gff.data index count,
      ∃ l fld, fieldAt parent gff.data i = some (l, fld) ∧ r.1.getField l = some fld) ∧
    (∀ l fld, r.1.getField l = some fld →
      ∃ i ∈ descriptorIndices parent gff.data index count,
        fieldAt parent gff.data i = some (l, fld)) := by
  obtain ⟨entries, h1, h2, h3⟩ := new_entries parent gff r id index count hdesc hnew
  have hlen : entries.length = count := by
    have := congrArg List.length h1
    simpa [descriptorIndices_length] using this.symm
  have hnd : (entries.map Prod.fst).Nodup := by
    have hmap : (descriptorIndices parent gff.data index count).map
        (fun i => (fieldAt parent gff.data i).map Prod.fst) =
        (entries.map Prod.fst).map some := by
      have := congrArg (List.map (Option.map Prod.fst)) h1
      simpa [List.map_map, Function.comp] using this
    rw [hmap] at hdistinct
    exact List.Nodup.of_map _ hdistinct
  have hfields : r.1._fields = entries := by
    rw [h2, FieldMap.foldl_assign_of_nodup entries [] (by simpa using hnd)]
    rfl
  have hcount : count < 2 ^ 32 := by
    simp only [readUint32LEs, List.cons.injEq, and_true] at hdesc
    rw [← hdesc.2.2]
    exact leValue_bytesAt_lt _ _
  refine ⟨h3, ?_, ?_, ?_, ?_, ?_⟩
  · simp only [GFFStruct.getFieldCount, FieldMap.size, hfields, hlen, Nat.mod_eq_of_lt hcount]
  · intro h0
    rw [hfields]
    exact List.eq_nil_of_length_eq_zero (by omega)
  · intro hc
    simp [descriptorIndices, hc]
  · intro i hi
    have hmem : fieldAt parent gff.data i ∈ entries.map some := by
      rw [← h1]
      exact List.mem_map_of_mem _ hi
    obtain ⟨⟨l, fld⟩, he, heq⟩ := List.mem_map.mp hmem
    refine ⟨l, fld, heq.symm, ?_⟩
    simp only [GFFStruct.getField, hfields]
    exact FieldMap.find_of_mem entries l fld hnd he
  · intro l fld hfind
    simp only [GFFStruct.getField, hfields] at hfind
    have he := FieldMap.mem_of_find entries l fld hfind
    have hmem : some (l, fld) ∈ (descriptorIndices parent gff.data index count).map
        (fieldAt parent gff.data) := by
      rw [h1]
      exact List.mem_map_of_mem _ he
    obtain ⟨i, hi, heq⟩ := List.mem_map.mp hmem
    exact ⟨i, hi, heq⟩

set_option maxRecDepth 100000 in
/-- Witness of C4: the struct of the sample image, descriptor (7, 0, 2), has the
two fields "A" and "B" and the field count 2. -/
theorem GFFStruct_new_field_count_witness :
    GFFStruct.new sampleParent ⟨sampleImage, 52, false⟩ =
      .ok (sampleImageStruct, ⟨sampleImage, 64, false⟩) ∧
    sampleImageStruct.getFieldCount = 2 :=
  ⟨rfl, (GFFStruct_new_field_count sampleParent ⟨sampleImage, 52, false⟩
    (sampleImageStruct, ⟨sampleImage, 64, false⟩) 7 0 2 (by decide) rfl (by decide)).2.1⟩

/-! ## Location of the struct table -/

/-- Evaluation for C5: `load` succeeds on the image whose header gives
`structOffset = 64`; the words at offset 64 are 7, 0, 0, yet struct 0 has the id
9, which stands at offset 52, right after the header: `readStructs` reads from
where `Header::read` left the stream and never seeks to `structOffset`. -/
theorem load_ignores_structOffset :
    ∃ f gff, GFFFile.load 2 GFFFile.new ⟨shiftedImage, 0, false⟩ = some (f, .ok gff) ∧
      f._header.structOffset = 64 ∧
      f._structs = [{ _id := 9, _fields := [] }] ∧
      (readUint32LEs 3 ⟨shiftedImage, 64, false⟩).1 = [7, 0, 0] ∧
      (readUint32LEs 3 ⟨shiftedImage, 52, false⟩).1 = [9, 0, 0] :=
  ⟨_, _, rfl, rfl, rfl, rfl, rfl⟩

set_option maxRecDepth 100000 in
/-- The sample image loads: the tables its header names are found. -/
theorem load_sampleImage :
    ∃ gff, GFFFile.load 3 GFFFile.new ⟨sampleImage, 0, false⟩ =
      some ({ sampleParent with
              _structs := [sampleImageStruct]
              _lists := [[0]]
              _listSizes := [1]
              _listOffsetToIndex := [0, 0xFFFFFFFF]
              _fieldData := some [] }, .ok gff) :=
  ⟨_, rfl⟩

/-- A successful run of the loop of `readStructs` adds one struct per iteration
and leaves the header as it is. -/
theorem readStructsLoop_count (n : Nat) (f f1 : GFFFile) (gff gff1 : SeekableReadStream)
    (h : GFFFile.readStructsLoop n f gff = (f1, .ok gff1)) :
    f1._structs.length = f._structs.length + n ∧ f1._header = f._header := by
  induction n generalizing f gff with
  | zero =>
    simp only [GFFFile.readStructsLoop, Prod.mk.injEq, Except.ok.injEq] at h
    rw [← h.1]
    exact ⟨rfl, rfl⟩
  | succ n ih =>
    unfold GFFFile.readStructsLoop at h
    rcases hs : GFFStruct.new f gff with e | r
    · rw [hs] at h
      simp only [Prod.mk.injEq] at h
      cases h.2
    · rw [hs] at h
      obtain ⟨h1, h2⟩ := ih _ _ h
      refine ⟨?_, h2⟩
      rw [h1]
      simp only [List.length_append, List.length_singleton]
      omega

/-! ## Nested accessors and absent labels -/

/-- C11 as amended: for a label that is not in the field map, `getStruct` and
`getList` both raise the "No such field" exception. -/
theorem nested_accessors_absent_label_throw (parent : GFFFile) (s : GFFStruct)
    (label : UString) (h : s.getField label = none) :
    GFFStruct.getStruct parent s label = throwException .noSuchField ∧
    GFFStruct.getList parent s label = throwException .noSuchField := by
  constructor
  · simp only [GFFStruct.getStruct, h]
  · simp only [GFFStruct.getList, h]

/-- Witness of C11 as amended: the sample struct has no label "z". -/
theorem nested_accessors_absent_label_throw_witness :
    GFFStruct.getStruct sampleFile sampleStruct [122] = throwException .noSuchField ∧
    GFFStruct.getList sampleFile sampleStruct [122] = throwException .noSuchField :=
  nested_accessors_absent_label_throw sampleFile sampleStruct [122] (by decide)

/-- Counterexample to C11 as stated: label "z" is not in the field map of the
sample struct, and `getStruct` and `getList` raise for it. -/
theorem nested_accessors_absent_label_raise :
    sampleStruct.getField [122] = none ∧
    GFFStruct.getStruct sampleFile sampleStruct [122] =
      .error (.exception ⟨.noSuchField, []⟩) ∧
    GFFStruct.getList sampleFile sampleStruct [122] =
      .error (.exception ⟨.noSuchField, []⟩) :=
  ⟨rfl, rfl, rfl⟩

/-! ## Type mismatch -/

/-- C12: on a present field whose tag is outside the set an accessor accepts,
the accessor raises its type-mismatch exception, whatever the payload. -/
theorem type_mismatch_raises (ext : Externals) (parent : GFFFile) (s : GFFStruct)
    (label : UString) (f : Field) (c : Int) (u : Nat) (i : Int) (b : Bool) (x : Nat)
    (str : UString) (xyz : Nat × Nat × Nat) (abcd : Nat × Nat × Nat × Nat)
    (loc : ext.LocString) (hf : s.getField label = some f) :
    (f.type ≠ kFieldTypeChar → GFFStruct.getChar s label c = throwException .notChar) ∧
    (¬ isIntTag f.type → GFFStruct.getUint parent s label u = throwException .notInt) ∧
    (¬ isIntTag f.type → GFFStruct.getSint parent s label i = throwException .notInt) ∧
    (¬ isIntTag f.type → GFFStruct.getBool parent s label b = throwException .notInt) ∧
    (¬ (f.type = kFieldTypeFloat ∨ f.type = kFieldTypeDouble) →
      GFFStruct.getDouble ext parent s label x = throwException .notDouble) ∧
    (¬ isStringableTag f.type →
      GFFStruct.getString ext parent s label str = throwException .notStringable) ∧
    (f.type ≠ kFieldTypeLocString →
      GFFStruct.getLocString ext parent s label loc = throwException .notLocString) ∧
    (f.type ≠ kFieldTypeVoid → GFFStruct.getData parent s label = throwException .notData) ∧
    (f.type ≠ kFieldTypeVector →
      GFFStruct.getVector parent s label xyz = throwException .notVector ∧
      GFFStruct.getVectorDouble ext parent s label xyz = throwException .notVector) ∧
    (f.type ≠ kFieldTypeOrientation →
      GFFStruct.getOrientation parent s label abcd = throwException .notOrientation ∧
      GFFStruct.getOrientationDouble ext parent s label abcd =
        throwException .notOrientation) ∧
    (f.type ≠ kFieldTypeStruct →
      GFFStruct.getStruct parent s label = throwException .notStruct) ∧
    (f.type ≠ kFieldTypeList → GFFStruct.getList parent s label = throwException .notList) := by
  have hint : ¬ isIntTag f.type → ∀ v, GFFStruct.getUint parent s label v =
      throwException .notInt := by
    intro h v
    simp only [isIntTag, not_or] at h
    obtain ⟨h1, h2, h3, h4, h5, h6, h7, h8⟩ := h
    simp only [GFFStruct.getUint, hf, if_neg h1, if_neg h2, if_neg h3, if_neg h4, if_neg h5,
      if_neg h6, if_neg h7, if_neg h8]
  refine ⟨?_, ?_, ?_, ?_, ?_, ?_, ?_, ?_, ?_, ?_, ?_, ?_⟩
  · intro h
    simp only [GFFStruct.getChar, hf, if_pos h]
  · exact fun h => hint h u
  · intro h
    simp only [isIntTag, not_or] at h
    obtain ⟨h1, h2, h3, h4, h5, h6, h7, h8⟩ := h
    simp only [GFFStruct.getSint, hf, if_neg h1, if_neg h2, if_neg h3, if_neg h4, if_neg h5,
      if_neg h6, if_neg h7, if_neg h8]
  · intro h
    simp only [GFFStruct.getBool, hint h]
    rfl
  · intro h
    simp only [not_or] at h
    simp only [GFFStruct.getDouble, hf, if_neg h.1, if_neg h.2]
  · intro h
    simp only [isStringableTag, isIntTag, not_or] at h
    obtain ⟨h1, h2, ⟨i1, i2, i3, i4, i5, i6, i7, i8⟩, h4, h5, h6, h7⟩ := h
    have hu : ¬ (f.type = kFieldTypeByte ∨ f.type = kFieldTypeUint16 ∨
        f.type = kFieldTypeUint32 ∨ f.type = kFieldTypeUint64) := by tauto
    have hs : ¬ (f.type = kFieldTypeChar ∨ f.type = kFieldTypeSint16 ∨
        f.type = kFieldTypeSint32 ∨ f.type = kFieldTypeSint64) := by tauto
    have hd : ¬ (f.type = kFieldTypeFloat ∨ f.type = kFieldTypeDouble) := by tauto
    simp only [GFFStruct.getString, hf, if_neg h1, if_neg h2, if_neg hu, if_neg hs, if_neg hd,
      if_neg h6, if_neg h7]
  · intro h
    simp only [GFFStruct.getLocString, hf, if_pos h]
  · intro h
    simp only [GFFStruct.getData, hf, if_pos h]
  · intro h
    simp only [GFFStruct.getVector, GFFStruct.getVectorDouble, hf, if_pos h, and_self]
  · intro h
    simp only [GFFStruct.getOrientation, GFFStruct.getOrientationDouble, hf, if_pos h,
      and_self]
  · intro h
    simp only [GFFStruct.getStruct, hf, if_pos h]
  · intro h
    simp only [GFFStruct.getList, hf, if_pos h]

/-- Witness of C12: `getString` on the struct-typed field "t" of the sample
raises "not a string(able) type". -/
theorem type_mismatch_raises_witness :
    GFFStruct.getString sampleExternals sampleFile sampleNested [116] [] =
      .error (.exception ⟨.notStringable, []⟩) :=
  (type_mismatch_raises sampleExternals sampleFile sampleNested [116]
    (Field.new kFieldTypeStruct 0) 0 0 0 false 0 [] (0, 0, 0) (0, 0, 0, 0) []
    (by decide)).2.2.2.2.2.1 (by unfold isStringableTag isIntTag; decide)

/-! ## Nested lists -/

/-- On a file that holds the expansion of a table of runs, `getList` at the
position of the length word of run `k` returns the `k`-th list and its size. -/
theorem getList_of_expanded (f : GFFFile) (runs : List (List Nat)) (k : Nat)
    (hl : f._lists = runs) (hs : f._listSizes = runs.map List.length)
    (ho : f._listOffsetToIndex = offsetLookup 0 runs)
    (hW : (encodeRuns runs).length < 2 ^ 32) (hk : k < runs.length) :
    f.getList (runStart runs k) = .ok (runs.getD k [], (runs.getD k []).length) := by
  have hruns := encodeRuns_length_ge runs
  have hlook := offsetLookup_runStart runs 0 k hk
  rw [Nat.zero_add, Nat.mod_eq_of_lt (by omega)] at hlook
  simp only [GFFFile.getList, hl, hs, ho, List.get?_eq_getElem?, hlook]
  simp [List.getElem?_eq_getElem hk, List.getD_eq_getElem?_getD]

/-- On a present list-typed field with payload `b`, `GFFStruct::getList` returns
what `GFFFile::getList(b / 4, size)` returns; and when `readLists` has expanded
a well-formed table of runs into a File that held no list, no size and no
lookup entry, and `b` is 4 times the position of the length word of run `k`,
that is the `k`-th list and its element count. -/
theorem GFFStruct_getList_divides_offset (parent : GFFFile) (s : GFFStruct)
    (label : UString) (f : Field) (hf : s.getField label = some f)
    (ht : f.type = kFieldTypeList) :
    GFFStruct.getList parent s label = parent.getList (f.data / 4) ∧
    (∀ (f0 : GFFFile) (gff gff1 gff2 : SeekableReadStream) (runs : List (List Nat))
        (fuel k : Nat),
      f0._lists = [] ∧ f0._listSizes = [] ∧ f0._listOffsetToIndex = [] →
      f0._header.listIndicesCount < 2 ^ 32 →
      gff.seek f0._header.listIndicesOffset = (true, gff1) →
      (readUint32LEs (f0._header.listIndicesCount / 4) gff1).1 = encodeRuns runs →
      (∀ run ∈ runs, ∀ idx ∈ run, idx < f0._structs.length) →
      (encodeRuns runs).length < fuel →
      GFFFile.readLists fuel f0 gff = some (parent, .ok gff2) →
      k < runs.length → f.data = 4 * runStart runs k →
      GFFStruct.getList parent s label = .ok (runs.getD k [], (runs.getD k []).length)) := by
  have hfirst : GFFStruct.getList parent s label = parent.getList (f.data / 4) := by
    have hne : ¬ f.type ≠ kFieldTypeList := fun h => h ht
    simp only [GFFStruct.getList, hf, if_neg hne]
  refine ⟨hfirst, ?_⟩
  intro f0 gff gff1 gff2 runs fuel k hfresh hcount hseek hraw hidx hfuel hread hk hdata
  have hW : (encodeRuns runs).length < 2 ^ 32 := by
    rw [← hraw, readUint32LEs_length]
    omega
  have hexp := readLists_encodeRuns f0 gff gff1 runs fuel hcount hseek hraw hidx hfuel
  rw [hread] at hexp
  simp only [Option.some.injEq, Prod.mk.injEq] at hexp
  obtain ⟨h1, h2, h3⟩ := hfresh
  have hparent := hexp.1
  rw [hfirst, hdata, Nat.mul_div_cancel_left _ (by decide : 0 < 4)]
  apply getList_of_expanded parent runs k _ _ _ hW hk
  · rw [hparent]; simp [h1]
  · rw [hparent]; simp [h2]
  · rw [hparent]; simp [h3, h1]

/-- On the expansion of the table 2, 5, 7, 1, 9 into a fresh File the list field
"l" with payload 12 (word 3) yields the list [9] and the size 1. -/
theorem GFFStruct_getList_divides_offset_witness :
    GFFStruct.getList sampleListsLoaded sampleNested [108] = .ok ([9], 1) :=
  (GFFStruct_getList_divides_offset sampleListsLoaded sampleNested [108]
    (Field.new kFieldTypeList 12) (by decide) rfl).2
    (sampleListFile 20) ⟨wordsLE [2, 5, 7, 1, 9], 0, false⟩
    ⟨wordsLE [2, 5, 7, 1, 9], 0, false⟩ ⟨wordsLE [2, 5, 7, 1, 9], 20, false⟩
    [[5, 7], [9]] 6 1 ⟨rfl, rfl, rfl⟩ (by decide) (by decide) (by decide) (by decide)
    (by decide) rfl (by decide) (by decide)

set_option maxRecDepth 100000 in
/-- Evaluation for C14: the image with the list field "L", whose payload 0 is
the byte offset of the length word of the one run 2, 0, 0 of a well-formed
table, is loaded into a File that has loaded the sample image before. `clear`
has left the size 1 of the list of the first image in `_listSizes`, and
`getList` on the field yields the list of two references with the element
count 1. On a fresh File the same image yields the count 2. -/
theorem getList_field_after_reload :
    ∃ f1 g1 f2 g2 f3 g3 s2 s3,
      GFFFile.load 3 GFFFile.new ⟨sampleImage, 0, false⟩ = some (f1, .ok g1) ∧
      GFFFile.load 4 f1 ⟨listFieldImage, 0, false⟩ = some (f2, .ok g2) ∧
      GFFFile.load 4 GFFFile.new ⟨listFieldImage, 0, false⟩ = some (f3, .ok g3) ∧
      (readUint32LEs 3 ⟨listFieldImage, 92, false⟩).1 = encodeRuns [[0, 0]] ∧
      f2.getStruct 0 = .ok s2 ∧
      f3.getStruct 0 = .ok s3 ∧
      s2.getField [76] = some (Field.new kFieldTypeList (4 * runStart [[0, 0]] 0)) ∧
      s3 = s2 ∧
      GFFStruct.getList f2 s2 [76] = .ok ([0, 0], 1) ∧
      GFFStruct.getList f3 s3 [76] = .ok ([0, 0], 2) :=
  ⟨_, _, _, _, _, _, _, _, rfl, rfl, rfl, rfl, rfl, rfl, rfl, rfl, rfl, rfl⟩

/-! ## String decoding -/

/-- The value of a byte sequence does not change when its bytes are reduced
modulo 256. -/
theorem leValue_map_mod (bs : List Nat) : leValue (bs.map (fun b => b % 256)) = leValue bs := by
  induction bs with
  | nil => rfl
  | cons b bs ih => simp only [List.map_cons, leValue, ih, Nat.mod_mod]

/-- The four little-endian bytes of a 32-bit word have the word as value. -/
theorem leValue_wordsLE (w : Nat) (h : w < 2 ^ 32) : leValue (wordsLE [w]) = w := by
  simp only [wordsLE, leValue, Nat.mod_mod]
  omega

/-- Text without NUL is read whole by `readASCII`. -/
theorem asciiOfBytes_of_nonzero (text : List Nat) (h : ∀ c ∈ text, c ≠ 0) :
    asciiOfBytes text = text := by
  induction text with
  | nil => rfl
  | cons c text ih =>
    have hc : c ≠ 0 := h c (List.mem_cons_self _ _)
    have ht := ih (fun x hx => h x (List.mem_cons_of_mem _ hx))
    unfold asciiOfBytes at ht ⊢
    simp [List.takeWhile_cons, hc, ht]

/-- Bytes below 256 are what a read delivers. -/
theorem map_mod_of_lt (text : List Nat) (h : ∀ c ∈ text, c < 256) :
    text.map (fun b => b % 256) = text := by
  induction text with
  | nil => rfl
  | cons c text ih =>
    simp only [List.map_cons, Nat.mod_eq_of_lt (h c (List.mem_cons_self _ _)),
      ih (fun x hx => h x (List.mem_cons_of_mem _ hx))]

/-- The pointer `getData` returns for an extended field inside the blob. -/
theorem getDataPtr_of_extended (parent : GFFFile) (t : FieldType) (d : Nat) (blob : List Nat)
    (hext : (Field.new t d).extended = true) (hblob : parent._fieldData = some blob)
    (hd : d < parent._header.fieldDataCount) :
    GFFStruct.getDataPtr parent (Field.new t d) = .ok ⟨blob, d⟩ := by
  unfold GFFStruct.getDataPtr
  rw [if_pos hext]
  show parent.getFieldData d = _
  have hd2 : ¬ d ≥ parent._header.fieldDataCount := by omega
  simp [GFFFile.getFieldData, hblob, hd2]

/-- C13: `getString` on an exo-string field whose bytes at its offset are the
4-byte little-endian length `L` followed by `L` non-NUL ASCII bytes inside the
blob returns those bytes (the empty string for `L = 0`); on a
resource-reference field whose bytes are the 1-byte length `L` followed by `L`
non-NUL ASCII bytes it returns those bytes. -/
theorem getString_decodes_text (ext : Externals) (parent : GFFFile) (s : GFFStruct)
    (label : UString) (t : FieldType) (d : Nat) (blob text dflt : List Nat)
    (hf : s.getField label = some (Field.new t d))
    (hblob : parent._fieldData = some blob)
    (hcount : blob.length = parent._header.fieldDataCount)
    (hascii : ∀ c ∈ text, c ≠ 0 ∧ c < 128) :
    (t = kFieldTypeExoString → text.length < 2 ^ 32 → d + 4 + text.length ≤ blob.length →
      (blob.drop d).take 4 = wordsLE [text.length] →
      (blob.drop (d + 4)).take text.length = text →
      GFFStruct.getString ext parent s label dflt = .ok text) ∧
    (t = kFieldTypeResRef → text.length < 256 → d + 1 + text.length ≤ blob.length →
      (blob.drop d).take 1 = [text.length] →
      (blob.drop (d + 1)).take text.length = text →
      GFFStruct.getString ext parent s label dflt = .ok text) := by
  have hnz : ∀ c ∈ text, c ≠ 0 := fun c hc => (hascii c hc).1
  have hlt : ∀ c ∈ text, c < 256 := fun c hc => by have := (hascii c hc).2; omega
  constructor
  · intro ht hL hin hlen htext
    subst ht
    have hptr := getDataPtr_of_extended parent kFieldTypeExoString d blob rfl hblob (by omega)
    have hread : READ_LE_UINT32 ⟨blob, d⟩ = .ok text.length := by
      have h4 : d + 4 ≤ blob.length := by omega
      simp only [READ_LE_UINT32, BytePtr.bytes, h4, if_true, Except.map,
        SeekableReadStream.bytesAt, hlen, leValue_map_mod, leValue_wordsLE _ hL]
    have htxt : readASCIIAt (BytePtr.add ⟨blob, d⟩ 4) text.length = .ok text := by
      simp only [readASCIIAt, BytePtr.add, BytePtr.bytes, hin, if_true, Except.map,
        SeekableReadStream.bytesAt, htext, map_mod_of_lt text hlt,
        asciiOfBytes_of_nonzero text hnz]
    have hty : (Field.new kFieldTypeExoString d).type = kFieldTypeExoString := rfl
    simp only [GFFStruct.getString, hf]
    rw [if_pos hty, hptr]
    show (READ_LE_UINT32 ⟨blob, d⟩ >>= fun length => readASCIIAt (BytePtr.add ⟨blob, d⟩ 4) length)
      = _
    rw [hread]
    exact htxt
  · intro ht hL hin hlen htext
    subst ht
    have hptr := getDataPtr_of_extended parent kFieldTypeResRef d blob rfl hblob (by omega)
    have hread : BytePtr.deref ⟨blob, d⟩ = .ok text.length := by
      have h1 : d + 1 ≤ blob.length := by omega
      simp only [BytePtr.deref, BytePtr.bytes, h1, if_true, Except.map,
        SeekableReadStream.bytesAt, hlen, List.map_cons, List.map_nil, leValue, Nat.mod_mod]
      congr 1
      omega
    have htxt : readASCIIAt (BytePtr.add ⟨blob, d⟩ 1) text.length = .ok text := by
      simp only [readASCIIAt, BytePtr.add, BytePtr.bytes, hin, if_true, Except.map,
        SeekableReadStream.bytesAt, htext, map_mod_of_lt text hlt,
        asciiOfBytes_of_nonzero text hnz]
    have hty : (Field.new kFieldTypeResRef d).type = kFieldTypeResRef := rfl
    simp only [GFFStruct.getString, hf]
    rw [if_pos hty, hptr]
    show (BytePtr.deref ⟨blob, d⟩ >>= fun length => readASCIIAt (BytePtr.add ⟨blob, d⟩ 1) length)
      = _
    rw [hread]
    exact htxt

/-- Witness of C13: the sample strings decode to "abc", to "xy" and to the
empty string. -/
theorem getString_decodes_text_witness :
    GFFStruct.getString sampleExternals sampleStringFile sampleStringStruct [101] [] =
      .ok [97, 98, 99] ∧
    GFFStruct.getString sampleExternals sampleStringFile sampleStringStruct [114] [] =
      .ok [120, 121] ∧
    GFFStruct.getString sampleExternals sampleStringFile sampleStringStruct [110] [63] =
      .ok [] :=
  ⟨(getString_decodes_text sampleExternals sampleStringFile sampleStringStruct [101]
      kFieldTypeExoString 0 [3, 0, 0, 0, 97, 98, 99, 2, 120, 121, 0, 0, 0, 0] [97, 98, 99] []
      (by decide) rfl rfl (by decide)).1 rfl (by decide) (by decide) (by decide) (by decide),
   (getString_decodes_text sampleExternals sampleStringFile sampleStringStruct [114]
      kFieldTypeResRef 7 [3, 0, 0, 0, 97, 98, 99, 2, 120, 121, 0, 0, 0, 0] [120, 121] []
      (by decide) rfl rfl (by decide)).2 rfl (by decide) (by decide) (by decide) (by decide),
   (getString_decodes_text sampleExternals sampleStringFile sampleStringStruct [110]
      kFieldTypeExoString 10 [3, 0, 0, 0, 97, 98, 99, 2, 120, 121, 0, 0, 0, 0] [] [63]
      (by decide) rfl rfl (by decide)).1 rfl (by decide) (by decide) (by decide) (by decide)⟩

/-! ## Reading the header -/

/-- A 32-bit read that finds its four bytes returns the little-endian word they
spell, moves the stream on by 4 and leaves the error flag as it is. -/
theorem readUint32LE_inside (data : List Nat) (p : Nat) (e : Bool) (h : p + 4 ≤ data.length) :
    SeekableReadStream.readUint32LE ⟨data, p, e⟩ = (wordAt data p, ⟨data, p + 4, e⟩) := by
  have hb : SeekableReadStream.bytesAt data p 4 =
      [data.getD p 0 % 256, data.getD (p + 1) 0 % 256, data.getD (p + 2) 0 % 256,
        data.getD (p + 3) 0 % 256] := by
    rw [bytesAt_succ data p 3 (by omega), bytesAt_succ data (p + 1) 2 (by omega),
      bytesAt_succ data (p + 1 + 1) 1 (by omega), bytesAt_succ data (p + 1 + 1 + 1) 0 (by omega),
      bytesAt_zero]
  simp only [SeekableReadStream.readUint32LE, SeekableReadStream.read, hb, leValue,
    Nat.mod_mod, wordAt, List.length_cons, List.length_nil, Nat.lt_irrefl, decide_False,
    Bool.or_false, Prod.mk.injEq, SeekableReadStream.mk.injEq, and_true]
  omega

/-- C20: on a stream with at least 48 bytes available `Header::read` consumes
exactly 48 bytes and sets, from twelve consecutive little-endian 32-bit words
in this order, structOffset, structCount, fieldOffset, fieldCount, labelOffset,
labelCount, fieldDataOffset, fieldDataCount, fieldIndicesOffset,
fieldIndicesCount, listIndicesOffset, listIndicesCount; `Header::clear` sets
all twelve to 0. -/
theorem Header_read_order (gff : SeekableReadStream)
    (h : gff.position + 48 ≤ gff.data.length) :
    (Header.read gff).2 = { gff with position := gff.position + 48 } ∧
    (Header.read gff).1 =
        { structOffset := wordAt gff.data (gff.position + 0),
          structCount := wordAt gff.data (gff.position + 4),
          fieldOffset := wordAt gff.data (gff.position + 8),
          fieldCount := wordAt gff.data (gff.position + 12),
          labelOffset := wordAt gff.data (gff.position + 16),
          labelCount := wordAt gff.data (gff.position + 20),
          fieldDataOffset := wordAt gff.data (gff.position + 24),
          fieldDataCount := wordAt gff.data (gff.position + 28),
          fieldIndicesOffset := wordAt gff.data (gff.position + 32),
          fieldIndicesCount := wordAt gff.data (gff.position + 36),
          listIndicesOffset := wordAt gff.data (gff.position + 40),
          listIndicesCount := wordAt gff.data (gff.position + 44) } ∧
    Header.clear =
      { structOffset := 0,
        structCount := 0,
        fieldOffset := 0,
        fieldCount := 0,
        labelOffset := 0,
        labelCount := 0,
        fieldDataOffset := 0,
        fieldDataCount := 0,
        fieldIndicesOffset := 0,
        fieldIndicesCount := 0,
        listIndicesOffset := 0,
        listIndicesCount := 0 } := by
  obtain ⟨data, p, e⟩ := gff
  simp only at h
  have r0 := readUint32LE_inside data (p + 0) e (by omega)
  have r1 := readUint32LE_inside data (p + 4) e (by omega)
  have r2 := readUint32LE_inside data (p + 8) e (by omega)
  have r3 := readUint32LE_inside data (p + 12) e (by omega)
  have r4 := readUint32LE_inside data (p + 16) e (by omega)
  have r5 := readUint32LE_inside data (p + 20) e (by omega)
  have r6 := readUint32LE_inside data (p + 24) e (by omega)
  have r7 := readUint32LE_inside data (p + 28) e (by omega)
  have r8 := readUint32LE_inside data (p + 32) e (by omega)
  have r9 := readUint32LE_inside data (p + 36) e (by omega)
  have r10 := readUint32LE_inside data (p + 40) e (by omega)
  have r11 := readUint32LE_inside data (p + 44) e (by omega)
  simp only [Nat.add_zero, Nat.add_assoc, Nat.reduceAdd] at r0 r1 r2 r3 r4 r5 r6 r7 r8 r9 r10 r11
  refine ⟨?_, ?_, rfl⟩
  · simp only [Header.read, r0, r1, r2, r3, r4, r5, r6, r7, r8, r9, r10, r11]
  · simp only [Header.read, r0, r1, r2, r3, r4, r5, r6, r7, r8, r9, r10, r11, Nat.add_zero]

set_option maxRecDepth 100000 in
/-- Witness of C20: the header of the sample image, read at offset 4, is the
header of `sampleParent`, and the stream then stands at offset 52. -/
theorem Header_read_order_witness :
    (Header.read ⟨sampleImage, 4, false⟩).2 = ⟨sampleImage, 52, false⟩ ∧
    (Header.read ⟨sampleImage, 4, false⟩).1 = sampleParent._header :=
  ⟨(Header_read_order ⟨sampleImage, 4, false⟩ (by decide)).1, rfl⟩

/-! ## The bounds check of the field index -/

/-- The check of `readField` lets the index `fieldCount` pass: where the seek
succeeds a field is read and entered. -/
theorem readField_index_fieldCount_passes (parent : GFFFile) (s : GFFStruct)
    (gff : SeekableReadStream)
    (hseek : (parent._header.fieldOffset + parent._header.fieldCount * 12) % 2 ^ 32
      ≤ gff.data.length) :
    ∃ r, GFFStruct.readField parent s gff parent._header.fieldCount = .ok r := by
  unfold GFFStruct.readField
  rw [if_neg (Nat.lt_irrefl _)]
  simp only [SeekableReadStream.seek, if_pos hseek]
  exact ⟨_, rfl⟩

set_option maxRecDepth 100000 in
/-- Evaluation for C19: the image whose only struct names the field index 2,
with `fieldCount = 2`, loads; no "Field index out of range" is thrown, and the
struct holds a field read from the twelve bytes behind the field table (type
65, label "A"). -/
theorem load_accepts_field_index_fieldCount :
    ∃ f gff, GFFFile.load 3 GFFFile.new ⟨edgeIndexImage, 0, false⟩ = some (f, .ok gff) ∧
      f._header.fieldCount = 2 ∧
      (readUint32LEs 3 ⟨edgeIndexImage, 52, false⟩).1 = [7, 2, 1] ∧
      f._structs = [{ _id := 7, _fields := [([65], Field.new 65 0)] }] :=
  ⟨_, _, rfl, rfl, rfl, rfl⟩

/-! ## The version gate -/

/-- The exceptions of `readField` are not the version exception. -/
theorem readField_fault (parent : GFFFile) (s : GFFStruct) (gff : SeekableReadStream)
    (index : Nat) (e : Fault) (h : GFFStruct.readField parent s gff index = .error e) :
    e.isUnsupportedVersion = false := by
  unfold GFFStruct.readField at h
  split at h
  · simp only [throwException, Except.error.injEq] at h
    subst h
    rfl
  · split at h
    · simp only [throwException, Except.error.injEq] at h
      subst h
      rfl
    · cases h

/-- The exceptions of the loop of `readFields` are not the version exception. -/
theorem readFieldsLoop_fault (parent : GFFFile) (indices : List Nat) (s : GFFStruct)
    (gff : SeekableReadStream) (e : Fault)
    (h : GFFStruct.readFieldsLoop parent indices s gff = .error e) :
    e.isUnsupportedVersion = false := by
  induction indices generalizing s gff with
  | nil => cases h
  | cons i indices ih =>
    unfold GFFStruct.readFieldsLoop at h
    rcases hf : GFFStruct.readField parent s gff i with e1 | q
    · rw [hf] at h
      simp only [Except.error.injEq] at h
      subst h
      exact readField_fault parent s gff i e1 hf
    · rw [hf] at h
      exact ih _ _ h

/-- The exceptions of `readFields` are not the version exception. -/
theorem readFields_fault (parent : GFFFile) (s : GFFStruct) (gff : SeekableReadStream)
    (index count : Nat) (e : Fault)
    (h : GFFStruct.readFields parent s gff index count = .error e) :
    e.isUnsupportedVersion = false := by
  unfold GFFStruct.readFields at h
  split at h
  · simp only [throwException, Except.error.injEq] at h
    subst h
    rfl
  · split at h
    · simp only [throwException, Except.error.injEq] at h
      subst h
      rfl
    · exact readFieldsLoop_fault parent _ _ _ e h

/-- The exceptions of the constructor are not the version exception. -/
theorem new_fault (parent : GFFFile) (gff : SeekableReadStream) (e : Fault)
    (h : GFFStruct.new parent gff = .error e) : e.isUnsupportedVersion = false := by
  unfold GFFStruct.new at h
  simp only at h
  split at h
  · rename_i e1 hr
    simp only [Except.error.injEq] at h
    subst h
    split at hr
    · exact readField_fault _ _ _ _ _ hr
    · split at hr
      · exact readFields_fault _ _ _ _ _ _ hr
      · cases hr
  · cases h

/-- The exceptions of the loop of `readStructs` are not the version exception. -/
theorem readStructsLoop_fault (n : Nat) (f f1 : GFFFile) (gff : SeekableReadStream) (e : Fault)
    (h : GFFFile.readStructsLoop n f gff = (f1, .error e)) :
    e.isUnsupportedVersion = false := by
  induction n generalizing f gff with
  | zero =>
    simp only [GFFFile.readStructsLoop, Prod.mk.injEq] at h
    cases h.2
  | succ n ih =>
    unfold GFFFile.readStructsLoop at h
    rcases hs : GFFStruct.new f gff with e1 | r
    · rw [hs] at h
      simp only [Prod.mk.injEq, Except.error.injEq] at h
      rw [← h.2]
      exact new_fault f gff e1 hs
    · rw [hs] at h
      exact ih _ _ h

/-- The only exception of the counting loop is "List indices broken". -/
theorem countLists_fault (rawLists : List Nat) (fuel i listCount : Nat) (e : Fault)
    (h : GFFFile.countLists rawLists fuel i listCount = some (.error e)) :
    e = .exception ⟨.listIndicesBroken, []⟩ := by
  induction fuel generalizing i listCount with
  | zero => simp [GFFFile.countLists] at h
  | succ fuel ih =>
    unfold GFFFile.countLists at h
    split at h
    · simp only at h
      split at h
      · simp only [throwException, Option.some.injEq, Except.error.injEq] at h
        exact h.symm
      · exact ih _ _ h
    · simp at h

/-- The inner converting loop ends by a failed assertion or an out-of-range
access, never by an exception. -/
theorem readListRun_fault (structs : List GFFStruct) (n : Nat) (it : List Nat)
    (list : GFFList) (size : Nat) (lookup : List Nat) (e : Fault)
    (h : GFFFile.readListRun structs n it list size lookup = .error e) :
    e = .assertion ∨ e = .undefined := by
  induction n generalizing it list size lookup with
  | zero => simp [GFFFile.readListRun] at h
  | succ n ih =>
    cases it with
    | nil =>
      simp only [GFFFile.readListRun, Except.error.injEq] at h
      exact Or.inl h.symm
    | cons w it =>
      simp only [GFFFile.readListRun] at h
      split at h
      · exact ih _ _ _ _ h
      · simp only [Except.error.injEq] at h
        exact Or.inr h.symm

/-- The converting loop ends by a failed assertion or an out-of-range access,
never by an exception. -/
theorem convertLists_fault (fuel : Nat) (f : GFFFile) (it : List Nat) (e : Fault)
    (h : GFFFile.convertLists fuel f it = some (.error e)) :
    e = .assertion ∨ e = .undefined := by
  induction fuel generalizing f it with
  | zero =>
    cases it with
    | nil => simp [GFFFile.convertLists] at h
    | cons n it => simp [GFFFile.convertLists] at h
  | succ fuel ih =>
    cases it with
    | nil => simp [GFFFile.convertLists] at h
    | cons n it =>
      simp only [GFFFile.convertLists] at h
      split at h
      · rename_i e1 hr
        simp only [Option.some.injEq, Except.error.injEq] at h
        rw [← h]
        exact readListRun_fault _ _ _ _ _ _ _ hr
      · exact ih _ _ h

/-- A failing `readLists` leaves the file as it was, and its exceptions are not
the version exception. -/
theorem readLists_fault (fuel : Nat) (f f1 : GFFFile) (gff : SeekableReadStream) (e : Fault)
    (h : GFFFile.readLists fuel f gff = some (f1, .error e)) :
    f1 = f ∧ e.isUnsupportedVersion = false := by
  unfold GFFFile.readLists at h
  split at h
  · simp only [throwException, Option.some.injEq, Prod.mk.injEq, Except.error.injEq] at h
    rw [← h.1, ← h.2]
    exact ⟨rfl, rfl⟩
  · simp only at h
    split at h
    · cases h
    · rename_i e1 hc
      simp only [Option.some.injEq, Prod.mk.injEq, Except.error.injEq] at h
      rw [← h.1, ← h.2, countLists_fault _ _ _ _ _ hc]
      exact ⟨rfl, rfl⟩
    · split at h
      · cases h
      · rename_i e1 hc
        simp only [Option.some.injEq, Prod.mk.injEq, Except.error.injEq] at h
        rw [← h.1, ← h.2]
        refine ⟨rfl, ?_⟩
        rcases convertLists_fault _ _ _ _ hc with h1 | h1 <;> rw [h1] <;> rfl
      · simp at h

/-- The only exception of `readFieldData` is the read error. -/
theorem readFieldData_fault (f f1 : GFFFile) (gff : SeekableReadStream) (e : Fault)
    (h : GFFFile.readFieldData f gff = (f1, .error e)) :
    e = .exception ⟨.readError, []⟩ := by
  unfold GFFFile.readFieldData at h
  simp only at h
  split at h
  · simp only [throwException, Prod.mk.injEq, Except.error.injEq] at h
    exact h.2.symm
  · simp at h

/-- The handler of `load` keeps the kind of the exception. -/
theorem rethrow_isUnsupportedVersion (e : Fault) :
    (GFFFile.rethrow e).isUnsupportedVersion = e.isUnsupportedVersion := by
  rcases e with ⟨k, st⟩ | _ | _
  · cases k <;> rfl
  · rfl
  · rfl

theorem load_of_accepted (fuel : Nat) (f : GFFFile) (gff : SeekableReadStream)
    (hv : ¬ (gff.readUint32BE.1 ≠ kVersion32 ∧ gff.readUint32BE.1 ≠ kVersion33)) :
    GFFFile.load fuel f gff =
      match GFFFile.readStructs
        { ({ f.clear with _version := gff.readUint32BE.1 } : GFFFile) with
          _header := (Header.read gff.readUint32BE.2).1 } (Header.read gff.readUint32BE.2).2 with
      | (f1, .error e) => some (f1, .error (GFFFile.rethrow e))
      | (f1, .ok gff1) =>
        match GFFFile.readLists fuel f1 gff1 with
        | none => none
        | some (f2, .error e) => some (f2, .error (GFFFile.rethrow e))
        | some (f2, .ok gff2) =>
          match GFFFile.readFieldData f2 gff2 with
          | (f3, .error e) => some (f3, .error (GFFFile.rethrow e))
          | (f3, .ok gff3) =>
            if gff3.err then
              some (f3, .error (GFFFile.rethrow (.exception ⟨.readError, []⟩)))
            else some (f3, .ok gff3) := by
  unfold GFFFile.load
  have hv2 : ¬ ((GFFFile.readHeader f.clear gff).1._version ≠ kVersion32 ∧
      (GFFFile.readHeader f.clear gff).1._version ≠ kVersion33) := hv
  rw [if_neg hv2]
  rfl

/-- With a tag that is not accepted `load` throws at once, on the cleared file. -/
theorem load_of_rejected (fuel : Nat) (f : GFFFile) (gff : SeekableReadStream)
    (hv : gff.readUint32BE.1 ≠ kVersion32 ∧ gff.readUint32BE.1 ≠ kVersion33) :
    GFFFile.load fuel f gff =
      some ({ f.clear with _version := gff.readUint32BE.1 },
        throwException (.unsupportedVersion gff.readUint32BE.1)) := by
  unfold GFFFile.load
  have hv2 : (GFFFile.readHeader f.clear gff).1._version ≠ kVersion32 ∧
      (GFFFile.readHeader f.clear gff).1._version ≠ kVersion33 := hv
  rw [if_pos hv2]
  rfl

/-- C16: `load` fails with the unsupported-version exception exactly when the
4-byte tag is neither "V3.2" nor "V3.3"; when it does, the file is the cleared
file with the tag stored: no header, struct, list or field data has been read. -/
theorem load_version_gate (fuel : Nat) (f : GFFFile) (gff : SeekableReadStream) :
    (gff.readUint32BE.1 ≠ kVersion32 ∧ gff.readUint32BE.1 ≠ kVersion33 →
      GFFFile.load fuel f gff =
        some ({ f.clear with _version := gff.readUint32BE.1 },
          throwException (.unsupportedVersion gff.readUint32BE.1)) ∧
      ({ f.clear with _version := gff.readUint32BE.1 } : GFFFile)._header = Header.clear ∧
      ({ f.clear with _version := gff.readUint32BE.1 } : GFFFile)._structs = [] ∧
      ({ f.clear with _version := gff.readUint32BE.1 } : GFFFile)._lists = [] ∧
      ({ f.clear with _version := gff.readUint32BE.1 } : GFFFile)._listOffsetToIndex = [] ∧
      ({ f.clear with _version := gff.readUint32BE.1 } : GFFFile)._fieldData = none) ∧
    (∀ f1 e, GFFFile.load fuel f gff = some (f1, .error e) → e.isUnsupportedVersion = true →
      gff.readUint32BE.1 ≠ kVersion32 ∧ gff.readUint32BE.1 ≠ kVersion33) := by
  constructor
  · intro hv
    exact ⟨load_of_rejected fuel f gff hv, rfl, rfl, rfl, rfl, rfl⟩
  · intro f1 e hload hkind
    by_contra hv
    rw [load_of_accepted fuel f gff hv] at hload
    split at hload
    · rename_i f2 e1 hs
      simp only [Option.some.injEq, Prod.mk.injEq, Except.error.injEq] at hload
      rw [← hload.2, rethrow_isUnsupportedVersion,
        readStructsLoop_fault _ _ _ _ _ hs] at hkind
      cases hkind
    · split at hload
      · cases hload
      · rename_i f3 e1 hl
        simp only [Option.some.injEq, Prod.mk.injEq, Except.error.injEq] at hload
        rw [← hload.2, rethrow_isUnsupportedVersion, (readLists_fault _ _ _ _ _ hl).2] at hkind
        cases hkind
      · split at hload
        · rename_i f4 e1 hd
          simp only [Option.some.injEq, Prod.mk.injEq, Except.error.injEq] at hload
          rw [← hload.2, rethrow_isUnsupportedVersion, readFieldData_fault _ _ _ _ hd] at hkind
          cases hkind
        · split at hload
          · simp only [Option.some.injEq, Prod.mk.injEq, Except.error.injEq] at hload
            rw [← hload.2] at hkind
            cases hkind
          · simp at hload

/-! ## The state a load step leaves -/

/-- The constructor leaves the bytes of the stream as they are. -/
theorem new_data (parent : GFFFile) (gff : SeekableReadStream)
    (r : GFFStruct × SeekableReadStream) (h : GFFStruct.new parent gff = .ok r) :
    r.2.data = gff.data := by
  unfold GFFStruct.new at h
  simp only at h
  split at h
  · cases h
  · rename_i q hq
    simp only [Except.ok.injEq] at h
    rw [← h]
    simp only [seek_data]
    split at hq
    · obtain ⟨_, _, _, _, _, hd⟩ := readField_fieldAt _ _ _ _ _ hq
      rw [hd]
      rfl
    · split at hq
      · unfold GFFStruct.readFields at hq
        split at hq
        · cases hq
        · split at hq
          · cases hq
          · rename_i g1 hs
            obtain ⟨_, _, _, _, hd⟩ := readFieldsLoop_entries _ _ _ _ _ hq
            have hs2 := seek_data gff.readUint32LE.2.readUint32LE.2.readUint32LE.2
              ((parent._header.fieldIndicesOffset + gff.readUint32LE.2.readUint32LE.1) % 2 ^ 32)
            rw [hs] at hs2
            rw [hd]
            simp only [GFFStruct.readIndices]
            rw [(readUint32LEs_standsAt _ g1 g1.position (Or.inl rfl)).2]
            exact hs2
      · simp only [Except.ok.injEq] at hq
        rw [← hq]
        rfl

/-- The loop of `readStructs` only appends structs, at most one per iteration
and exactly one per iteration when it succeeds, and leaves the bytes of the
stream as they are. -/
theorem readStructsLoop_state (n : Nat) (f f1 : GFFFile) (gff : SeekableReadStream)
    (r : Except Fault SeekableReadStream)
    (h : GFFFile.readStructsLoop n f gff = (f1, r)) :
    ∃ ss : List GFFStruct, f1 = { f with _structs := f._structs ++ ss } ∧ ss.length ≤ n ∧
      (∀ g1, r = .ok g1 → ss.length = n ∧ g1.data = gff.data) := by
  induction n generalizing f gff with
  | zero =>
    simp only [GFFFile.readStructsLoop, Prod.mk.injEq] at h
    refine ⟨[], ?_, Nat.le_refl _, ?_⟩
    · rw [← h.1]; simp
    · intro g1 hg
      rw [← h.2] at hg
      simp only [Except.ok.injEq] at hg
      rw [← hg]
      exact ⟨rfl, rfl⟩
  | succ n ih =>
    unfold GFFFile.readStructsLoop at h
    rcases hs : GFFStruct.new f gff with e | q
    · rw [hs] at h
      simp only [Prod.mk.injEq] at h
      refine ⟨[], ?_, Nat.zero_le _, ?_⟩
      · rw [← h.1]; simp
      · intro g1 hg
        rw [← h.2] at hg
        cases hg
    · rw [hs] at h
      obtain ⟨ss, h1, h2, h3⟩ := ih _ _ h
      refine ⟨q.1 :: ss, ?_, ?_, ?_⟩
      · rw [h1]; simp
      · simp only [List.length_cons]; omega
      · intro g1 hg
        obtain ⟨h4, h5⟩ := h3 g1 hg
        refine ⟨by simp only [List.length_cons]; omega, ?_⟩
        rw [h5, new_data f gff q hs]

/-- The 32-bit reads leave the bytes of the stream as they are. -/
theorem readUint32LEs_data (n : Nat) (g : SeekableReadStream) :
    (readUint32LEs n g).2.data = g.data :=
  (readUint32LEs_standsAt n g g.position (Or.inl rfl)).2

/-- The converting loop changes the three list vectors only. -/
theorem convertLists_state (fuel : Nat) (f f1 : GFFFile) (it : List Nat)
    (h : GFFFile.convertLists fuel f it = some (.ok f1)) :
    ∃ ls sz lu, f1 = { f with _lists := ls, _listSizes := sz, _listOffsetToIndex := lu } := by
  induction fuel generalizing f it with
  | zero =>
    cases it with
    | nil =>
      simp only [GFFFile.convertLists, Option.some.injEq, Except.ok.injEq] at h
      exact ⟨_, _, _, h.symm⟩
    | cons n it => simp [GFFFile.convertLists] at h
  | succ fuel ih =>
    cases it with
    | nil =>
      simp only [GFFFile.convertLists, Option.some.injEq, Except.ok.injEq] at h
      exact ⟨_, _, _, h.symm⟩
    | cons n it =>
      simp only [GFFFile.convertLists] at h
      split at h
      · cases h
      · obtain ⟨ls, sz, lu, h1⟩ := ih _ _ h
        exact ⟨ls, sz, lu, h1⟩

/-- A successful `readLists` changes the three list vectors only and leaves the
bytes of the stream as they are. -/
theorem readLists_state (fuel : Nat) (f f1 : GFFFile) (gff g1 : SeekableReadStream)
    (h : GFFFile.readLists fuel f gff = some (f1, .ok g1)) :
    g1.data = gff.data ∧
    ∃ ls sz lu, f1 = { f with _lists := ls, _listSizes := sz, _listOffsetToIndex := lu } := by
  unfold GFFFile.readLists at h
  split at h
  · simp [throwException] at h
  · rename_i g2 hs
    have hd := seek_data gff f._header.listIndicesOffset
    rw [hs] at hd
    simp only at h hd
    split at h
    · cases h
    · simp at h
    · split at h
      · cases h
      · simp at h
      · rename_i f2 hc
        simp only [Option.some.injEq, Prod.mk.injEq, Except.ok.injEq] at h
        refine ⟨?_, ?_⟩
        · rw [← h.2, readUint32LEs_data, hd]
        · rw [← h.1]
          exact convertLists_state _ _ _ _ hc

/-! ## Field data -/

/-- The range check of `getFieldData` on a file that holds field data: it
throws exactly for the offsets from `fieldDataCount` on, and returns the
pointer to byte `offset` of the blob otherwise. -/
theorem getFieldData_range (f : GFFFile) (blob : List Nat) (offset : Nat)
    (hblob : f._fieldData = some blob) :
    (offset ≥ f._header.fieldDataCount →
      f.getFieldData offset =
        throwException (.fieldDataOffsetOutOfRange offset f._header.fieldDataCount)) ∧
    (offset < f._header.fieldDataCount → f.getFieldData offset = .ok ⟨blob, offset⟩) := by
  constructor
  · intro h
    simp only [GFFFile.getFieldData, hblob, if_pos h]
  · intro h
    have h2 : ¬ offset ≥ f._header.fieldDataCount := by omega
    simp only [GFFFile.getFieldData, hblob, if_neg h2]

/-- With an accepted tag `load` is its `try` block on the cleared file. -/
theorem load_eq_loadTables (fuel : Nat) (f : GFFFile) (gff : SeekableReadStream)
    (hv : ¬ (gff.readUint32BE.1 ≠ kVersion32 ∧ gff.readUint32BE.1 ≠ kVersion33)) :
    GFFFile.load fuel f gff =
      GFFFile.loadTables fuel (GFFFile.afterHeader f gff) (Header.read gff.readUint32BE.2).2 := by
  rw [load_of_accepted fuel f gff hv]
  unfold GFFFile.loadTables GFFFile.afterHeader
  generalize GFFFile.readStructs _ _ = r
  rcases r with ⟨f1, e | g1⟩
  · rfl
  · rfl

/-- Reading the header leaves the bytes of the stream as they are. -/
theorem Header_read_data (g : SeekableReadStream) : (Header.read g).2.data = g.data := by
  unfold Header.read
  simp only [readUint32LE_data]

/-- A seek that leaves the error flag clear has moved the stream to the offset,
which lies inside the stream or at its end. -/
theorem seek_error_clear (g : SeekableReadStream) (o : Nat)
    (h : (g.seek o).2.error = false) : o ≤ g.data.length ∧ (g.seek o).2.position = o := by
  unfold SeekableReadStream.seek at h ⊢
  split
  · rename_i hin
    exact ⟨hin, rfl⟩
  · rename_i hout
    rw [if_neg hout] at h
    cases h

/-- A seek beyond the end raises the error flag and leaves the position. -/
theorem seek_beyond (g : SeekableReadStream) (o : Nat) (h : ¬ o ≤ g.data.length) :
    (g.seek o).2.error = true ∧ (g.seek o).2.position = g.position := by
  unfold SeekableReadStream.seek
  rw [if_neg h]
  exact ⟨rfl, rfl⟩

/-- A read does not clear the error flag. -/
theorem read_error (g : SeekableReadStream) (n : Nat) (h : g.error = true) :
    (g.read n).2.error = true := by
  simp only [SeekableReadStream.read, h, Bool.true_or]

/-- What `readFieldData` leaves: the field data are the bytes the read found at
the position the stream stands at after the seek, whose result is not looked
at. When it succeeds these are `fieldDataCount` bytes and the error flag is as
the seek left it; when it fails they are fewer. -/
theorem readFieldData_state (f f1 : GFFFile) (gff : SeekableReadStream)
    (r : Except Fault SeekableReadStream) (h : GFFFile.readFieldData f gff = (f1, r)) :
    f1 = { f with _fieldData := some (SeekableReadStream.bytesAt gff.data
      (gff.seek f._header.fieldDataOffset).2.position f._header.fieldDataCount) } ∧
    (∀ g1, r = .ok g1 → g1.data = gff.data ∧
      g1.error = (gff.seek f._header.fieldDataOffset).2.error ∧
      (SeekableReadStream.bytesAt gff.data
        (gff.seek f._header.fieldDataOffset).2.position f._header.fieldDataCount).length =
          f._header.fieldDataCount) ∧
    (∀ e, r = .error e → e = .exception ⟨.readError, []⟩ ∧
      (SeekableReadStream.bytesAt gff.data
        (gff.seek f._header.fieldDataOffset).2.position f._header.fieldDataCount).length <
          f._header.fieldDataCount) := by
  unfold GFFFile.readFieldData at h
  simp only at h
  have hd := seek_data gff f._header.fieldDataOffset
  have hle : (SeekableReadStream.bytesAt gff.data
      (gff.seek f._header.fieldDataOffset).2.position f._header.fieldDataCount).length ≤
        f._header.fieldDataCount := by
    rw [bytesAt_length]
    exact Nat.min_le_left _ _
  split at h
  · rename_i hlen
    simp only [Prod.mk.injEq] at h
    simp only [SeekableReadStream.read, hd] at hlen h
    refine ⟨h.1.symm, ?_, ?_⟩
    · intro g1 hg
      rw [← h.2] at hg
      cases hg
    · intro e he
      rw [← h.2] at he
      simp only [throwException, Except.error.injEq] at he
      exact ⟨he.symm, by omega⟩
  · rename_i hlen
    simp only [Prod.mk.injEq] at h
    simp only [SeekableReadStream.read, hd] at hlen h
    refine ⟨h.1.symm, ?_, ?_⟩
    · intro g1 hg
      rw [← h.2] at hg
      simp only [Except.ok.injEq] at hg
      rw [← hg]
      refine ⟨rfl, ?_, not_not.mp hlen⟩
      simp only [not_not.mp hlen, Nat.lt_irrefl, decide_False, Bool.or_false]
    · intro e he
      rw [← h.2] at he
      cases he

/-- A successful `try` block has read the field data where the header places
them: `fieldDataOffset` lies inside the stream (a seek beyond the end would
have left the error flag raised), and the blob is the `fieldDataCount` stream
bytes from `fieldDataOffset` on. -/
theorem loadTables_fieldData (fuel : Nat) (f f1 : GFFFile) (gff g1 : SeekableReadStream)
    (h : GFFFile.loadTables fuel f gff = some (f1, .ok g1)) :
    f1._header = f._header ∧
    f1._fieldData = some (SeekableReadStream.bytesAt gff.data f._header.fieldDataOffset
      f._header.fieldDataCount) ∧
    (SeekableReadStream.bytesAt gff.data f._header.fieldDataOffset
      f._header.fieldDataCount).length = f._header.fieldDataCount := by
  unfold GFFFile.loadTables at h
  split at h
  · simp at h
  · rename_i f2 g2 hs
    obtain ⟨ss, hf2, _, hs3⟩ := readStructsLoop_state _ _ _ _ _ hs
    obtain ⟨_, hg2⟩ := hs3 g2 rfl
    split at h
    · simp at h
    · simp at h
    · rename_i f3 g3 hl
      obtain ⟨hg3, ls, sz, lu, hf3⟩ := readLists_state _ _ _ _ _ hl
      split at h
      · simp at h
      · rename_i f4 g4 hd
        obtain ⟨hf4, hok, _⟩ := readFieldData_state _ _ _ _ hd
        obtain ⟨_, herr, hlen⟩ := hok g4 rfl
        split at h
        · simp at h
        · rename_i hflag
          simp only [Option.some.injEq, Prod.mk.injEq, Except.ok.injEq] at h
          have hdata : g3.data = gff.data := by rw [hg3, hg2]
          have hhdr : f3._header = f._header := by rw [hf3, hf2]
          have hclear : (g3.seek f3._header.fieldDataOffset).2.error = false := by
            rw [← herr]
            simpa [SeekableReadStream.err] using hflag
          obtain ⟨_, hpos⟩ := seek_error_clear _ _ hclear
          rw [hpos, hhdr, hdata] at hf4 hlen
          refine ⟨by rw [← h.1, hf4, ← hhdr], by rw [← h.1, hf4], hlen⟩

/-- After a successful `load` the field data of the file are the
`fieldDataCount` stream bytes from `fieldDataOffset` on. -/
theorem load_fieldData (fuel : Nat) (f f1 : GFFFile) (gff g1 : SeekableReadStream)
    (h : GFFFile.load fuel f gff = some (f1, .ok g1)) :
    f1._fieldData = some (SeekableReadStream.bytesAt gff.data f1._header.fieldDataOffset
      f1._header.fieldDataCount) ∧
    (SeekableReadStream.bytesAt gff.data f1._header.fieldDataOffset
      f1._header.fieldDataCount).length = f1._header.fieldDataCount := by
  by_cases hv : gff.readUint32BE.1 ≠ kVersion32 ∧ gff.readUint32BE.1 ≠ kVersion33
  · rw [load_of_rejected fuel f gff hv] at h
    simp [throwException] at h
  · rw [load_eq_loadTables fuel f gff hv] at h
    obtain ⟨hh, h1, h2⟩ := loadTables_fieldData _ _ _ _ _ h
    rw [Header_read_data] at h1 h2
    have hd : gff.readUint32BE.2.data = gff.data := rfl
    rw [hd] at h1 h2
    rw [hh]
    exact ⟨h1, h2⟩

/-- Byte `k` of a read of `n` bytes at offset `p` is the stream byte at offset
`p + k`. -/
theorem bytesAt_getD (data : List Nat) (p n k : Nat) (hk : k < n) (hp : p + k < data.length) :
    (SeekableReadStream.bytesAt data p n).getD k 0 = data.getD (p + k) 0 % 256 := by
  unfold SeekableReadStream.bytesAt
  have h1 : k < ((List.drop p data).take n).length := by
    simp only [List.length_take, List.length_drop]
    omega
  rw [List.getD_eq_getElem _ _ (by simpa using h1), List.getD_eq_getElem _ _ hp]
  simp

/-- The dereference of a pointer into a buffer of bytes is the byte there. -/
theorem deref_inside (blob : List Nat) (k : Nat) (hk : k < blob.length) :
    BytePtr.deref ⟨blob, k⟩ = .ok (blob.getD k 0 % 256) := by
  have h1 : k + 1 ≤ blob.length := hk
  simp only [BytePtr.deref, BytePtr.bytes, if_pos h1, bytesAt_succ blob k 0 hk, bytesAt_zero]
  simp [Except.map, leValue]

/-- C15: on a successfully loaded File `getFieldData(offset)` throws the "Field
data offset out of range" exception exactly when `offset >= fieldDataCount`;
for the other offsets it returns the pointer to byte `offset` of the blob, and
the byte there is the stream byte at position `fieldDataOffset + offset`. -/
theorem getFieldData_after_load (fuel : Nat) (f f1 : GFFFile) (gff g1 : SeekableReadStream)
    (offset : Nat) (h : GFFFile.load fuel f gff = some (f1, .ok g1)) :
    (f1.getFieldData offset =
        throwException (.fieldDataOffsetOutOfRange offset f1._header.fieldDataCount) ↔
      offset ≥ f1._header.fieldDataCount) ∧
    (offset < f1._header.fieldDataCount →
      ∃ blob, f1._fieldData = some blob ∧
        blob.length = f1._header.fieldDataCount ∧
        f1.getFieldData offset = .ok ⟨blob, offset⟩ ∧
        f1._header.fieldDataOffset + offset < gff.data.length ∧
        BytePtr.deref ⟨blob, offset⟩ =
          .ok (gff.data.getD (f1._header.fieldDataOffset + offset) 0 % 256)) := by
  obtain ⟨hblob, hlen⟩ := load_fieldData fuel f f1 gff g1 h
  have hrange := getFieldData_range f1 _ offset hblob
  constructor
  · constructor
    · intro hthrow
      by_contra hlt
      rw [hrange.2 (by omega)] at hthrow
      simp [throwException] at hthrow
    · exact hrange.1
  · intro hlt
    have hin : f1._header.fieldDataOffset + offset < gff.data.length := by
      rw [bytesAt_length] at hlen
      omega
    refine ⟨_, hblob, hlen, hrange.2 hlt, hin, ?_⟩
    rw [deref_inside _ _ (by rw [hlen]; exact hlt), bytesAt_getD _ _ _ _ hlt hin, Nat.mod_mod]

set_option maxRecDepth 100000 in
/-- Witness of C15: the image with the field data 1, 2, 3, 4 at offset 52 loads,
`getFieldData(2)` points at byte 2 of the blob, which is 3, the stream byte at
offset 54, and `getFieldData(4)` throws. -/
theorem getFieldData_after_load_witness :
    ∃ f1 g1, GFFFile.load 2 GFFFile.new ⟨fieldDataImage, 0, false⟩ = some (f1, .ok g1) ∧
      f1._header.fieldDataOffset = 52 ∧ f1._header.fieldDataCount = 4 ∧
      f1.getFieldData 2 = .ok ⟨[1, 2, 3, 4], 2⟩ ∧
      BytePtr.deref ⟨[1, 2, 3, 4], 2⟩ = .ok 3 ∧
      fieldDataImage.getD 54 0 = 3 ∧
      f1.getFieldData 4 = throwException (.fieldDataOffsetOutOfRange 4 4) ∧
      (2 < f1._header.fieldDataCount →
        ∃ blob, f1._fieldData = some blob ∧
          blob.length = f1._header.fieldDataCount ∧
          f1.getFieldData 2 = .ok ⟨blob, 2⟩ ∧
          f1._header.fieldDataOffset + 2 < fieldDataImage.length ∧
          BytePtr.deref ⟨blob, 2⟩ =
            .ok (fieldDataImage.getD (f1._header.fieldDataOffset + 2) 0 % 256)) :=
  ⟨_, _, rfl, rfl, rfl, rfl, rfl, rfl, rfl,
    (getFieldData_after_load 2 GFFFile.new _ ⟨fieldDataImage, 0, false⟩ _ 2 rfl).2⟩

/-- When the struct table and the list-indices table are read and the stream
holds fewer than `fieldDataCount` bytes from `fieldDataOffset` on, the `try`
block of `load` fails with the read error, annotated by the handler: thrown by
`readFieldData` for its short read, or, where the seek beyond the end left the
stream in front of enough bytes, for the error flag that seek has raised. -/
theorem loadTables_short_fieldData (fuel : Nat) (f f1 f2 : GFFFile)
    (gff g1 g2 : SeekableReadStream)
    (hs : GFFFile.readStructs f gff = (f1, .ok g1))
    (hl : GFFFile.readLists fuel f1 g1 = some (f2, .ok g2))
    (hshort : (SeekableReadStream.bytesAt gff.data f._header.fieldDataOffset
      f._header.fieldDataCount).length < f._header.fieldDataCount) :
    ∃ f3, GFFFile.loadTables fuel f gff =
      some (f3, .error (.exception ⟨.readError, ["Failed reading GFF file"]⟩)) := by
  obtain ⟨ss, hf1, _, h3⟩ := readStructsLoop_state _ _ _ _ _ hs
  obtain ⟨_, hg1⟩ := h3 g1 rfl
  obtain ⟨hg2, ls, sz, lu, hf2⟩ := readLists_state _ _ _ _ _ hl
  have hhdr : f2._header = f._header := by rw [hf2, hf1]
  have hdata : g2.data = gff.data := by rw [hg2, hg1]
  unfold GFFFile.loadTables
  rw [hs]
  simp only [hl]
  rcases hd : GFFFile.readFieldData f2 g2 with ⟨f3, e | g3⟩
  · obtain ⟨_, _, herr⟩ := readFieldData_state _ _ _ _ hd
    rw [(herr e rfl).1]
    exact ⟨f3, rfl⟩
  · obtain ⟨_, hok, _⟩ := readFieldData_state _ _ _ _ hd
    obtain ⟨_, herr, hlen⟩ := hok g3 rfl
    have hflag : g3.err = true := by
      by_cases hin : f2._header.fieldDataOffset ≤ g2.data.length
      · have hpos : (g2.seek f2._header.fieldDataOffset).2.position =
            f2._header.fieldDataOffset := by
          simp only [SeekableReadStream.seek, if_pos hin]
        rw [hpos, hhdr, hdata] at hlen
        omega
      · rw [SeekableReadStream.err, herr]
        exact (seek_beyond _ _ hin).1
    simp only [hflag, if_true]
    exact ⟨f3, rfl⟩

/-- C17 as amended: when the tag is accepted, the struct table and the
list-indices table are read without a fault, and the stream holds fewer than
`fieldDataCount` bytes from `fieldDataOffset` on, `load` fails with the read
error, annotated with "Failed reading GFF file". -/
theorem load_truncated_fieldData (fuel : Nat) (f f1 f2 : GFFFile)
    (gff g1 g2 : SeekableReadStream)
    (hv : ¬ (gff.readUint32BE.1 ≠ kVersion32 ∧ gff.readUint32BE.1 ≠ kVersion33))
    (hs : GFFFile.readStructs (GFFFile.afterHeader f gff) (Header.read gff.readUint32BE.2).2 =
      (f1, .ok g1))
    (hl : GFFFile.readLists fuel f1 g1 = some (f2, .ok g2))
    (hshort : (SeekableReadStream.bytesAt gff.data
        (Header.read gff.readUint32BE.2).1.fieldDataOffset
        (Header.read gff.readUint32BE.2).1.fieldDataCount).length <
      (Header.read gff.readUint32BE.2).1.fieldDataCount) :
    ∃ f3, GFFFile.load fuel f gff =
      some (f3, .error (.exception ⟨.readError, ["Failed reading GFF file"]⟩)) := by
  rw [load_eq_loadTables fuel f gff hv]
  apply loadTables_short_fieldData fuel _ f1 f2 _ g1 g2 hs hl
  rw [Header_read_data]
  exact hshort

set_option maxRecDepth 100000 in
/-- Witness of C17 as amended: the truncated image, whose four bytes of field
data would start at the end of the stream, and the image that places them at
offset 200 of its 56 bytes both fail with the annotated read error. -/
theorem load_truncated_fieldData_witness :
    (∃ f3, GFFFile.load 3 GFFFile.new ⟨truncatedImage, 0, false⟩ =
      some (f3, .error (.exception ⟨.readError, ["Failed reading GFF file"]⟩))) ∧
    (∃ f3, GFFFile.load 2 GFFFile.new ⟨pastEndImage, 0, false⟩ =
      some (f3, .error (.exception ⟨.readError, ["Failed reading GFF file"]⟩))) :=
  ⟨load_truncated_fieldData 3 GFFFile.new _ _ ⟨truncatedImage, 0, false⟩ _ _
      (by decide) rfl rfl (by decide),
   load_truncated_fieldData 2 GFFFile.new _ _ ⟨pastEndImage, 0, false⟩ _ _
      (by decide) rfl rfl (by decide)⟩

set_option maxRecDepth 100000 in
/-- Counterexample to C17 as stated: the stream of the image holds no byte from
`fieldDataOffset = 136` on, fewer than `fieldDataCount = 4`, and `load` fails,
but not with the read error: the list-indices table is read before the field
data, its run of three indices overruns it, and "List indices broken" is what
reaches the caller. -/
theorem load_truncated_fails_in_earlier_step :
    (SeekableReadStream.bytesAt brokenListsImage 136 4).length < 4 ∧
    ∃ f1, GFFFile.load 3 GFFFile.new ⟨brokenListsImage, 0, false⟩ =
        some (f1, .error (.exception ⟨.listIndicesBroken, ["Failed reading GFF file"]⟩)) ∧
      f1._header.fieldDataOffset = 136 ∧
      f1._header.fieldDataCount = 4 ∧
      f1._fieldData = none :=
  ⟨by decide, _, rfl, rfl, rfl, rfl⟩

/-- A uint64 field that starts inside the blob and ends behind it passes the
range check of `getFieldData`, and the eight bytes are read from outside the
buffer. -/
theorem getUint_reads_past_blob (parent : GFFFile) (s : GFFStruct) (label : UString)
    (o dflt : Nat) (blob : List Nat)
    (hf : s.getField label = some (Field.new kFieldTypeUint64 o))
    (hblob : parent._fieldData = some blob)
    (hlen : blob.length = parent._header.fieldDataCount)
    (hin : o < parent._header.fieldDataCount) (hout : parent._header.fieldDataCount < o + 8) :
    GFFStruct.getUint parent s label dflt = .error .undefined := by
  have hptr := getDataPtr_of_extended parent kFieldTypeUint64 o blob rfl hblob hin
  have hread : READ_LE_UINT64 ⟨blob, o⟩ = .error .undefined := by
    have h8 : ¬ o + 8 ≤ blob.length := by omega
    simp only [READ_LE_UINT64, BytePtr.bytes, if_neg h8]
    rfl
  have hty : (Field.new kFieldTypeUint64 o).type = kFieldTypeUint64 := rfl
  simp only [GFFStruct.getUint, hf]
  have hne : ∀ t : FieldType, t ≠ kFieldTypeUint64 →
      ¬ (Field.new kFieldTypeUint64 o).type = t := fun t ht h => ht (hty ▸ h).symm
  rw [if_neg (hne _ (by decide)), if_neg (hne _ (by decide)), if_neg (hne _ (by decide)),
    if_neg (hne _ (by decide)), if_neg (hne _ (by decide)), if_neg (hne _ (by decide)),
    if_pos hty, hptr]
  exact hread

/-- Evaluation for C21: on the file with ten bytes of field data the uint64 at
offset 5, the vector at offset 0 and the exo-string at offset 8 pass the range
check, no range error is thrown, and the accessors read behind the blob. -/
theorem extended_reads_leave_blob :
    sampleFile._header.fieldDataCount = 10 ∧
    GFFFile.getFieldData sampleFile 5 = .ok ⟨[0, 1, 2, 3, 4, 5, 6, 7, 8, 9], 5⟩ ∧
    GFFStruct.getUint sampleFile sampleOverrunStruct [113] 0 = .error .undefined ∧
    GFFStruct.getVector sampleFile sampleOverrunStruct [118] (0, 0, 0) = .error .undefined ∧
    GFFStruct.getString sampleExternals sampleFile sampleOverrunStruct [101] [] =
      .error .undefined :=
  ⟨rfl, rfl, rfl, rfl, rfl⟩

/-! ## The bounds check of the field indices -/

set_option maxRecDepth 100000 in
/-- Evaluation for C22: the image whose struct names 2 field indices at byte
offset 4 of the 8-byte field-indices table loads; no "Field indices index out of
range" is thrown, the second index is read from behind the table, and the
struct holds the field "B" that both words name. -/
theorem load_accepts_indices_behind_table :
    ∃ f gff, GFFFile.load 3 GFFFile.new ⟨indicesOverrunImage, 0, false⟩ = some (f, .ok gff) ∧
      f._header.fieldIndicesCount = 8 ∧
      (readUint32LEs 3 ⟨indicesOverrunImage, 52, false⟩).1 = [7, 4, 2] ∧
      f._structs = [{ _id := 7, _fields := [([66], Field.new kFieldTypeSint32 4294967291)] }] :=
  ⟨_, _, rfl, rfl, rfl, rfl⟩

/-! ## List sizes across reloads -/

set_option maxRecDepth 100000 in
/-- Evaluation for C26: after the sample image, whose one list has one
reference, the image whose one list has two references is loaded into the same
File. `clear` has left the old entry of `_listSizes`, the new size is appended
behind it, and `getList` reports the size 1 for the list of two references.
Loaded into a fresh File the same image gives the size 2. -/
theorem reload_keeps_old_list_sizes :
    ∃ f1 g1 f2 g2 f3 g3,
      GFFFile.load 3 GFFFile.new ⟨sampleImage, 0, false⟩ = some (f1, .ok g1) ∧
      GFFFile.load 4 f1 ⟨twoRefImage, 0, false⟩ = some (f2, .ok g2) ∧
      GFFFile.load 4 GFFFile.new ⟨twoRefImage, 0, false⟩ = some (f3, .ok g3) ∧
      f2._lists = [[0, 0]] ∧
      f2._listSizes = [1, 2] ∧
      f2.getList 0 = .ok ([0, 0], 1) ∧
      f3.getList 0 = .ok ([0, 0], 2) :=
  ⟨_, _, _, _, _, _, rfl, rfl, rfl, rfl, rfl, rfl, rfl⟩

/-! ## Progress of the counting loop -/

/-- On the table 0, 0xFFFFFFFF the counting loop, once at position 1, stays
there: whatever the fuel, it does not end. -/
theorem countLists_wrap_from_one (fuel listCount : Nat) :
    GFFFile.countLists [0, 4294967295] fuel 1 listCount = none := by
  induction fuel generalizing listCount with
  | zero => rfl
  | succ fuel ih =>
    unfold GFFFile.countLists
    have h1 : (1 : Nat) < [0, 4294967295].length := by decide
    have h2 : ¬ ((1 + [0, 4294967295].getD 1 0) % 2 ^ 32 > [0, 4294967295].length) := by decide
    have h3 : ((1 + [0, 4294967295].getD 1 0) % 2 ^ 32 + 1) % 2 ^ 32 = 1 := by decide
    rw [if_pos h1]
    simp only [if_neg h2, h3]
    exact ih _

/-- On the table 0, 0xFFFFFFFF the counting loop does not end, whatever the
fuel. -/
theorem countLists_wrap (fuel : Nat) :
    GFFFile.countLists [0, 4294967295] fuel 0 0 = none := by
  cases fuel with
  | zero => rfl
  | succ fuel =>
    unfold GFFFile.countLists
    have h1 : (0 : Nat) < [0, 4294967295].length := by decide
    have h2 : ¬ ((0 + [0, 4294967295].getD 0 0) % 2 ^ 32 > [0, 4294967295].length) := by decide
    have h3 : ((0 + [0, 4294967295].getD 0 0) % 2 ^ 32 + 1) % 2 ^ 32 = 1 := by decide
    rw [if_pos h1]
    simp only [if_neg h2, h3]
    exact countLists_wrap_from_one fuel _

/-- The method `readLists` does not return on a stream whose list-indices table
is 0, 0xFFFFFFFF. -/
theorem readLists_wrap (fuel : Nat) (f : GFFFile) (gff gff1 : SeekableReadStream)
    (hseek : gff.seek f._header.listIndicesOffset = (true, gff1))
    (hraw : (readUint32LEs (f._header.listIndicesCount / 4) gff1).1 = [0, 4294967295]) :
    GFFFile.readLists fuel f gff = none := by
  unfold GFFFile.readLists
  simp only [hseek, hraw, countLists_wrap]

set_option maxRecDepth 100000 in
/-- Evaluation for C25: on the table 0, 0xFFFFFFFF the iteration at `i = 1` reads
`n = 0xFFFFFFFF`; `i + n` is 0 in 32 bits, which is not above the size 2, so
nothing is raised; `i += n` and `i++` leave `i = 1`, not greater than before.
The loop does not end for any number of iterations, and `load` of the image
that holds this table does not return. -/
theorem countLists_makes_no_progress :
    [0, 4294967295].getD 1 0 = 4294967295 ∧
    (1 + 4294967295) % 2 ^ 32 = 0 ∧
    ((1 + 4294967295) % 2 ^ 32 + 1) % 2 ^ 32 = 1 ∧
    (∀ fuel : Nat, GFFFile.countLists [0, 4294967295] fuel 0 0 = none) ∧
    (∀ fuel : Nat, GFFFile.load fuel GFFFile.new ⟨wrapImage, 0, false⟩ = none) := by
  refine ⟨rfl, rfl, rfl, countLists_wrap, ?_⟩
  intro fuel
  rw [load_eq_loadTables fuel GFFFile.new ⟨wrapImage, 0, false⟩ (by decide)]
  unfold GFFFile.loadTables
  have hs : GFFFile.readStructs (GFFFile.afterHeader GFFFile.new ⟨wrapImage, 0, false⟩)
      (Header.read (SeekableReadStream.readUint32BE ⟨wrapImage, 0, false⟩).2).2 =
      (GFFFile.afterHeader GFFFile.new ⟨wrapImage, 0, false⟩, .ok ⟨wrapImage, 52, false⟩) := rfl
  rw [hs]
  simp only []
  rw [readLists_wrap fuel (GFFFile.afterHeader GFFFile.new ⟨wrapImage, 0, false⟩)
    ⟨wrapImage, 52, false⟩ ⟨wrapImage, 52, false⟩ rfl rfl]

/-! ## Error annotation -/

/-- The exceptions of `readField` are thrown without context. -/
theorem readField_stack (parent : GFFFile) (s : GFFStruct) (gff : SeekableReadStream)
    (index : Nat) (e : Fault) (h : GFFStruct.readField parent s gff index = .error e) :
    e.stack = [] := by
  unfold GFFStruct.readField at h
  split at h
  · simp only [throwException, Except.error.injEq] at h
    subst h
    rfl
  · split at h
    · simp only [throwException, Except.error.injEq] at h
      subst h
      rfl
    · cases h

/-- The exceptions of the loop of `readFields` are thrown without context. -/
theorem readFieldsLoop_stack (parent : GFFFile) (indices : List Nat) (s : GFFStruct)
    (gff : SeekableReadStream) (e : Fault)
    (h : GFFStruct.readFieldsLoop parent indices s gff = .error e) :
    e.stack = [] := by
  induction indices generalizing s gff with
  | nil => cases h
  | cons i indices ih =>
    unfold GFFStruct.readFieldsLoop at h
    rcases hf : GFFStruct.readField parent s gff i with e1 | q
    · rw [hf] at h
      simp only [Except.error.injEq] at h
      subst h
      exact readField_stack parent s gff i e1 hf
    · rw [hf] at h
      exact ih _ _ h

/-- The exceptions of `readFields` are thrown without context. -/
theorem readFields_stack (parent : GFFFile) (s : GFFStruct) (gff : SeekableReadStream)
    (index count : Nat) (e : Fault)
    (h : GFFStruct.readFields parent s gff index count = .error e) :
    e.stack = [] := by
  unfold GFFStruct.readFields at h
  split at h
  · simp only [throwException, Except.error.injEq] at h
    subst h
    rfl
  · split at h
    · simp only [throwException, Except.error.injEq] at h
      subst h
      rfl
    · exact readFieldsLoop_stack parent _ _ _ e h

/-- The exceptions of the constructor are thrown without context. -/
theorem new_stack (parent : GFFFile) (gff : SeekableReadStream) (e : Fault)
    (h : GFFStruct.new parent gff = .error e) : e.stack = [] := by
  unfold GFFStruct.new at h
  simp only at h
  split at h
  · rename_i e1 hr
    simp only [Except.error.injEq] at h
    subst h
    split at hr
    · exact readField_stack _ _ _ _ _ hr
    · split at hr
      · exact readFields_stack _ _ _ _ _ _ hr
      · cases hr
  · cases h

/-- The exceptions of the loop of `readStructs` are thrown without context. -/
theorem readStructsLoop_stack (n : Nat) (f f1 : GFFFile) (gff : SeekableReadStream) (e : Fault)
    (h : GFFFile.readStructsLoop n f gff = (f1, .error e)) : e.stack = [] := by
  induction n generalizing f gff with
  | zero =>
    simp only [GFFFile.readStructsLoop, Prod.mk.injEq] at h
    cases h.2
  | succ n ih =>
    unfold GFFFile.readStructsLoop at h
    rcases hs : GFFStruct.new f gff with e1 | r
    · rw [hs] at h
      simp only [Prod.mk.injEq, Except.error.injEq] at h
      rw [← h.2]
      exact new_stack f gff e1 hs
    · rw [hs] at h
      exact ih _ _ h

/-- The exceptions of `readLists` are thrown without context. -/
theorem readLists_stack (fuel : Nat) (f f1 : GFFFile) (gff : SeekableReadStream) (e : Fault)
    (h : GFFFile.readLists fuel f gff = some (f1, .error e)) : e.stack = [] := by
  unfold GFFFile.readLists at h
  split at h
  · simp only [throwException, Option.some.injEq, Prod.mk.injEq, Except.error.injEq] at h
    rw [← h.2]
    rfl
  · simp only at h
    split at h
    · cases h
    · rename_i e1 hc
      simp only [Option.some.injEq, Prod.mk.injEq, Except.error.injEq] at h
      rw [← h.2, countLists_fault _ _ _ _ _ hc]
      rfl
    · split at h
      · cases h
      · rename_i e1 hc
        simp only [Option.some.injEq, Prod.mk.injEq, Except.error.injEq] at h
        rw [← h.2]
        rcases convertLists_fault _ _ _ _ hc with h1 | h1 <;> rw [h1] <;> rfl
      · simp at h

/-- A fault raised inside the `try` block carries no context yet. -/
theorem raisedInTry_stack (fuel : Nat) (f : GFFFile) (gff : SeekableReadStream) (x : Fault)
    (h : GFFFile.raisedInTry fuel f gff x) : x.stack = [] := by
  rcases h with ⟨f1, h⟩ | ⟨f1, g1, f2, _, h⟩ | ⟨f1, g1, f2, g2, f3, _, _, h⟩ |
    ⟨f1, g1, f2, g2, f3, g3, _, _, _, _, h⟩
  · exact readStructsLoop_stack _ _ _ _ _ h
  · exact readLists_stack _ _ _ _ _ h
  · rw [readFieldData_fault _ _ _ _ h]
    rfl
  · rw [h]
    rfl

/-- A fault that leaves the `try` block of `load` was raised inside it and has
passed through the handler. -/
theorem loadTables_fault (fuel : Nat) (f f1 : GFFFile) (gff : SeekableReadStream) (x : Fault)
    (h : GFFFile.loadTables fuel f gff = some (f1, .error x)) :
    ∃ x0, GFFFile.raisedInTry fuel f gff x0 ∧ x = GFFFile.rethrow x0 := by
  unfold GFFFile.loadTables at h
  split at h
  · rename_i f2 e1 hs
    simp only [Option.some.injEq, Prod.mk.injEq, Except.error.injEq] at h
    exact ⟨e1, Or.inl ⟨f2, hs⟩, h.2.symm⟩
  · rename_i f2 g2 hs
    split at h
    · simp at h
    · rename_i f3 e1 hl
      simp only [Option.some.injEq, Prod.mk.injEq, Except.error.injEq] at h
      exact ⟨e1, Or.inr (Or.inl ⟨f2, g2, f3, hs, hl⟩), h.2.symm⟩
    · rename_i f3 g3 hl
      split at h
      · rename_i f4 e1 hd
        simp only [Option.some.injEq, Prod.mk.injEq, Except.error.injEq] at h
        exact ⟨e1, Or.inr (Or.inr (Or.inl ⟨f2, g2, f3, g3, f4, hs, hl, hd⟩)), h.2.symm⟩
      · rename_i f4 g4 hd
        split at h
        · rename_i herr
          simp only [Option.some.injEq, Prod.mk.injEq, Except.error.injEq] at h
          exact ⟨_, Or.inr (Or.inr (Or.inr ⟨f2, g2, f3, g3, f4, g4, hs, hl, hd, herr, rfl⟩)),
            h.2.symm⟩
        · simp at h

set_option maxRecDepth 100000 in
/-- Counterexample to C24 as stated: on the image with the tag "V3.1" `load`
raises the unsupported-version exception, and it reaches the caller without the
context "Failed reading GFF file". -/
theorem load_version_error_not_annotated :
    ∃ f1 e, GFFFile.load 1 GFFFile.new ⟨badTagImage, 0, false⟩ =
        some (f1, .error (.exception e)) ∧
      e.kind = .unsupportedVersion 0x56332E31 ∧
      e.stack = [] ∧
      "Failed reading GFF file" ∉ e.stack :=
  ⟨_, _, rfl, rfl, rfl, by decide⟩

/-- A fault raised inside the `try` block of `load` passes through the handler
and leaves the block. -/
theorem loadTables_raised (fuel : Nat) (f : GFFFile) (gff : SeekableReadStream) (x : Fault)
    (h : GFFFile.raisedInTry fuel f gff x) :
    ∃ f1, GFFFile.loadTables fuel f gff = some (f1, .error (GFFFile.rethrow x)) := by
  unfold GFFFile.loadTables
  rcases h with ⟨f1, hs⟩ | ⟨f1, g1, f2, hs, hl⟩ | ⟨f1, g1, f2, g2, f3, hs, hl, hd⟩ |
    ⟨f1, g1, f2, g2, f3, g3, hs, hl, hd, herr, hx⟩
  · rw [hs]
    exact ⟨f1, rfl⟩
  · rw [hs]
    simp only [hl]
    exact ⟨f2, rfl⟩
  · rw [hs]
    simp only [hl, hd]
    exact ⟨f3, rfl⟩
  · rw [hs]
    simp only [hl, hd, herr, if_true, hx]
    exact ⟨f3, rfl⟩

/-- C24 as amended: when the tag is accepted, every fault raised inside the
`try` block of `load` (by `readStructs`, `readLists`, `readFieldData`, or as the
read error thrown for the error flag of the stream) reaches the caller through
the handler, an exception with the context "Failed reading GFF file" added and
its kind unchanged, and nothing else reaches the caller as a fault; when the
tag is rejected, the unsupported-version exception reaches the caller without
context. -/
theorem load_annotates_try_block (fuel : Nat) (f : GFFFile) (gff : SeekableReadStream) :
    (¬ (gff.readUint32BE.1 ≠ kVersion32 ∧ gff.readUint32BE.1 ≠ kVersion33) →
      (∀ x, GFFFile.raisedInTry fuel (GFFFile.afterHeader f gff)
          (Header.read gff.readUint32BE.2).2 x →
        (∃ f1, GFFFile.load fuel f gff = some (f1, .error (GFFFile.rethrow x))) ∧
        ∀ e0, x = .exception e0 →
          GFFFile.rethrow x = .exception ⟨e0.kind, ["Failed reading GFF file"]⟩) ∧
      (∀ f1 y, GFFFile.load fuel f gff = some (f1, .error y) →
        ∃ x, GFFFile.raisedInTry fuel (GFFFile.afterHeader f gff)
          (Header.read gff.readUint32BE.2).2 x ∧ y = GFFFile.rethrow x)) ∧
    (gff.readUint32BE.1 ≠ kVersion32 ∧ gff.readUint32BE.1 ≠ kVersion33 →
      ∃ f1, GFFFile.load fuel f gff =
        some (f1, .error (.exception ⟨.unsupportedVersion gff.readUint32BE.1, []⟩))) := by
  constructor
  · intro hv
    rw [load_eq_loadTables fuel f gff hv]
    constructor
    · intro x hr
      refine ⟨loadTables_raised _ _ _ _ hr, ?_⟩
      intro e0 he0
      have hst := raisedInTry_stack _ _ _ _ hr
      rw [he0] at hst
      have hst2 : e0.stack = [] := hst
      rw [he0]
      simp only [GFFFile.rethrow, Exception.add, hst2, List.nil_append]
    · intro f1 y h
      exact loadTables_fault _ _ _ _ _ h
  · intro hv
    exact ⟨_, load_of_rejected fuel f gff hv⟩

set_option maxRecDepth 100000 in
/-- Witness of C24 as amended: on the image whose struct names the field index
5 the exception of `readStructs`, and on the truncated image the read error of
`readFieldData`, are raised inside the `try` block and reach the caller with
the context line. -/
theorem load_annotates_try_block_witness :
    (GFFFile.raisedInTry 3 (GFFFile.afterHeader GFFFile.new ⟨badFieldIndexImage, 0, false⟩)
        (Header.read (SeekableReadStream.readUint32BE ⟨badFieldIndexImage, 0, false⟩).2).2
        (.exception ⟨.fieldIndexOutOfRange 5 2, []⟩) ∧
      ∃ f1, GFFFile.load 3 GFFFile.new ⟨badFieldIndexImage, 0, false⟩ =
        some (f1, .error (.exception ⟨.fieldIndexOutOfRange 5 2, ["Failed reading GFF file"]⟩))) ∧
    (GFFFile.raisedInTry 3 (GFFFile.afterHeader GFFFile.new ⟨truncatedImage, 0, false⟩)
        (Header.read (SeekableReadStream.readUint32BE ⟨truncatedImage, 0, false⟩).2).2
        (.exception ⟨.readError, []⟩) ∧
      ∃ f1, GFFFile.load 3 GFFFile.new ⟨truncatedImage, 0, false⟩ =
        some (f1, .error (.exception ⟨.readError, ["Failed reading GFF file"]⟩))) :=
  have h1 : GFFFile.raisedInTry 3 (GFFFile.afterHeader GFFFile.new ⟨badFieldIndexImage, 0, false⟩)
      (Header.read (SeekableReadStream.readUint32BE ⟨badFieldIndexImage, 0, false⟩).2).2
      (.exception ⟨.fieldIndexOutOfRange 5 2, []⟩) := Or.inl ⟨_, rfl⟩
  have h2 : GFFFile.raisedInTry 3 (GFFFile.afterHeader GFFFile.new ⟨truncatedImage, 0, false⟩)
      (Header.read (SeekableReadStream.readUint32BE ⟨truncatedImage, 0, false⟩).2).2
      (.exception ⟨.readError, []⟩) := Or.inr (Or.inr (Or.inl ⟨_, _, _, _, _, rfl, rfl, rfl⟩))
  ⟨⟨h1, (((load_annotates_try_block 3 GFFFile.new ⟨badFieldIndexImage, 0, false⟩).1
      (by decide)).1 _ h1).1⟩,
   ⟨h2, (((load_annotates_try_block 3 GFFFile.new ⟨truncatedImage, 0, false⟩).1
      (by decide)).1 _ h2).1⟩⟩

/-! ## Label collisions -/

/-- What the map finds after an assignment. -/
theorem FieldMap.find_assign (m : FieldMap) (k l : UString) (v : Field) :
    FieldMap.find (FieldMap.assign m k v) l = if k = l then some v else FieldMap.find m l := by
  induction m with
  | nil => simp [FieldMap.assign, FieldMap.find]
  | cons e m ih =>
    obtain ⟨k1, v1⟩ := e
    by_cases h1 : k1 = k
    · subst h1
      simp only [FieldMap.assign, if_true, FieldMap.find]
      by_cases h2 : k1 = l
      · simp only [if_pos h2]
      · simp only [if_neg h2]
    · simp only [FieldMap.assign, if_neg h1, FieldMap.find, ih]
      by_cases h2 : k1 = l
      · have h3 : ¬ k = l := fun h => h1 (h2.trans h.symm)
        simp only [if_pos h2, if_neg h3]
      · simp only [if_neg h2]

/-- After a sequence of assignments the map finds for a label what the last
entry with that label gave it, and what it held before when there is none. -/
theorem FieldMap.find_foldl_assign (entries : List (UString × Field)) (m : FieldMap)
    (l : UString) :
    FieldMap.find (entries.foldl (fun acc e => FieldMap.assign acc e.1 e.2) m) l =
      match lastEntry entries l with
      | some w => some w
      | none => FieldMap.find m l := by
  induction entries generalizing m with
  | nil => rfl
  | cons e entries ih =>
    obtain ⟨k, v⟩ := e
    rw [List.foldl_cons, ih, FieldMap.find_assign]
    simp only [lastEntry]
    cases lastEntry entries l with
    | some w => rfl
    | none =>
      by_cases hk : k = l
      · simp only [if_pos hk]
      · simp only [if_neg hk]

/-- The keys of the map after an assignment. -/
theorem FieldMap.keys_assign (m : FieldMap) (k : UString) (v : Field) :
    (FieldMap.assign m k v).map Prod.fst =
      if k ∈ m.map Prod.fst then m.map Prod.fst else m.map Prod.fst ++ [k] := by
  induction m with
  | nil => simp [FieldMap.assign]
  | cons e m ih =>
    obtain ⟨k1, v1⟩ := e
    by_cases h1 : k1 = k
    · subst h1
      simp [FieldMap.assign]
    · have h2 : ¬ k = k1 := fun h => h1 h.symm
      simp only [FieldMap.assign, if_neg h1, List.map_cons, ih, List.mem_cons, h2, false_or]
      split <;> simp

/-- After a sequence of assignments the map holds every key once, and its keys
are those it held and those of the entries. -/
theorem FieldMap.keys_foldl_assign (entries : List (UString × Field)) (m : FieldMap)
    (hnd : (m.map Prod.fst).Nodup) :
    ((entries.foldl (fun acc e => FieldMap.assign acc e.1 e.2) m).map Prod.fst).Nodup ∧
    ∀ l, l ∈ (entries.foldl (fun acc e => FieldMap.assign acc e.1 e.2) m).map Prod.fst ↔
      l ∈ m.map Prod.fst ∨ l ∈ entries.map Prod.fst := by
  induction entries generalizing m with
  | nil => simp [hnd]
  | cons e entries ih =>
    have hnd2 : ((FieldMap.assign m e.1 e.2).map Prod.fst).Nodup := by
      rw [FieldMap.keys_assign]
      split
      · exact hnd
      · rename_i hk
        rw [List.nodup_append]
        refine ⟨hnd, by simp, ?_⟩
        intro a ha hb
        simp only [List.mem_singleton] at hb
        exact hk (hb ▸ ha)
    obtain ⟨h1, h2⟩ := ih (FieldMap.assign m e.1 e.2) hnd2
    refine ⟨h1, ?_⟩
    intro l
    rw [List.foldl_cons, h2 l, FieldMap.keys_assign]
    split
    · rename_i hk
      simp only [List.map_cons, List.mem_cons]
      constructor
      · rintro (h | h)
        · exact Or.inl h
        · exact Or.inr (Or.inr h)
      · rintro (h | h | h)
        · exact Or.inl h
        · exact Or.inl (h ▸ hk)
        · exact Or.inr h
    · simp only [List.mem_append, List.mem_singleton, List.map_cons, List.mem_cons]
      tauto

/-- After a sequence of assignments to the empty map the number of entries is
the number of distinct labels. -/
theorem FieldMap.length_foldl_assign (entries : List (UString × Field)) :
    (entries.foldl (fun acc e => FieldMap.assign acc e.1 e.2) []).length =
      (entries.map Prod.fst).dedup.length := by
  obtain ⟨h1, h2⟩ := FieldMap.keys_foldl_assign entries [] List.nodup_nil
  have hlen : (entries.foldl (fun acc e => FieldMap.assign acc e.1 e.2) []).length =
      ((entries.foldl (fun acc e => FieldMap.assign acc e.1 e.2) []).map Prod.fst).length := by
    rw [List.length_map]
  rw [hlen, ← List.toFinset_card_of_nodup h1, ← List.card_toFinset]
  congr 1
  ext l
  simp only [List.mem_toFinset, h2 l, List.map_nil, List.not_mem_nil, false_or]

/-- The entries behind a list of optional entries that are all there. -/
theorem filterMap_of_map_some {α β : Type} (f : α → Option β) (l : List α) (es : List β)
    (h : l.map f = es.map some) : l.filterMap f = es := by
  induction l generalizing es with
  | nil =>
    cases es with
    | nil => rfl
    | cons e es => simp at h
  | cons a l ih =>
    cases es with
    | nil => simp at h
    | cons e es =>
      simp only [List.map_cons, List.cons.injEq] at h
      simp only [List.filterMap_cons, h.1, ih es h.2]

/-- C23: whatever labels the field indices of a struct resolve to, the field map
holds for every label the (type, data) of the entry read last with that label,
and `getFieldCount()` is the number of distinct labels among the entries. -/
theorem GFFStruct_new_last_write_wins (parent : GFFFile) (gff : SeekableReadStream)
    (r : GFFStruct × SeekableReadStream) (id index count : Nat)
    (hdesc : (readUint32LEs 3 gff).1 = [id, index, count])
    (hnew : GFFStruct.new parent gff = .ok r) :
    (∀ l, r.1.getField l =
      lastEntry ((descriptorIndices parent gff.data index count).filterMap
        (fieldAt parent gff.data)) l) ∧
    r.1.getFieldCount =
      (((descriptorIndices parent gff.data index count).filterMap
        (fieldAt parent gff.data)).map Prod.fst).dedup.length := by
  obtain ⟨entries, h1, h2, _⟩ := new_entries parent gff r id index count hdesc hnew
  have hent := filterMap_of_map_some _ _ _ h1
  have hlen : entries.length = count := by
    have := congrArg List.length h1
    simpa [descriptorIndices_length] using this.symm
  have hcount : count < 2 ^ 32 := by
    simp only [readUint32LEs, List.cons.injEq, and_true] at hdesc
    rw [← hdesc.2.2]
    exact leValue_bytesAt_lt _ _
  rw [hent]
  constructor
  · intro l
    simp only [GFFStruct.getField, h2, FieldMap.find_foldl_assign, FieldMap.find]
    cases lastEntry entries l <;> rfl
  · have hle : (entries.map Prod.fst).dedup.length ≤ entries.length := by
      have := (List.dedup_sublist (entries.map Prod.fst)).length_le
      simpa using this
    simp only [GFFStruct.getFieldCount, FieldMap.size, h2, FieldMap.length_foldl_assign]
    exact Nat.mod_eq_of_lt (by omega)

set_option maxRecDepth 100000 in
/-- Witness of C23: in the collision image both field indices resolve to the
label "A"; the struct holds for "A" the sint32 read last, and its field count
is 1. -/
theorem GFFStruct_new_last_write_wins_witness :
    (descriptorIndices sampleParent collisionImage 0 2).map (fieldAt sampleParent collisionImage)
      = [some ([65], Field.new kFieldTypeUint32 1000),
         some ([65], Field.new kFieldTypeSint32 4294967291)] ∧
    GFFStruct.new sampleParent ⟨collisionImage, 52, false⟩ =
      .ok ({ _id := 7, _fields := [([65], Field.new kFieldTypeSint32 4294967291)] },
        ⟨collisionImage, 64, false⟩) ∧
    GFFStruct.getField { _id := 7, _fields := [([65], Field.new kFieldTypeSint32 4294967291)] }
      [65] = some (Field.new kFieldTypeSint32 4294967291) ∧
    GFFStruct.getFieldCount
      { _id := 7, _fields := [([65], Field.new kFieldTypeSint32 4294967291)] } = 1 :=
  ⟨rfl, rfl,
    ((GFFStruct_new_last_write_wins sampleParent ⟨collisionImage, 52, false⟩
      ({ _id := 7, _fields := [([65], Field.new kFieldTypeSint32 4294967291)] },
        ⟨collisionImage, 64, false⟩) 7 0 2 rfl rfl).1 [65]).trans rfl,
    ((GFFStruct_new_last_write_wins sampleParent ⟨collisionImage, 52, false⟩
      ({ _id := 7, _fields := [([65], Field.new kFieldTypeSint32 4294967291)] },
        ⟨collisionImage, 64, false⟩) 7 0 2 rfl rfl).2).trans (by decide)⟩

end Aurora
